import Mathlib

/-!
Verification development for the `mahjong` engine (`mahjong/types.py`,
`mahjong/utils.py`, `mahjong/algo.py`, `mahjong/flow.py`).

Conventions of the shallow embedding:

* A tile is represented by its integer `tile_id` (`Nat`); the Python `Tile`
  instances compare by `tile_id` (`__eq__`, `__cmp__`), so lists of tiles
  become lists of ids, tile ordering becomes `≤` on `Nat`.
* Python lists become `List Nat`; the in-place mutations of the source
  (`bisect.insort`, `del a[i]`, ...) become the corresponding pure list
  operations.
* Machine integers: all quantities are small non-negative counts, except
  `utils.index`, whose Python version returns `-1` for "not found"; it is
  embedded with return type `Int`.
* Fallible code (Python `raise`) is embedded with `Option` results.
-/

namespace Mahjong

/-! ### utils.py / bisect

`utils.index` wraps CPython's `bisect.bisect_left`, and `Hand.add_free_tile`
wraps `bisect.insort` (= `insort_right`, which inserts at `bisect_right`).
Both bisect loops are translated verbatim, with `lo`/`hi` the current
search bounds and `a.getD mid 0` playing the role of `a[mid]` (indices stay
inside the list whenever `hi ≤ len(a)`, as at every call site). -/

/-- Translation of CPython `bisect.bisect_left`'s loop, with the local
`mid = (lo+hi)//2` inlined:
`while lo < hi: if a[mid] < x: lo = mid+1 else: hi = mid`.
The loop terminates because `hi - lo` shrinks at every iteration; the first
argument is an explicit structural bound on the number of iterations (any
`fuel ≥ hi - lo` yields the loop's result, see `bisectLeftAux_spec`). -/
def bisectLeftAux (a : List Nat) (x : Nat) : Nat → Nat → Nat → Nat
  | 0, lo, _hi => lo
  | fuel + 1, lo, hi =>
    if lo < hi then
      if a.getD ((lo + hi) / 2) 0 < x then bisectLeftAux a x fuel ((lo + hi) / 2 + 1) hi
      else bisectLeftAux a x fuel lo ((lo + hi) / 2)
    else lo

/-- Translation of CPython `bisect.bisect_left(a, x)`. -/
def bisect_left (a : List Nat) (x : Nat) : Nat :=
  bisectLeftAux a x a.length 0 a.length

/-- Translation of CPython `bisect.bisect_right`'s loop, with the local
`mid = (lo+hi)//2` inlined:
`while lo < hi: if x < a[mid]: hi = mid else: lo = mid+1`.
Structural iteration bound as in `bisectLeftAux`. -/
def bisectRightAux (a : List Nat) (x : Nat) : Nat → Nat → Nat → Nat
  | 0, lo, _hi => lo
  | fuel + 1, lo, hi =>
    if lo < hi then
      if x < a.getD ((lo + hi) / 2) 0 then bisectRightAux a x fuel lo ((lo + hi) / 2)
      else bisectRightAux a x fuel ((lo + hi) / 2 + 1) hi
    else lo

/-- Translation of CPython `bisect.bisect_right(a, x)`. -/
def bisect_right (a : List Nat) (x : Nat) : Nat :=
  bisectRightAux a x a.length 0 a.length

/-- Translation of `utils.index`: binary search for the leftmost element
equal to `x`, returning `-1` when `x` is absent (hence the `Int` result). -/
def index (a : List Nat) (x : Nat) : Int :=
  let i := bisect_left a x
  if i ≠ a.length ∧ a.getD i 0 = x then (i : Int) else -1

/-- Translation of CPython `list.insert(i, x)` (as used by `insort`):
insert `x` so that it ends up at position `i`. -/
def listInsert (a : List Nat) (i : Nat) (x : Nat) : List Nat :=
  a.take i ++ x :: a.drop i

/-- Translation of CPython `bisect.insort(a, x)` (= `insort_right`):
`a.insert(bisect_right(a, x), x)`. -/
def insort (a : List Nat) (x : Nat) : List Nat :=
  listInsert a (bisect_right a x) x

/-! Correctness of the binary-search layer over sorted lists. -/

lemma sorted_getD_le {a : List Nat} (hs : List.Sorted (· ≤ ·) a) {i j : Nat}
    (hij : i ≤ j) (hj : j < a.length) : a.getD i 0 ≤ a.getD j 0 := by
  rcases Nat.eq_or_lt_of_le hij with rfl | hlt
  · exact le_refl _
  · rw [List.getD_eq_get _ _ (lt_trans hlt hj), List.getD_eq_get _ _ hj]
    exact List.Sorted.rel_get_of_lt hs (by simpa using hlt)

lemma bisectLeftAux_bounds (a : List Nat) (x : Nat) :
    ∀ fuel lo hi, lo ≤ hi →
      lo ≤ bisectLeftAux a x fuel lo hi ∧ bisectLeftAux a x fuel lo hi ≤ hi := by
  intro fuel
  induction fuel with
  | zero => intro lo hi h; rw [bisectLeftAux]; omega
  | succ n ih =>
    intro lo hi h
    rw [bisectLeftAux]
    split
    case isTrue h1 =>
      split
      case isTrue h2 => have := ih ((lo + hi) / 2 + 1) hi (by omega); omega
      case isFalse h2 => have := ih lo ((lo + hi) / 2) (by omega); omega
    case isFalse h1 => omega

lemma bisectRightAux_bounds (a : List Nat) (x : Nat) :
    ∀ fuel lo hi, lo ≤ hi →
      lo ≤ bisectRightAux a x fuel lo hi ∧ bisectRightAux a x fuel lo hi ≤ hi := by
  intro fuel
  induction fuel with
  | zero => intro lo hi h; rw [bisectRightAux]; omega
  | succ n ih =>
    intro lo hi h
    rw [bisectRightAux]
    split
    case isTrue h1 =>
      split
      case isTrue h2 => have := ih lo ((lo + hi) / 2) (by omega); omega
      case isFalse h2 => have := ih ((lo + hi) / 2 + 1) hi (by omega); omega
    case isFalse h1 => omega

lemma bisectLeftAux_spec (a : List Nat) (x : Nat) (hs : List.Sorted (· ≤ ·) a) :
    ∀ fuel lo hi, hi - lo ≤ fuel → lo ≤ hi → hi ≤ a.length →
      (∀ i, i < lo → i < a.length → a.getD i 0 < x) →
      (∀ i, hi ≤ i → i < a.length → x ≤ a.getD i 0) →
      (∀ i, i < bisectLeftAux a x fuel lo hi → i < a.length → a.getD i 0 < x) ∧
      (∀ i, bisectLeftAux a x fuel lo hi ≤ i → i < a.length → x ≤ a.getD i 0) := by
  intro fuel
  induction fuel with
  | zero =>
    intro lo hi hfuel hle hlen hlow hhigh
    rw [bisectLeftAux]
    exact ⟨hlow, fun i hi1 hi2 => hhigh i (by omega) hi2⟩
  | succ n ih =>
    intro lo hi hfuel hle hlen hlow hhigh
    rw [bisectLeftAux]
    split
    case isTrue h1 =>
      split
      case isTrue h2 =>
        refine ih ((lo + hi) / 2 + 1) hi (by omega) (by omega) hlen ?_ hhigh
        intro i hi1 hi2
        rcases Nat.lt_or_ge i ((lo + hi) / 2) with hlt | hge
        · calc a.getD i 0 ≤ a.getD ((lo + hi) / 2) 0 :=
                sorted_getD_le hs (le_of_lt hlt) (by omega)
            _ < x := h2
        · have : i = (lo + hi) / 2 := by omega
          rw [this]; exact h2
      case isFalse h2 =>
        refine ih lo ((lo + hi) / 2) (by omega) (by omega) (by omega) hlow ?_
        intro i hi1 hi2
        calc x ≤ a.getD ((lo + hi) / 2) 0 := Nat.le_of_not_lt h2
          _ ≤ a.getD i 0 := sorted_getD_le hs hi1 hi2
    case isFalse h1 =>
      exact ⟨hlow, fun i hi1 hi2 => hhigh i (by omega) hi2⟩

lemma bisectRightAux_spec (a : List Nat) (x : Nat) (hs : List.Sorted (· ≤ ·) a) :
    ∀ fuel lo hi, hi - lo ≤ fuel → lo ≤ hi → hi ≤ a.length →
      (∀ i, i < lo → i < a.length → a.getD i 0 ≤ x) →
      (∀ i, hi ≤ i → i < a.length → x < a.getD i 0) →
      (∀ i, i < bisectRightAux a x fuel lo hi → i < a.length → a.getD i 0 ≤ x) ∧
      (∀ i, bisectRightAux a x fuel lo hi ≤ i → i < a.length → x < a.getD i 0) := by
  intro fuel
  induction fuel with
  | zero =>
    intro lo hi hfuel hle hlen hlow hhigh
    rw [bisectRightAux]
    exact ⟨hlow, fun i hi1 hi2 => hhigh i (by omega) hi2⟩
  | succ n ih =>
    intro lo hi hfuel hle hlen hlow hhigh
    rw [bisectRightAux]
    split
    case isTrue h1 =>
      split
      case isTrue h2 =>
        refine ih lo ((lo + hi) / 2) (by omega) (by omega) (by omega) hlow ?_
        intro i hi1 hi2
        calc x < a.getD ((lo + hi) / 2) 0 := h2
          _ ≤ a.getD i 0 := sorted_getD_le hs hi1 hi2
      case isFalse h2 =>
        refine ih ((lo + hi) / 2 + 1) hi (by omega) (by omega) hlen ?_ hhigh
        intro i hi1 hi2
        rcases Nat.lt_or_ge i ((lo + hi) / 2) with hlt | hge
        · calc a.getD i 0 ≤ a.getD ((lo + hi) / 2) 0 :=
                sorted_getD_le hs (le_of_lt hlt) (by omega)
            _ ≤ x := Nat.le_of_not_lt h2
        · have : i = (lo + hi) / 2 := by omega
          rw [this]; exact Nat.le_of_not_lt h2
    case isFalse h1 =>
      exact ⟨hlow, fun i hi1 hi2 => hhigh i (by omega) hi2⟩

lemma bisect_left_le_length (a : List Nat) (x : Nat) : bisect_left a x ≤ a.length :=
  (bisectLeftAux_bounds a x a.length 0 a.length (Nat.zero_le _)).2

lemma bisect_right_le_length (a : List Nat) (x : Nat) : bisect_right a x ≤ a.length :=
  (bisectRightAux_bounds a x a.length 0 a.length (Nat.zero_le _)).2

lemma bisect_left_spec {a : List Nat} {x : Nat} (hs : List.Sorted (· ≤ ·) a) :
    (∀ i, i < bisect_left a x → i < a.length → a.getD i 0 < x) ∧
    (∀ i, bisect_left a x ≤ i → i < a.length → x ≤ a.getD i 0) :=
  bisectLeftAux_spec a x hs a.length 0 a.length (by omega) (Nat.zero_le _)
    (le_refl _) (by omega) (by omega)

lemma bisect_right_spec {a : List Nat} {x : Nat} (hs : List.Sorted (· ≤ ·) a) :
    (∀ i, i < bisect_right a x → i < a.length → a.getD i 0 ≤ x) ∧
    (∀ i, bisect_right a x ≤ i → i < a.length → x < a.getD i 0) :=
  bisectRightAux_spec a x hs a.length 0 a.length (by omega) (Nat.zero_le _)
    (le_refl _) (by omega) (by omega)

lemma getD_mem {a : List Nat} {i : Nat} (h : i < a.length) : a.getD i 0 ∈ a := by
  rw [List.getD_eq_get _ _ h]
  exact List.get_mem a _ h

lemma mem_getD {a : List Nat} {x : Nat} (h : x ∈ a) :
    ∃ j, j < a.length ∧ a.getD j 0 = x := by
  obtain ⟨⟨j, hj⟩, rfl⟩ := List.mem_iff_get.mp h
  exact ⟨j, hj, List.getD_eq_get _ _ hj⟩

lemma index_of_mem {a : List Nat} {x : Nat} (hs : List.Sorted (· ≤ ·) a)
    (hx : x ∈ a) :
    index a x = (bisect_left a x : Int) ∧ bisect_left a x < a.length ∧
      a.getD (bisect_left a x) 0 = x := by
  obtain ⟨j, hj, hval⟩ := mem_getD hx
  obtain ⟨hlow, hhigh⟩ := bisect_left_spec (x := x) hs
  have hblj : bisect_left a x ≤ j := by
    by_contra hcon
    exact absurd hval (Nat.ne_of_lt (hlow j (by omega) hj))
  have hbl_lt : bisect_left a x < a.length := by omega
  have hle : x ≤ a.getD (bisect_left a x) 0 := hhigh _ (le_refl _) hbl_lt
  have hge : a.getD (bisect_left a x) 0 ≤ x := by
    have := sorted_getD_le hs hblj hj
    omega
  have heq : a.getD (bisect_left a x) 0 = x := le_antisymm hge hle
  refine ⟨?_, hbl_lt, heq⟩
  rw [index]
  simp only [if_pos (⟨by omega, heq⟩ : bisect_left a x ≠ a.length ∧ _)]

lemma index_of_not_mem {a : List Nat} {x : Nat} (hx : x ∉ a) :
    index a x = -1 := by
  rw [index]
  split
  case isTrue h =>
    exact absurd (h.2 ▸ getD_mem (Nat.lt_of_le_of_ne (bisect_left_le_length a x) h.1)) hx
  case isFalse h => rfl

lemma index_nonneg_iff {a : List Nat} {x : Nat} (hs : List.Sorted (· ≤ ·) a) :
    0 ≤ index a x ↔ x ∈ a := by
  constructor
  · intro h
    by_contra hcon
    rw [index_of_not_mem hcon] at h
    omega
  · intro h
    rw [(index_of_mem hs h).1]
    exact Int.ofNat_nonneg _

/-! Canonical shape of a sorted list around a value `x`: everything below
`x`, then the block of copies of `x`, then everything above `x`. -/

lemma sorted_decomp (x : Nat) :
    ∀ a : List Nat, List.Sorted (· ≤ ·) a →
      a = a.filter (fun y => y < x) ++ List.replicate (a.count x) x ++
        a.filter (fun y => x < y) := by
  intro a hs
  induction a with
  | nil => simp
  | cons hd tl ih =>
    rw [List.sorted_cons] at hs
    obtain ⟨hhd, hstl⟩ := hs
    rcases lt_trichotomy hd x with hlt | heq | hgt
    · have h1 : (hd :: tl).filter (fun y => decide (y < x)) =
          hd :: tl.filter (fun y => decide (y < x)) := by
        simp [List.filter_cons, hlt]
      have h2 : (hd :: tl).count x = tl.count x := by
        simp [List.count_cons, Nat.ne_of_lt' hlt]
      have h3 : (hd :: tl).filter (fun y => decide (x < y)) =
          tl.filter (fun y => decide (x < y)) := by
        simp [List.filter_cons, Nat.not_lt.mpr (le_of_lt hlt)]
      calc hd :: tl = hd :: (tl.filter (fun y => decide (y < x)) ++
              List.replicate (tl.count x) x ++ tl.filter (fun y => decide (x < y))) := by
            rw [← ih hstl]
        _ = _ := by rw [h1, h2, h3]; simp
    · subst heq
      have htl : tl.filter (fun y => decide (y < hd)) = [] := by
        apply List.filter_eq_nil.mpr
        intro y hy
        simpa using Nat.not_lt.mpr (hhd y hy)
      have h1 : (hd :: tl).filter (fun y => decide (y < hd)) = [] := by
        simp [List.filter_cons, htl]
      have h2 : (hd :: tl).count hd = tl.count hd + 1 := by
        simp [List.count_cons]
      calc hd :: tl = hd :: ([] ++ List.replicate (tl.count hd) hd ++
              tl.filter (fun y => decide (hd < y))) := by
            rw [← htl, ← ih hstl]
        _ = _ := by
            rw [h1, h2, List.replicate_succ]
            simp [List.filter_cons]
    · have hall : ∀ y ∈ hd :: tl, x < y := by
        intro y hy
        rcases List.mem_cons.mp hy with rfl | hmem
        · exact hgt
        · exact lt_of_lt_of_le hgt (hhd y hmem)
      have h1 : (hd :: tl).filter (fun y => decide (y < x)) = [] := by
        apply List.filter_eq_nil.mpr
        intro y hy
        simpa using Nat.not_lt.mpr (le_of_lt (hall y hy))
      have h2 : (hd :: tl).count x = 0 := by
        apply List.count_eq_zero.mpr
        intro hmem
        exact absurd rfl (Nat.ne_of_lt (hall x hmem))
      have h3 : (hd :: tl).filter (fun y => decide (x < y)) = hd :: tl := by
        apply List.filter_eq_self.mpr
        intro y hy
        simpa using hall y hy
      rw [h1, h2, h3]
      simp

lemma decomp_length {a : List Nat} {x : Nat} (hs : List.Sorted (· ≤ ·) a) :
    a.length = (a.filter (fun y => y < x)).length + a.count x +
      (a.filter (fun y => x < y)).length := by
  have h := congrArg List.length (sorted_decomp x a hs)
  simp [List.length_append] at h
  omega

lemma decomp_getD_low {a : List Nat} {x i : Nat} (hs : List.Sorted (· ≤ ·) a)
    (hi : i < (a.filter (fun y => y < x)).length) : a.getD i 0 < x := by
  have hmem : (a.filter (fun y => decide (y < x))).getD i 0 ∈
      a.filter (fun y => decide (y < x)) := getD_mem hi
  have hval : a.getD i 0 = (a.filter (fun y => decide (y < x))).getD i 0 := by
    conv_lhs => rw [sorted_decomp x a hs]
    rw [List.append_assoc, List.getD_append _ _ _ _ hi]
  rw [hval]
  simpa using (List.mem_filter.mp hmem).2

lemma decomp_getD_mid {a : List Nat} {x i : Nat} (hs : List.Sorted (· ≤ ·) a)
    (h1 : (a.filter (fun y => y < x)).length ≤ i)
    (h2 : i < (a.filter (fun y => y < x)).length + a.count x) :
    a.getD i 0 = x := by
  conv_lhs => rw [sorted_decomp x a hs]
  rw [List.append_assoc,
    List.getD_append_right _ _ _ _ h1,
    List.getD_append _ _ _ _ (by simp [List.length_replicate]; omega)]
  have hlt : i - (a.filter (fun y => decide (y < x))).length < a.count x := by
    omega
  rw [List.getD_eq_get _ _ (by simpa using hlt)]
  exact List.get_replicate x _

lemma decomp_getD_high {a : List Nat} {x i : Nat} (hs : List.Sorted (· ≤ ·) a)
    (h1 : (a.filter (fun y => y < x)).length + a.count x ≤ i)
    (h2 : i < a.length) : x < a.getD i 0 := by
  have hval : a.getD i 0 = (a.filter (fun y => decide (x < y))).getD
      (i - ((a.filter (fun y => decide (y < x))).length + a.count x)) 0 := by
    conv_lhs => rw [sorted_decomp x a hs]
    rw [List.append_assoc,
      List.getD_append_right _ _ _ _ (by omega),
      List.getD_append_right _ _ _ _ (by simp [List.length_replicate]; omega)]
    congr 1
    simp [List.length_replicate]
    omega
  have hlen : i - ((a.filter (fun y => decide (y < x))).length + a.count x) <
      (a.filter (fun y => decide (x < y))).length := by
    have := decomp_length (x := x) hs
    omega
  have hmem : (a.filter (fun y => decide (x < y))).getD
      (i - ((a.filter (fun y => decide (y < x))).length + a.count x)) 0 ∈
      a.filter (fun y => decide (x < y)) := getD_mem hlen
  rw [hval]
  simpa using (List.mem_filter.mp hmem).2

lemma bisect_left_eq {a : List Nat} {x : Nat} (hs : List.Sorted (· ≤ ·) a) :
    bisect_left a x = (a.filter (fun y => y < x)).length := by
  obtain ⟨hlow, hhigh⟩ := bisect_left_spec (x := x) hs
  have hlen := decomp_length (x := x) hs
  have hble := bisect_left_le_length a x
  rcases Nat.lt_trichotomy (bisect_left a x) ((a.filter (fun y => y < x)).length)
    with hlt | heq | hgt
  · exfalso
    have hx := hhigh _ (le_refl _) (by omega)
    have := decomp_getD_low (i := bisect_left a x) hs hlt
    omega
  · exact heq
  · exfalso
    have hflt : (a.filter (fun y => y < x)).length < a.length := by omega
    have hx := hlow _ hgt hflt
    rcases Nat.eq_zero_or_pos (a.count x) with hc | hc
    · have := decomp_getD_high (x := x) (i := (a.filter (fun y => y < x)).length) hs
        (by omega) hflt
      omega
    · have := decomp_getD_mid (x := x) (i := (a.filter (fun y => y < x)).length) hs
        (le_refl _) (by omega)
      omega

lemma bisect_right_eq {a : List Nat} {x : Nat} (hs : List.Sorted (· ≤ ·) a) :
    bisect_right a x = (a.filter (fun y => y < x)).length + a.count x := by
  obtain ⟨hlow, hhigh⟩ := bisect_right_spec (x := x) hs
  have hlen := decomp_length (x := x) hs
  have hble := bisect_right_le_length a x
  rcases Nat.lt_trichotomy (bisect_right a x)
    ((a.filter (fun y => y < x)).length + a.count x) with hlt | heq | hgt
  · exfalso
    rcases Nat.lt_or_ge (bisect_right a x) ((a.filter (fun y => y < x)).length)
      with h1 | h1
    · have hx := hhigh _ (le_refl _) (by omega)
      have := decomp_getD_low (i := bisect_right a x) hs h1
      omega
    · have hx := hhigh _ (le_refl _) (by omega)
      have := decomp_getD_mid (i := bisect_right a x) hs h1 hlt
      omega
  · exact heq
  · exfalso
    have hx := hlow _ hgt (by omega)
    have := decomp_getD_high (x := x)
      (i := (a.filter (fun y => y < x)).length + a.count x) hs (le_refl _) (by omega)
    omega

/-! Sortedness and multiset effect of `insort`. -/

lemma mem_take_imp {a : List Nat} {n y : Nat} (h : y ∈ a.take n) :
    ∃ j, j < n ∧ j < a.length ∧ a.getD j 0 = y := by
  obtain ⟨⟨j, hj⟩, rfl⟩ := List.mem_iff_get.mp h
  have hj0 := hj
  simp [List.length_take] at hj0
  refine ⟨j, hj0.1, hj0.2, ?_⟩
  rw [List.getD_eq_get _ _ hj0.2]
  simp [List.get_eq_getElem, List.getElem_take]

lemma mem_drop_imp {a : List Nat} {n y : Nat} (h : y ∈ a.drop n) :
    ∃ j, n ≤ j ∧ j < a.length ∧ a.getD j 0 = y := by
  obtain ⟨⟨j, hj⟩, rfl⟩ := List.mem_iff_get.mp h
  have hj0 := hj
  simp [List.length_drop] at hj0
  have hj' : n + j < a.length := by omega
  refine ⟨n + j, by omega, hj', ?_⟩
  rw [List.getD_eq_get _ _ hj']
  simp [List.get_eq_getElem, List.getElem_drop]

lemma insort_perm (a : List Nat) (x : Nat) : List.Perm (insort a x) (x :: a) := by
  rw [insort, listInsert]
  have h1 : List.Perm
      (a.take (bisect_right a x) ++ x :: a.drop (bisect_right a x))
      (x :: (a.take (bisect_right a x) ++ a.drop (bisect_right a x))) :=
    List.perm_middle
  rw [List.take_append_drop] at h1
  exact h1

lemma insort_sorted {a : List Nat} (hs : List.Sorted (· ≤ ·) a) (x : Nat) :
    List.Sorted (· ≤ ·) (insort a x) := by
  obtain ⟨hlow, hhigh⟩ := bisect_right_spec (x := x) hs
  rw [insort, listInsert]
  rw [List.Sorted, List.pairwise_append]
  refine ⟨hs.sublist (List.take_sublist _ _), ?_, ?_⟩
  · rw [List.pairwise_cons]
    refine ⟨?_, hs.sublist (List.drop_sublist _ _)⟩
    intro y hy
    obtain ⟨j, hj1, hj2, rfl⟩ := mem_drop_imp hy
    exact le_of_lt (hhigh j hj1 hj2)
  · intro u hu v hv
    obtain ⟨j, hj1, hj2, rfl⟩ := mem_take_imp hu
    have hux : a.getD j 0 ≤ x := hlow j hj1 hj2
    rcases List.mem_cons.mp hv with rfl | hv'
    · exact hux
    · obtain ⟨k, hk1, hk2, rfl⟩ := mem_drop_imp hv'
      exact le_of_lt (lt_of_le_of_lt hux (hhigh k hk1 hk2))

lemma insort_count (a : List Nat) (x y : Nat) :
    (insort a x).count y = (x :: a).count y :=
  (insort_perm a x).count_eq y

lemma insort_mem (a : List Nat) (x y : Nat) :
    y ∈ insort a x ↔ y = x ∨ y ∈ a := by
  rw [(insort_perm a x).mem_iff]
  simp

lemma insort_length (a : List Nat) (x : Nat) :
    (insort a x).length = a.length + 1 := by
  rw [(insort_perm a x).length_eq]
  rfl

/-- Translation of the `while` loop inside `Hand.count`:
`while idx < len(a) and a[idx] == tile: count += 1; idx += 1`.
The loop terminates because `len(a) - idx` shrinks; the third argument is an
explicit structural bound on the iteration count (callers pass `len(a)`,
which always suffices). -/
def countFrom (a : List Nat) (x : Nat) : Nat → Nat → Nat
  | 0, _idx => 0
  | fuel + 1, idx =>
    if idx < a.length then
      (if a.getD idx 0 = x then countFrom a x fuel (idx + 1) + 1 else 0)
    else 0

lemma countFrom_spec (a : List Nat) (x : Nat) :
    ∀ fuel c i, a.length - i ≤ fuel →
      (∀ j, j < c → i + j < a.length ∧ a.getD (i + j) 0 = x) →
      (i + c < a.length → a.getD (i + c) 0 ≠ x) →
      countFrom a x fuel i = c := by
  intro fuel
  induction fuel with
  | zero =>
    intro c i hfuel h1 h2
    rw [countFrom]
    rcases Nat.eq_zero_or_pos c with rfl | hc
    · rfl
    · exfalso
      have := (h1 0 hc).1
      omega
  | succ n ih =>
    intro c i hfuel h1 h2
    rcases Nat.eq_zero_or_pos c with rfl | hc
    · simp only [Nat.add_zero] at h2
      rw [countFrom]
      split
      case isTrue h => rw [if_neg (h2 h)]
      case isFalse h => rfl
    · obtain ⟨m, rfl⟩ : ∃ m, c = m + 1 := ⟨c - 1, by omega⟩
      obtain ⟨hlen, hval⟩ := h1 0 (by omega)
      rw [countFrom, if_pos (by omega), if_pos (by simpa using hval)]
      have := ih m (i + 1) (by omega)
        (fun j hj => by
          have := h1 (j + 1) (by omega)
          constructor
          · omega
          · have heq : i + 1 + j = i + (j + 1) := by omega
            rw [heq]; exact this.2)
        (by
          intro hl
          have heq : i + 1 + m = i + (m + 1) := by omega
          rw [heq] at hl ⊢
          exact h2 hl)
      omega

lemma countFrom_bisect_left {a : List Nat} {x : Nat} (hs : List.Sorted (· ≤ ·) a) :
    countFrom a x a.length (bisect_left a x) = a.count x := by
  rw [bisect_left_eq hs]
  have hlen := decomp_length (x := x) hs
  apply countFrom_spec
  · omega
  · intro j hj
    constructor
    · omega
    · exact decomp_getD_mid hs (by omega) (by omega)
  · intro hl
    exact Nat.ne_of_gt (decomp_getD_high hs (le_refl _) hl)

/-- Translation of Python `sorted(l)`: the source only relies on the
sortedness/permutation contract of `sorted`; it is realized here as
insertion sort built on the verified `insort`. -/
def pySort (l : List Nat) : List Nat := l.foldl insort []

lemma foldl_insort_sorted {acc : List Nat} (hs : List.Sorted (· ≤ ·) acc) :
    ∀ l : List Nat, List.Sorted (· ≤ ·) (l.foldl insort acc) := by
  intro l
  induction l generalizing acc with
  | nil => exact hs
  | cons x t ih => exact ih (insort_sorted hs x)

lemma foldl_insort_perm (l : List Nat) :
    ∀ acc : List Nat, List.Perm (l.foldl insort acc) (acc ++ l) := by
  induction l with
  | nil => intro acc; simp
  | cons x t ih =>
    intro acc
    have h1 : (x :: t).foldl insort acc = t.foldl insort (insort acc x) := rfl
    rw [h1]
    have h2 := ih (insort acc x)
    have h3 : List.Perm ((insort acc x) ++ t) ((x :: acc) ++ t) :=
      (insort_perm acc x).append_right t
    have h4 : List.Perm ((x :: acc) ++ t) (acc ++ x :: t) :=
      List.Perm.symm List.perm_middle
    exact h2.trans (h3.trans h4)

lemma pySort_sorted (l : List Nat) : List.Sorted (· ≤ ·) (pySort l) :=
  foldl_insort_sorted (List.sorted_nil) l

lemma pySort_perm (l : List Nat) : List.Perm (pySort l) l := by
  have := foldl_insort_perm l []
  simpa using this

/-! ### types.py: `Tile`

Tiles are identified by their `tile_id` (the `Tile` class compares,
hashes and sorts by `tile_id`).  The `ID_*`, `SUIT_*` and `MASK_*` class
constants are reproduced verbatim; `suit` is the suit-assignment chain of
`Tile.__init__` (which raises for ids outside the catalog — such ids never
arise, every tile comes from the fixed `Tile.ALL` catalog built at load
time). -/

def ID_CHAR1 : Nat := 0x0101
def ID_CHAR2 : Nat := 0x0102
def ID_CHAR3 : Nat := 0x0103
def ID_CHAR4 : Nat := 0x0104
def ID_CHAR5 : Nat := 0x0105
def ID_CHAR6 : Nat := 0x0106
def ID_CHAR7 : Nat := 0x0107
def ID_CHAR8 : Nat := 0x0108
def ID_CHAR9 : Nat := 0x0109
def ID_CIRCLE1 : Nat := 0x0201
def ID_CIRCLE2 : Nat := 0x0202
def ID_CIRCLE3 : Nat := 0x0203
def ID_CIRCLE4 : Nat := 0x0204
def ID_CIRCLE5 : Nat := 0x0205
def ID_CIRCLE6 : Nat := 0x0206
def ID_CIRCLE7 : Nat := 0x0207
def ID_CIRCLE8 : Nat := 0x0208
def ID_CIRCLE9 : Nat := 0x0209
def ID_BAMBOO1 : Nat := 0x0401
def ID_BAMBOO2 : Nat := 0x0402
def ID_BAMBOO3 : Nat := 0x0403
def ID_BAMBOO4 : Nat := 0x0404
def ID_BAMBOO5 : Nat := 0x0405
def ID_BAMBOO6 : Nat := 0x0406
def ID_BAMBOO7 : Nat := 0x0407
def ID_BAMBOO8 : Nat := 0x0408
def ID_BAMBOO9 : Nat := 0x0409
def ID_EAST : Nat := 0x1000
def ID_SOUTH : Nat := 0x1002
def ID_WEST : Nat := 0x1004
def ID_NORTH : Nat := 0x1006
def ID_RED : Nat := 0x1800
def ID_GREEN : Nat := 0x1802
def ID_WHITE : Nat := 0x1804
def ID_PLUM : Nat := 0x4000
def ID_ORCHID : Nat := 0x4002
def ID_BAMBOO : Nat := 0x4004
def ID_CHRYSANTH : Nat := 0x4006
def ID_SPRING : Nat := 0x6000
def ID_SUMMER : Nat := 0x6002
def ID_AUTUMN : Nat := 0x6004
def ID_WINTER : Nat := 0x6006

def SUIT_CHAR : Nat := 0x0100
def SUIT_CIRCLE : Nat := 0x0200
def SUIT_BAMBOO : Nat := 0x0400
def SUIT_WIND : Nat := 0x1000
def SUIT_DRAGON : Nat := 0x1800
def SUIT_FLOWER : Nat := 0x4000
def SUIT_SEASON : Nat := 0x6000

def MASK_CHAR : Nat := 0x0100
def MASK_CIRCLE : Nat := 0x0200
def MASK_BAMBOO : Nat := 0x0400
def MASK_HONOR : Nat := 0x1000
def MASK_FLOWER : Nat := 0x4000
def MASK_DRAGON : Nat := 0x0800
def MASK_SEASON : Nat := 0x2000

/-- Suit assignment of `Tile.__init__` (the mask chain); returns `0` for the
ids the Python constructor rejects with `ValueError` (never reached: every
tile in play is one of the 42 catalog ids). -/
def suit (tile_id : Nat) : Nat :=
  if MASK_CHAR &&& tile_id ≠ 0 then SUIT_CHAR
  else if MASK_CIRCLE &&& tile_id ≠ 0 then SUIT_CIRCLE
  else if MASK_BAMBOO &&& tile_id ≠ 0 then SUIT_BAMBOO
  else if MASK_HONOR &&& tile_id ≠ 0 then
    (if MASK_DRAGON &&& tile_id ≠ 0 then SUIT_DRAGON else SUIT_WIND)
  else if MASK_FLOWER &&& tile_id ≠ 0 then
    (if MASK_SEASON &&& tile_id ≠ 0 then SUIT_SEASON else SUIT_FLOWER)
  else 0

def is_char (t : Nat) : Bool := suit t == SUIT_CHAR
def is_circle (t : Nat) : Bool := suit t == SUIT_CIRCLE
def is_bamboo (t : Nat) : Bool := suit t == SUIT_BAMBOO
def is_honor (t : Nat) : Bool := suit t == SUIT_WIND || suit t == SUIT_DRAGON
def is_wind (t : Nat) : Bool := suit t == SUIT_WIND
def is_dragon (t : Nat) : Bool := suit t == SUIT_DRAGON
def is_general_flower (t : Nat) : Bool := suit t == SUIT_FLOWER || suit t == SUIT_SEASON
def is_special_flower (t : Nat) : Bool := suit t == SUIT_FLOWER
def is_season (t : Nat) : Bool := suit t == SUIT_SEASON

/-- The 42 tile ids of the fixed catalog `Tile.ALL`, in increasing
`tile_id` order. -/
def catalogIds : List Nat :=
  [ID_CHAR1, ID_CHAR2, ID_CHAR3, ID_CHAR4, ID_CHAR5, ID_CHAR6, ID_CHAR7,
   ID_CHAR8, ID_CHAR9,
   ID_CIRCLE1, ID_CIRCLE2, ID_CIRCLE3, ID_CIRCLE4, ID_CIRCLE5, ID_CIRCLE6,
   ID_CIRCLE7, ID_CIRCLE8, ID_CIRCLE9,
   ID_BAMBOO1, ID_BAMBOO2, ID_BAMBOO3, ID_BAMBOO4, ID_BAMBOO5, ID_BAMBOO6,
   ID_BAMBOO7, ID_BAMBOO8, ID_BAMBOO9,
   ID_EAST, ID_SOUTH, ID_WEST, ID_NORTH, ID_RED, ID_GREEN, ID_WHITE,
   ID_PLUM, ID_ORCHID, ID_BAMBOO, ID_CHRYSANTH,
   ID_SPRING, ID_SUMMER, ID_AUTUMN, ID_WINTER]

/-! ### types.py: `TileGroup` -/

/-- Translation of `TileGroup`: a fixed (melded) group of 3 or 4 tiles.
`tiles` is kept sorted (the constructor sorts). -/
structure TileGroup where
  tiles : List Nat
  group_type : Nat
deriving DecidableEq

namespace TileGroup

def CHOW : Nat := 0
def PONG : Nat := 1
def KONG_EXPOSED : Nat := 2
def KONG_CONCEALED : Nat := 3

/-- Translation of `TileGroup.__init__`: validates the tile count and group
type (Python raises `ValueError`, embedded as `none`) and sorts the tiles. -/
def init (tiles : List Nat) (group_type : Nat) : Option TileGroup :=
  if tiles.length ≠ 3 ∧ tiles.length ≠ 4 then none
  else if KONG_CONCEALED < group_type then none
  else some ⟨pySort tiles, group_type⟩

end TileGroup

/-! ### types.py: `Hand` -/

/-- Translation of `Hand`: sorted free tiles, melded fixed groups, flower
side-collection and the pending (just drawn) `last_tile`. -/
structure Hand where
  free_tiles : List Nat
  fixed_groups : List TileGroup
  flowers : List Nat
  last_tile : Option Nat
deriving DecidableEq

namespace Hand

/-- Translation of `Hand.__init__(tiles)`. -/
def init (tiles : List Nat) : Hand := ⟨pySort tiles, [], [], none⟩

/-- Translation of `Hand.add_free_tile` (`bisect.insort`). -/
def add_free_tile (h : Hand) (tile : Nat) : Hand :=
  { h with free_tiles := insort h.free_tiles tile }

/-- Translation of `Hand.add_free_tiles`. -/
def add_free_tiles (h : Hand) (tiles : List Nat) : Hand :=
  tiles.foldl add_free_tile h

/-- Translation of `Hand.remove_free_tile`; the Python `ValueError` when the
tile is absent becomes `none`. -/
def remove_free_tile (h : Hand) (tile : Nat) : Option Hand :=
  let i := index h.free_tiles tile
  if i < 0 then none
  else some { h with free_tiles := h.free_tiles.eraseIdx i.toNat }

/-- Translation of `Hand.move_last_tile`: returns the updated hand together
with the Python return value. -/
def move_last_tile (h : Hand) : Hand × Option Nat :=
  match h.last_tile with
  | some t => ({ h with free_tiles := insort h.free_tiles t, last_tile := none }, some t)
  | none => (h, none)

/-- Translation of `Hand.remove_last_tile`. -/
def remove_last_tile (h : Hand) : Hand × Option Nat :=
  ({ h with last_tile := none }, h.last_tile)

/-- Translation of `Hand.count(tile, last_tile, free_tiles, fixed_groups)`
(the keyword defaults are `true, true, false`; they are passed explicitly
here).  The free-tile part is the binary search plus the scan-right `while`
loop. -/
def count (h : Hand) (tile : Nat) (lastF freeF fixedF : Bool) : Nat :=
  (if lastF ∧ h.last_tile = some tile then 1 else 0) +
  (if freeF then
    (if 0 ≤ index h.free_tiles tile then
      countFrom h.free_tiles tile h.free_tiles.length (index h.free_tiles tile).toNat
     else 0)
   else 0) +
  (if fixedF then (h.fixed_groups.map (fun g => g.tiles.count tile)).sum else 0)

/-- Translation of `Hand.contains(tile, last_tile, free_tiles, fixed_groups,
flowers)` (keyword defaults `true, true, false, false`, passed explicitly). -/
def contains (h : Hand) (tile : Nat) (lastF freeF fixedF flowersF : Bool) : Bool :=
  (lastF && (h.last_tile == some tile)) ||
  (freeF && decide (0 ≤ index h.free_tiles tile)) ||
  (fixedF && h.fixed_groups.any (fun g => g.tiles.contains tile)) ||
  (flowersF && h.flowers.contains tile)

/-- Translation of `Hand.add_flower`. -/
def add_flower (h : Hand) (tile : Nat) : Hand :=
  { h with flowers := h.flowers ++ [tile] }

/-- Translation of `Hand.move_flowers`: flowers among the free tiles are
appended to the flower collection (in list order) and filtered out of the
free tiles; a flower pending as `last_tile` is moved as well. -/
def move_flowers (h : Hand) : Hand :=
  let moved := h.free_tiles.filter (fun t => is_general_flower t)
  let h1 : Hand := { h with flowers := h.flowers ++ moved,
                            free_tiles := h.free_tiles.filter (fun t => !is_general_flower t) }
  match h1.last_tile with
  | some t =>
      if is_general_flower t then
        { h1 with flowers := h1.flowers ++ [t], last_tile := none }
      else h1
  | none => h1

/-- Truthiness fallback on optional tiles: Python's `tile or fallback`
(every tile object is truthy). -/
def orTile (tile fallback : Option Nat) : Option Nat :=
  if tile.isSome then tile else fallback

/-- Translation of `Hand.discard(tile)`: `tile or last_tile` is removed; if
it equals `last_tile` the pending slot is simply cleared, otherwise it is
removed from the free tiles (raising = `none` when absent) and the pending
tile is merged into the free tiles. -/
def discard (h : Hand) (tile : Option Nat) : Option Hand :=
  if h.last_tile = orTile tile h.last_tile then some { h with last_tile := none }
  else
    match orTile tile h.last_tile with
    | none => none
    | some tv =>
      match h.remove_free_tile tv with
      | none => none
      | some h2 => some (h2.move_last_tile).1

/-- Translation of `Hand.num_kongs(exposed, concealed)` (defaults `true,
true`, passed explicitly). -/
def num_kongs (h : Hand) (exposed concealed : Bool) : Nat :=
  (h.fixed_groups.map (fun g =>
    if exposed && g.group_type == TileGroup.KONG_EXPOSED then 1
    else if concealed && g.group_type == TileGroup.KONG_CONCEALED then 1
    else 0)).sum

/-- Translation of `Hand.num_pongs`. -/
def num_pongs (h : Hand) : Nat :=
  h.fixed_groups.countP (fun g => g.group_type == TileGroup.PONG)

/-- Translation of `Hand.num_chows`. -/
def num_chows (h : Hand) : Nat :=
  h.fixed_groups.countP (fun g => g.group_type == TileGroup.CHOW)

/-- Helper for `Hand._meld`'s removal loop: remove the given tiles from the
free tiles one by one, failing (Python `ValueError`) if one is absent. -/
def removeTilesFrom (free : List Nat) (ts : List Nat) : Option (List Nat) :=
  match ts with
  | [] => some free
  | t :: rest =>
    let i := index free t
    if i < 0 then none
    else removeTilesFrom (free.eraseIdx i.toNat) rest

/-- Translation of `Hand._meld(free_tiles, incoming_tile, group_type)`:
remove the named free tiles, build the sorted group including the incoming
tile, and append it to the fixed groups. -/
def meldCore (h : Hand) (free_ts : List Nat) (incoming : Nat) (gt : Nat) :
    Option (Hand × TileGroup) :=
  match removeTilesFrom h.free_tiles free_ts with
  | none => none
  | some free' =>
    match TileGroup.init (pySort (free_ts ++ [incoming])) gt with
    | none => none
    | some g =>
      some ({ h with free_tiles := free', fixed_groups := h.fixed_groups ++ [g] }, g)

/-- Translation of `Hand.chow`. -/
def chow (h : Hand) (free_ts : List Nat) (incoming : Nat) : Option (Hand × TileGroup) :=
  h.meldCore free_ts incoming TileGroup.CHOW

/-- Translation of `Hand.pong`. -/
def pong (h : Hand) (incoming : Nat) : Option (Hand × TileGroup) :=
  h.meldCore [incoming, incoming] incoming TileGroup.PONG

/-- Translation of `Hand.kong_from_other`. -/
def kong_from_other (h : Hand) (incoming : Nat) : Option (Hand × TileGroup) :=
  h.meldCore [incoming, incoming, incoming] incoming TileGroup.KONG_EXPOSED

/-- Translation of `Hand._find_pong_group`, returning the index of the
matching pong group (the Python version returns the group object, which is
then mutated in place; the index lets the pure embedding update it). -/
def findPongGroupIdx (h : Hand) (t : Nat) : Option Nat :=
  h.fixed_groups.findIdx? (fun g => g.group_type == TileGroup.PONG && g.tiles == [t, t, t])

/-- Translation of `Hand.kong_from_self`: appended kong if `last_tile`
extends an existing pong, otherwise a concealed kong; `none` embeds the
`ValueError` when there is no pending tile. -/
def kong_from_self (h : Hand) : Option (Hand × TileGroup) :=
  match h.last_tile with
  | none => none
  | some t =>
    match h.findPongGroupIdx t with
    | some gi =>
      match h.fixed_groups.get? gi with
      | none => none
      | some g =>
        let g' : TileGroup := { g with group_type := TileGroup.KONG_EXPOSED,
                                       tiles := g.tiles ++ [t] }
        some ({ h with fixed_groups := h.fixed_groups.set gi g', last_tile := none }, g')
    | none =>
      match h.meldCore [t, t, t] t TileGroup.KONG_CONCEALED with
      | none => none
      | some (h2, g) => some ({ h2 with last_tile := none }, g)

/-- Translation of `Hand.get_chow_combs(incoming_tile)`: the at most three
neighbour pairs that would complete a run with the incoming tile, each kept
only when both needed tiles are found (by binary search) among the free
tiles. -/
def get_chow_combs (h : Hand) (incoming : Nat) : List (Nat × Nat) :=
  if is_honor incoming || is_general_flower incoming then []
  else
    (if decide (2 < incoming % 16) &&
        decide (0 ≤ index h.free_tiles (incoming - 2)) &&
        decide (0 ≤ index h.free_tiles (incoming - 1))
     then [(incoming - 2, incoming - 1)] else []) ++
    (if decide (1 < incoming % 16) && decide (incoming % 16 < 9) &&
        decide (0 ≤ index h.free_tiles (incoming - 1)) &&
        decide (0 ≤ index h.free_tiles (incoming + 1))
     then [(incoming - 1, incoming + 1)] else []) ++
    (if decide (incoming % 16 < 8) &&
        decide (0 ≤ index h.free_tiles (incoming + 1)) &&
        decide (0 ≤ index h.free_tiles (incoming + 2))
     then [(incoming + 1, incoming + 2)] else [])

/-- Translation of `Hand.can_chow`. -/
def can_chow (h : Hand) (incoming : Nat) : Bool :=
  !(h.get_chow_combs incoming).isEmpty

/-- Translation of `Hand.can_pong`. -/
def can_pong (h : Hand) (incoming : Nat) : Bool :=
  decide (0 ≤ index h.free_tiles incoming) &&
  decide (index h.free_tiles incoming < (h.free_tiles.length : Int) - 1) &&
  (h.free_tiles.getD ((index h.free_tiles incoming).toNat + 1) 0 == incoming)

/-- Translation of `Hand.can_kong` (kong on a tile discarded by another
player). -/
def can_kong (h : Hand) (incoming : Nat) : Bool :=
  decide (0 ≤ index h.free_tiles incoming) &&
  decide (index h.free_tiles incoming < (h.free_tiles.length : Int) - 2) &&
  (h.free_tiles.getD ((index h.free_tiles incoming).toNat + 1) 0 == incoming) &&
  (h.free_tiles.getD ((index h.free_tiles incoming).toNat + 2) 0 == incoming)

/-- Translation of `Hand.can_appended_kong`. -/
def can_appended_kong (h : Hand) : Bool :=
  match h.last_tile with
  | some t => (h.findPongGroupIdx t).isSome
  | none => false

/-- Translation of `Hand.can_concealed_kong`. -/
def can_concealed_kong (h : Hand) : Bool :=
  match h.last_tile with
  | some t => h.can_kong t
  | none => false

/-- Translation of `Hand.can_self_kong`. -/
def can_self_kong (h : Hand) : Bool :=
  h.can_appended_kong || h.can_concealed_kong

/-- Reference version of `get_chow_combs`, phrased with plain multiset
membership of the free tiles instead of binary search (the specification's
reading of the query). -/
def get_chow_combs_spec (h : Hand) (incoming : Nat) : List (Nat × Nat) :=
  if is_honor incoming || is_general_flower incoming then []
  else
    (if decide (2 < incoming % 16) &&
        decide ((incoming - 2) ∈ h.free_tiles) &&
        decide ((incoming - 1) ∈ h.free_tiles)
     then [(incoming - 2, incoming - 1)] else []) ++
    (if decide (1 < incoming % 16) && decide (incoming % 16 < 9) &&
        decide ((incoming - 1) ∈ h.free_tiles) &&
        decide ((incoming + 1) ∈ h.free_tiles)
     then [(incoming - 1, incoming + 1)] else []) ++
    (if decide (incoming % 16 < 8) &&
        decide ((incoming + 1) ∈ h.free_tiles) &&
        decide ((incoming + 2) ∈ h.free_tiles)
     then [(incoming + 1, incoming + 2)] else [])

end Hand

/-- The sortedness invariant of `Hand.free_tiles` ("Always sorted", the
class docstring). -/
def SortedHand (h : Hand) : Prop := List.Sorted (· ≤ ·) h.free_tiles

instance (h : Hand) : Decidable (SortedHand h) := by
  unfold SortedHand; infer_instance

lemma eraseIdx_sorted {l : List Nat} (hs : List.Sorted (· ≤ ·) l) (i : Nat) :
    List.Sorted (· ≤ ·) (l.eraseIdx i) :=
  hs.sublist (List.eraseIdx_sublist l i)

lemma removeTilesFrom_sorted :
    ∀ (ts free free' : List Nat), List.Sorted (· ≤ ·) free →
      Hand.removeTilesFrom free ts = some free' → List.Sorted (· ≤ ·) free' := by
  intro ts
  induction ts with
  | nil =>
    intro free free' hs heq
    rw [Hand.removeTilesFrom] at heq
    cases heq
    exact hs
  | cons t rest ih =>
    intro free free' hs heq
    rw [Hand.removeTilesFrom] at heq
    split at heq
    case isTrue h => cases heq
    case isFalse h => exact ih _ _ (eraseIdx_sorted hs _) heq

lemma meldCore_sorted {h : Hand} {ts : List Nat} {t gt : Nat} {h' : Hand}
    {g : TileGroup} (hs : SortedHand h)
    (heq : h.meldCore ts t gt = some (h', g)) : SortedHand h' := by
  rw [Hand.meldCore] at heq
  split at heq
  case h_1 => cases heq
  case h_2 free' hfree =>
    split at heq
    case h_1 => cases heq
    case h_2 g0 hg =>
      cases heq
      exact removeTilesFrom_sorted ts h.free_tiles free' hs hfree

lemma index_decide_mem {a : List Nat} {x : Nat} (hs : List.Sorted (· ≤ ·) a) :
    decide (0 ≤ index a x) = decide (x ∈ a) := by
  rw [decide_eq_decide]
  exact index_nonneg_iff hs

lemma hand_count_free {h : Hand} {t : Nat} (hs : SortedHand h) :
    h.count t true true false =
      (if h.last_tile = some t then 1 else 0) + h.free_tiles.count t := by
  rw [Hand.count]
  simp only [show ((false : Bool) = true) = False by simp,
    show ((true : Bool) = true) = True by simp, true_and, if_false, if_true]
  by_cases hmem : t ∈ h.free_tiles
  · obtain ⟨hidx, hlt, hval⟩ := index_of_mem hs hmem
    rw [hidx]
    rw [if_pos (by omega : (0 : Int) ≤ (bisect_left h.free_tiles t : Int))]
    simp only [Int.toNat_ofNat]
    rw [countFrom_bisect_left hs]
    omega
  · rw [index_of_not_mem hmem]
    rw [if_neg (by omega : ¬(0 : Int) ≤ -1)]
    rw [List.count_eq_zero_of_not_mem hmem]

lemma hand_contains_free {h : Hand} {t : Nat} (hs : SortedHand h) :
    h.contains t true true false false = true ↔
      (h.last_tile = some t ∨ t ∈ h.free_tiles) := by
  rw [Hand.contains, index_decide_mem hs]
  simp

lemma hand_can_pong_iff {h : Hand} {t : Nat} (hs : SortedHand h) :
    h.can_pong t = true ↔ 2 ≤ h.free_tiles.count t := by
  rw [Hand.can_pong]
  by_cases hmem : t ∈ h.free_tiles
  · obtain ⟨hidx, hlt, hval⟩ := index_of_mem hs hmem
    have hbl := bisect_left_eq (x := t) hs
    have hlen := decomp_length (x := t) (a := h.free_tiles) hs
    have hcpos : 1 ≤ h.free_tiles.count t := List.one_le_count_iff.mpr hmem
    rw [hidx]
    simp only [Bool.and_eq_true, decide_eq_true_eq, beq_iff_eq, Int.toNat_ofNat]
    constructor
    · rintro ⟨⟨h1, h2⟩, h3⟩
      by_contra hcon
      have hc1 : h.free_tiles.count t = 1 := by omega
      have hhigh := decomp_getD_high (x := t) (i := bisect_left h.free_tiles t + 1)
        hs (by omega) (by omega)
      omega
    · intro hc
      refine ⟨⟨by omega, by omega⟩, ?_⟩
      exact decomp_getD_mid hs (by omega) (by omega)
  · rw [index_of_not_mem hmem, List.count_eq_zero_of_not_mem hmem]
    simp

lemma hand_can_kong_iff {h : Hand} {t : Nat} (hs : SortedHand h) :
    h.can_kong t = true ↔ 3 ≤ h.free_tiles.count t := by
  rw [Hand.can_kong]
  by_cases hmem : t ∈ h.free_tiles
  · obtain ⟨hidx, hlt, hval⟩ := index_of_mem hs hmem
    have hbl := bisect_left_eq (x := t) hs
    have hlen := decomp_length (x := t) (a := h.free_tiles) hs
    have hcpos : 1 ≤ h.free_tiles.count t := List.one_le_count_iff.mpr hmem
    rw [hidx]
    simp only [Bool.and_eq_true, decide_eq_true_eq, beq_iff_eq, Int.toNat_ofNat]
    constructor
    · rintro ⟨⟨⟨h1, h2⟩, h3⟩, h4⟩
      by_contra hcon
      have hc2 : h.free_tiles.count t ≤ 2 := by omega
      rcases Nat.lt_or_ge (h.free_tiles.count t) 2 with hc1 | hc1
      · have hhigh := decomp_getD_high (x := t) (i := bisect_left h.free_tiles t + 1)
          hs (by omega) (by omega)
        omega
      · have hhigh := decomp_getD_high (x := t) (i := bisect_left h.free_tiles t + 2)
          hs (by omega) (by omega)
        omega
    · intro hc
      refine ⟨⟨⟨by omega, by omega⟩, ?_⟩, ?_⟩
      · exact decomp_getD_mid hs (by omega) (by omega)
      · exact decomp_getD_mid hs (by omega) (by omega)
  · rw [index_of_not_mem hmem, List.count_eq_zero_of_not_mem hmem]
    simp

lemma hand_chow_combs_eq {h : Hand} {t : Nat} (hs : SortedHand h) :
    h.get_chow_combs t = h.get_chow_combs_spec t := by
  rw [Hand.get_chow_combs, Hand.get_chow_combs_spec,
    index_decide_mem (x := t - 2) hs, index_decide_mem (x := t - 1) hs,
    index_decide_mem (x := t + 1) hs, index_decide_mem (x := t + 2) hs]

lemma remove_free_tile_sorted {h : Hand} {t : Nat} {h' : Hand}
    (hs : SortedHand h) (heq : h.remove_free_tile t = some h') : SortedHand h' := by
  rw [Hand.remove_free_tile] at heq
  split at heq
  case isTrue => cases heq
  case isFalse =>
    cases heq
    exact eraseIdx_sorted hs _

lemma move_last_tile_sorted {h : Hand} (hs : SortedHand h) :
    SortedHand (h.move_last_tile).1 := by
  rw [Hand.move_last_tile]
  cases h.last_tile with
  | none => exact hs
  | some t => exact insort_sorted hs t

/-- Claim C10 (invariants): `Hand.free_tiles` is sorted after construction
and stays sorted across every hand operation, and — given sortedness — the
binary-search-based queries `contains`, `count`, `can_pong`, `can_kong` and
`get_chow_combs` answer correctly relative to the multiset of free tiles
(`contains`/`count` are stated at their keyword defaults
`last_tile=True, free_tiles=True, fixed_groups=False, flowers=False`). -/
theorem C10_sorted_free_tiles_invariant :
    (∀ ts, SortedHand (Hand.init ts)) ∧
    (∀ (h : Hand) t, SortedHand h → SortedHand (h.add_free_tile t)) ∧
    (∀ (h : Hand) ts, SortedHand h → SortedHand (h.add_free_tiles ts)) ∧
    (∀ (h : Hand) t h', SortedHand h → h.remove_free_tile t = some h' →
      SortedHand h') ∧
    (∀ h : Hand, SortedHand h → SortedHand (h.move_last_tile).1) ∧
    (∀ h : Hand, SortedHand h → SortedHand h.move_flowers) ∧
    (∀ (h : Hand) t h', SortedHand h → h.discard t = some h' → SortedHand h') ∧
    (∀ (h : Hand) ts t h' g, SortedHand h → h.chow ts t = some (h', g) →
      SortedHand h') ∧
    (∀ (h : Hand) t h' g, SortedHand h → h.pong t = some (h', g) →
      SortedHand h') ∧
    (∀ (h : Hand) t h' g, SortedHand h → h.kong_from_other t = some (h', g) →
      SortedHand h') ∧
    (∀ (h : Hand) h' g, SortedHand h → h.kong_from_self = some (h', g) →
      SortedHand h') ∧
    (∀ (h : Hand) t, SortedHand h →
      (h.contains t true true false false = true ↔
        (h.last_tile = some t ∨ t ∈ h.free_tiles))) ∧
    (∀ (h : Hand) t, SortedHand h →
      h.count t true true false =
        (if h.last_tile = some t then 1 else 0) + h.free_tiles.count t) ∧
    (∀ (h : Hand) t, SortedHand h →
      (h.can_pong t = true ↔ 2 ≤ h.free_tiles.count t)) ∧
    (∀ (h : Hand) t, SortedHand h →
      (h.can_kong t = true ↔ 3 ≤ h.free_tiles.count t)) ∧
    (∀ (h : Hand) t, SortedHand h →
      h.get_chow_combs t = h.get_chow_combs_spec t) := by
  refine ⟨fun ts => pySort_sorted ts,
    fun h t hs => insort_sorted hs t,
    ?_,
    fun h t h' hs heq => remove_free_tile_sorted hs heq,
    fun h hs => move_last_tile_sorted hs,
    ?_,
    ?_,
    fun h ts t h' g hs heq => meldCore_sorted hs heq,
    fun h t h' g hs heq => meldCore_sorted hs heq,
    fun h t h' g hs heq => meldCore_sorted hs heq,
    ?_,
    fun h t hs => hand_contains_free hs,
    fun h t hs => hand_count_free hs,
    fun h t hs => hand_can_pong_iff hs,
    fun h t hs => hand_can_kong_iff hs,
    fun h t hs => hand_chow_combs_eq hs⟩
  · -- add_free_tiles
    intro h ts hs
    induction ts generalizing h with
    | nil => exact hs
    | cons t rest ih => exact ih _ (insort_sorted hs t)
  · -- move_flowers
    intro h hs
    rw [Hand.move_flowers]
    have hfilter : List.Sorted (· ≤ ·)
        (h.free_tiles.filter (fun t => !is_general_flower t)) :=
      hs.sublist (List.filter_sublist _)
    cases h.last_tile with
    | none => exact hfilter
    | some t =>
      by_cases hf : is_general_flower t = true
      · simpa [hf] using hfilter
      · simpa [hf] using hfilter
  · -- discard
    intro h t h' hs heq
    rw [Hand.discard] at heq
    split at heq
    case isTrue => cases heq; exact hs
    case isFalse =>
      split at heq
      case h_1 => cases heq
      case h_2 tv =>
        split at heq
        case h_1 => cases heq
        case h_2 h2 hrm =>
          cases heq
          exact move_last_tile_sorted (remove_free_tile_sorted hs hrm)
  · -- kong_from_self
    intro h h' g hs heq
    rw [Hand.kong_from_self] at heq
    split at heq
    case h_1 => cases heq
    case h_2 t =>
      split at heq
      case h_1 gi hfind =>
        split at heq
        case h_1 => cases heq
        case h_2 g0 hget =>
          cases heq
          exact hs
      case h_2 hfind =>
        split at heq
        case h_1 => cases heq
        case h_2 h2 g2 hmeld =>
          cases heq
          have hsort := meldCore_sorted hs hmeld
          exact hsort

/-- Witness for C10 at a concrete hand: sortedness after construction and a
correct `can_pong` answer on the hand `[CHAR1, CHAR1, CHAR3]`. -/
theorem C10_sorted_free_tiles_invariant_witness :
    SortedHand (Hand.init [ID_CHAR3, ID_CHAR1, ID_CHAR1]) ∧
    ((Hand.init [ID_CHAR3, ID_CHAR1, ID_CHAR1]).can_pong ID_CHAR1 = true ↔
      2 ≤ (Hand.init [ID_CHAR3, ID_CHAR1, ID_CHAR1]).free_tiles.count ID_CHAR1) :=
  ⟨C10_sorted_free_tiles_invariant.1 _,
   C10_sorted_free_tiles_invariant.2.2.2.2.2.2.2.2.2.2.2.2.2.1
     (Hand.init [ID_CHAR3, ID_CHAR1, ID_CHAR1]) ID_CHAR1 (by decide)⟩

/-! ### types.py: `Hand.can_win` and the winning-shape search

`Hand._construct_hand_table` builds a 4×10 table `T` with `T[i][0]` the
number of tiles of suit-row `i` and `T[i][j]` (`j = 1..9`) the count of
rank `j` (for the honor row, of the `j`-th honor).  `T[i][0]` is kept equal
to `T[i][1] + ... + T[i][9]` by every operation of the search, so the
embedding carries a row as its nine rank counts (`Row`, 0-based) and
derives the total (`rowTotal`). -/

/-- A row of the hand table: counts for the nine columns (Python columns
`1..9` become `Fin 9`). -/
abbrev Row := Fin 9 → Nat

/-- Row total, i.e. the `row[0]` cell of the Python table. -/
def rowTotal (r : Row) : Nat := ((List.finRange 9).map r).sum

/-- Subtraction of a triplet at a cell (`row[idx] -= 3; row[0] -= 3`). -/
def subTrip (r : Row) (i : Fin 9) : Row := Function.update r i (r i - 3)

/-- Subtraction of a run starting at a cell (`row[idx] -= 1; row[idx+1] -= 1;
row[idx+2] -= 1; row[0] -= 3`); only invoked with `idx ≤ 6`, where the
condition `i ≤ k ≤ i+2` names exactly the three cells. -/
def subRun (r : Row) (i : Fin 9) : Row :=
  fun k => if i.val ≤ k.val ∧ k.val ≤ i.val + 2 then r k - 1 else r k

/-- Subtraction of a pair at a cell (`row[i] -= 2; row[0] -= 2`). -/
def subPair (r : Row) (i : Fin 9) : Row := Function.update r i (r i - 2)

/-- Cell `idx+1` of a row, `0` when out of range (only read under the
`idx < 8` bound of the source, where it is in range). -/
def at1 (r : Row) (i : Fin 9) : Nat :=
  if h : i.val + 1 < 9 then r ⟨i.val + 1, h⟩ else 0

/-- Cell `idx+2` of a row, `0` when out of range. -/
def at2 (r : Row) (i : Fin 9) : Nat :=
  if h : i.val + 2 < 9 then r ⟨i.val + 2, h⟩ else 0

/-- Translation of the `for i in xrange(1, 10): if row[i] > 0: idx = i; break`
scan of `_can_group_as_3`: the first cell holding a positive count.  The
first argument is a structural bound on the loop length (callers pass `9`). -/
def firstPosAux (r : Row) : Nat → Nat → Option (Fin 9)
  | 0, _ => none
  | fuel + 1, k =>
    if h : k < 9 then
      (if 0 < r ⟨k, h⟩ then some ⟨k, h⟩ else firstPosAux r fuel (k + 1))
    else none

/-- First cell of a row with a positive count (Python's `idx`, or `none` for
the `idx = -1` case, which is unreachable when the total is positive). -/
def firstPos (r : Row) : Option (Fin 9) := firstPosAux r 9 0

/-- Translation of `Hand._can_group_as_3(row, is_honor)`: can the row be
decomposed into triplets and (numeric rows only) runs?  Greedy with
backtracking-free recursion: at the lowest populated cell, take a triplet if
three copies are there, else try the run starting there.  Each recursive
call removes three tiles, so `rowTotal r` bounds the recursion depth; the
first argument is that structural bound (callers pass `rowTotal r`). -/
def canGroupAs3 : Nat → Row → Bool → Bool
  | 0, r, _ => rowTotal r == 0
  | fuel + 1, r, isHonor =>
    if rowTotal r == 0 then true
    else
      match firstPos r with
      | none => false
      | some idx =>
        if 3 ≤ r idx then canGroupAs3 fuel (subTrip r idx) isHonor
        else if !isHonor && decide (idx.val < 7) &&
                decide (0 < at1 r idx) && decide (0 < at2 r idx) then
          canGroupAs3 fuel (subRun r idx) isHonor
        else false

/-- Entry point of `_can_group_as_3` with the structural bound filled in. -/
def canGroupAs3Top (r : Row) (isHonor : Bool) : Bool :=
  canGroupAs3 (rowTotal r) r isHonor

/-- Translation of `Hand._can_group_as_pair_and_3(row, is_honor)`: try every
cell holding at least a pair as the designated pair, and group the rest. -/
def canGroupAsPairAnd3 (r : Row) (isHonor : Bool) : Bool :=
  (List.finRange 9).any (fun i =>
    decide (1 < r i) && canGroupAs3Top (subPair r i) isHonor)

/-- The `honor_indices` mapping of `_construct_hand_table` (columns are the
source's 1-based ones). -/
def honorIndexList : List (Nat × Nat) :=
  [(ID_EAST, 1), (ID_SOUTH, 2), (ID_WEST, 3), (ID_NORTH, 4),
   (ID_RED, 5), (ID_GREEN, 6), (ID_WHITE, 7)]

/-- Table cell of a tile id, following the suit chain of
`_construct_hand_table` (row index) with column `tile_id % 16` for numeric
suits and `honor_indices[tile]` for honors; columns are shifted to 0-based
`Fin 9`.  Flower/season tiles have no branch in the source and are simply
not counted (`none`). -/
def cellOf (id : Nat) : Option (Fin 4 × Fin 9) :=
  if is_char id then
    (if h : id % 16 - 1 < 9 then some (0, ⟨id % 16 - 1, h⟩) else none)
  else if is_circle id then
    (if h : id % 16 - 1 < 9 then some (1, ⟨id % 16 - 1, h⟩) else none)
  else if is_bamboo id then
    (if h : id % 16 - 1 < 9 then some (2, ⟨id % 16 - 1, h⟩) else none)
  else if is_honor id then
    match honorIndexList.lookup id with
    | some j => (if h : j - 1 < 9 then some (3, ⟨j - 1, h⟩) else none)
    | none => none
  else none

/-- Translation of `Hand._construct_hand_table(tiles)` (the per-row totals
`T[i][0]` are derived via `rowTotal`). -/
def handTable (tiles : List Nat) : Fin 4 → Row :=
  tiles.foldl (fun T id =>
    match cellOf id with
    | some (s, k) =>
        fun s' => if s' = s then Function.update (T s) k (T s k + 1) else T s'
    | none => T) (fun _ _ => 0)

namespace Hand

/-- Translation of `Hand.can_win(incoming_tile)`: insert the incoming tile
(falling back to `last_tile`), build the table, require exactly three rows
with `count ≡ 0 (mod 3)` and one with `count ≡ 2 (mod 3)`, then check that
every row groups (the `≡ 2` row surrendering a pair first); the honor row is
the fourth one. -/
def can_win (h : Hand) (incoming : Option Nat) : Bool :=
  let inc := orTile incoming h.last_tile
  let tiles := match inc with
    | some t => insort h.free_tiles t
    | none => h.free_tiles
  let table := handTable tiles
  let num3x := ((List.finRange 4).filter
    (fun s => rowTotal (table s) % 3 == 0)).length
  let num3x2 := ((List.finRange 4).filter
    (fun s => rowTotal (table s) % 3 == 2)).length
  if num3x ≠ 3 ∨ num3x2 ≠ 1 then false
  else
    (List.finRange 4).all (fun i =>
      if rowTotal (table i) % 3 == 0 then canGroupAs3Top (table i) (i == 3)
      else canGroupAsPairAnd3 (table i) (i == 3))

/-- Translation of `Hand.ready()` (iteration order over `Tile.ALL` does not
matter for existence). -/
def ready (h : Hand) : Bool := catalogIds.any (fun t => h.can_win (some t))

/-- Translation of `Hand.waiting_tiles()`: every catalog tile that completes
the hand, `insort`-ed into a sorted list (iteration order over the
`Tile.ALL` dict is immaterial: the result is the sorted list of qualifying
tiles). -/
def waiting_tiles (h : Hand) : List Nat :=
  catalogIds.foldl
    (fun tiles t => if h.can_win (some t) then insort tiles t else tiles) []

end Hand

/-! ### Row decompositions

Mathematical description of what `_can_group_as_3` decides: a row is
groupable iff it is a sum of triplet columns and (for numeric rows) runs of
three consecutive columns.  A decomposition is recorded by multiplicities:
`t k` triplets at column `k` and `u j` runs starting at column `j`
(`j ≤ 6`). -/

/-- The number of copies of column `k` used by one run starting at `j`. -/
def runInd (j : Fin 7) (k : Fin 9) : Nat :=
  if j.val ≤ k.val ∧ k.val ≤ j.val + 2 then 1 else 0

/-- Total run coverage of column `k` for run multiplicities `u`. -/
def coverage (u : Fin 7 → Nat) (k : Fin 9) : Nat :=
  ∑ j : Fin 7, u j * runInd j k

/-- The row described by triplet multiplicities `t` and run multiplicities
`u`. -/
def meldSum (t : Fin 9 → Nat) (u : Fin 7 → Nat) : Row :=
  fun k => 3 * t k + coverage u k

/-- A row decomposes into triplets and runs (runs forbidden on the honor
row). -/
def IsGroup3 (r : Row) (honor : Bool) : Prop :=
  ∃ t u, (honor = true → u = fun _ => 0) ∧ r = meldSum t u

/-- A row decomposes into one pair plus triplets and runs. -/
def IsPairGroup (r : Row) (honor : Bool) : Prop :=
  ∃ i : Fin 9, ∃ t u, (honor = true → u = fun _ => 0) ∧
    r = fun k => (if k = i then 2 else 0) + meldSum t u k

/-- Value of `u` at a `Fin 9` index, `0` beyond column 6. -/
def uAt (u : Fin 7 → Nat) (i : Fin 9) : Nat :=
  if h : i.val < 7 then u ⟨i.val, h⟩ else 0

lemma rowTotal_eq (r : Row) : rowTotal r = ∑ k, r k :=
  (Fin.sum_univ_def r).symm

lemma rowTotal_zero_iff {r : Row} : rowTotal r = 0 ↔ ∀ k, r k = 0 := by
  rw [rowTotal_eq, Finset.sum_eq_zero_iff]
  simp

lemma firstPosAux_some {r : Row} :
    ∀ fuel k i, firstPosAux r fuel k = some i →
      k ≤ i.val ∧ 0 < r i ∧ ∀ j : Fin 9, k ≤ j.val → j.val < i.val → r j = 0 := by
  intro fuel
  induction fuel with
  | zero => intro k i h; rw [firstPosAux] at h; cases h
  | succ n ih =>
    intro k i h
    rw [firstPosAux] at h
    split at h
    case isFalse => cases h
    case isTrue hk =>
      split at h
      case isTrue hpos =>
        cases h
        refine ⟨le_refl _, hpos, ?_⟩
        intro j hj1 hj2
        have hj2' : j.val < k := hj2
        omega
      case isFalse hpos =>
        obtain ⟨h1, h2, h3⟩ := ih (k + 1) i h
        refine ⟨by omega, h2, ?_⟩
        intro j hj1 hj2
        rcases Nat.eq_or_lt_of_le hj1 with heq | hlt
        · have : j = (⟨k, hk⟩ : Fin 9) := Fin.ext heq.symm
          rw [this]
          omega
        · exact h3 j (by omega) hj2

lemma firstPosAux_none {r : Row} :
    ∀ fuel k, 9 - k ≤ fuel → firstPosAux r fuel k = none →
      ∀ j : Fin 9, k ≤ j.val → r j = 0 := by
  intro fuel
  induction fuel with
  | zero =>
    intro k hf h j hj
    have : 9 ≤ k := by omega
    exact absurd (lt_of_le_of_lt hj j.isLt) (by omega)
  | succ n ih =>
    intro k hf h j hj
    rw [firstPosAux] at h
    split at h
    case isFalse hk => exact absurd (lt_of_le_of_lt hj j.isLt) (by omega)
    case isTrue hk =>
      split at h
      case isTrue hpos => cases h
      case isFalse hpos =>
        rcases Nat.eq_or_lt_of_le hj with heq | hlt
        · have : j = (⟨k, hk⟩ : Fin 9) := Fin.ext heq.symm
          rw [this]
          omega
        · exact ih (k + 1) (by omega) h j (by omega)

lemma firstPos_some {r : Row} {i : Fin 9} (h : firstPos r = some i) :
    0 < r i ∧ ∀ j : Fin 9, j.val < i.val → r j = 0 := by
  obtain ⟨h1, h2, h3⟩ := firstPosAux_some 9 0 i h
  exact ⟨h2, fun j hj => h3 j (Nat.zero_le _) hj⟩

lemma firstPos_none {r : Row} (h : firstPos r = none) : rowTotal r = 0 :=
  rowTotal_zero_iff.mpr (fun j => firstPosAux_none 9 0 (by omega) h j (Nat.zero_le _))

lemma sum_sub_pointwise {f g : Fin 9 → Nat} (h : ∀ k, g k ≤ f k) :
    ∑ k, (f k - g k) = ∑ k, f k - ∑ k, g k := by
  have hadd : ∑ k, (f k - g k) + ∑ k, g k = ∑ k, f k := by
    rw [← Finset.sum_add_distrib]
    exact Finset.sum_congr rfl (fun k _ => by have := h k; omega)
  omega

lemma sum_runInd (j : Fin 7) : ∑ k : Fin 9, runInd j k = 3 := by
  fin_cases j <;> decide

lemma rowTotal_subTrip {r : Row} {i : Fin 9} (h : 3 ≤ r i) :
    rowTotal (subTrip r i) = rowTotal r - 3 := by
  rw [rowTotal_eq, rowTotal_eq, subTrip]
  rw [Finset.sum_update_of_mem (Finset.mem_univ i)]
  have hsplit : ∑ k, r k = r i + ∑ x ∈ Finset.univ \ {i}, r x := by
    rw [← Finset.erase_eq]
    exact (Finset.add_sum_erase _ r (Finset.mem_univ i)).symm
  omega

lemma rowTotal_subRun {r : Row} {i : Fin 9} (hi : i.val < 7)
    (h0 : 0 < r i) (h1 : 0 < at1 r i) (h2 : 0 < at2 r i) :
    rowTotal (subRun r i) = rowTotal r - 3 := by
  have hform : subRun r i = fun k => r k - runInd ⟨i.val, hi⟩ k := by
    funext k
    rw [subRun, runInd]
    split <;> simp
  rw [rowTotal_eq, rowTotal_eq, hform]
  rw [sum_sub_pointwise, sum_runInd ⟨i.val, hi⟩]
  intro k
  rw [runInd]
  have hval : ((⟨i.val, hi⟩ : Fin 7) : Nat) = i.val := rfl
  split
  case isTrue hk =>
    rcases Nat.lt_or_ge k.val (i.val + 1) with h' | h'
    · have : k = i := Fin.ext (by omega)
      subst this
      omega
    · rcases Nat.lt_or_ge k.val (i.val + 2) with h'' | h''
      · have hk1 : k.val = i.val + 1 := by omega
        have heqk : (⟨i.val + 1, by omega⟩ : Fin 9) = k := Fin.ext hk1.symm
        rw [at1, dif_pos (by omega : i.val + 1 < 9), heqk] at h1
        omega
      · have hk2 : k.val = i.val + 2 := by omega
        have heqk : (⟨i.val + 2, by omega⟩ : Fin 9) = k := Fin.ext hk2.symm
        rw [at2, dif_pos (by omega : i.val + 2 < 9), heqk] at h2
        omega
  case isFalse hk => omega

lemma coverage_le {u : Fin 7 → Nat} {j : Fin 7} {k : Fin 9}
    (hjk : j.val ≤ k.val ∧ k.val ≤ j.val + 2) : u j ≤ coverage u k := by
  have h1 : u j * runInd j k = u j := by rw [runInd, if_pos hjk]; omega
  calc u j = u j * runInd j k := h1.symm
    _ ≤ ∑ j' : Fin 7, u j' * runInd j' k :=
        Finset.single_le_sum (f := fun j' => u j' * runInd j' k)
          (fun j' _ => Nat.zero_le _) (Finset.mem_univ j)

lemma coverage_update_add (u : Fin 7 → Nat) (j : Fin 7) (v : Nat) (k : Fin 9) :
    coverage (Function.update u j v) k + u j * runInd j k =
      coverage u k + v * runInd j k := by
  rw [coverage, coverage,
    Finset.sum_eq_sum_diff_singleton_add (Finset.mem_univ j)
      (fun j' => Function.update u j v j' * runInd j' k),
    Finset.sum_eq_sum_diff_singleton_add (Finset.mem_univ j)
      (fun j' => u j' * runInd j' k)]
  have hcong : ∑ j' ∈ Finset.univ \ {j}, Function.update u j v j' * runInd j' k =
      ∑ j' ∈ Finset.univ \ {j}, u j' * runInd j' k := by
    apply Finset.sum_congr rfl
    intro j' hj'
    have hne : j' ≠ j := by
      rcases Finset.mem_sdiff.mp hj' with ⟨-, hne⟩
      simpa using hne
    rw [Function.update_noteq hne]
  rw [hcong, Function.update_same]
  omega

lemma coverage_first {u : Fin 7 → Nat} {i : Fin 9}
    (hz : ∀ j : Fin 7, j.val < i.val → u j = 0) : coverage u i = uAt u i := by
  rw [coverage, uAt]
  split
  case isTrue hi =>
    have h0 : ∀ j : Fin 7, j ∈ Finset.univ → j ≠ ⟨i.val, hi⟩ →
        u j * runInd j i = 0 := by
      intro j _ hj
      rcases Nat.lt_or_ge j.val i.val with hlt | hge
      · rw [hz j hlt]; simp
      · have hne : j.val ≠ i.val := fun he => hj (Fin.ext he)
        rw [runInd, if_neg (by omega)]
        simp
    have h1 := Finset.sum_eq_single (⟨i.val, hi⟩ : Fin 7) h0
      (fun habs => absurd (Finset.mem_univ _) habs)
    rw [h1, runInd, if_pos (⟨le_refl _, Nat.le_add_right _ 2⟩ :
      ((⟨i.val, hi⟩ : Fin 7) : Nat) ≤ i.val ∧ i.val ≤ ((⟨i.val, hi⟩ : Fin 7) : Nat) + 2)]
    omega
  case isFalse hi =>
    apply Finset.sum_eq_zero
    intro j _
    have hj7 := j.isLt
    rw [hz j (by omega)]
    simp

lemma isGroup3_zero {r : Row} {honor : Bool} (h : rowTotal r = 0) :
    IsGroup3 r honor :=
  ⟨fun _ => 0, fun _ => 0, fun _ => rfl, by
    funext k
    have hk := rowTotal_zero_iff.mp h k
    simp [meldSum, coverage, hk]⟩

/-- At the first populated column `i` of a decomposed row, all triplet and
run multiplicities below `i` vanish and `r i = 3·t i + u i`. -/
lemma decomp_at_first {r : Row} {t : Fin 9 → Nat} {u : Fin 7 → Nat} {i : Fin 9}
    (hr : r = meldSum t u) (hz : ∀ j : Fin 9, j.val < i.val → r j = 0) :
    (∀ j : Fin 7, j.val < i.val → u j = 0) ∧ r i = 3 * t i + uAt u i := by
  have hu : ∀ j : Fin 7, j.val < i.val → u j = 0 := by
    intro j hj
    have hle : u j ≤ coverage u ⟨j.val, by omega⟩ :=
      coverage_le ⟨le_refl _, Nat.le_add_right _ 2⟩
    have hrj : r ⟨j.val, by omega⟩ = 0 := hz _ hj
    rw [hr] at hrj
    rw [meldSum] at hrj
    omega
  refine ⟨hu, ?_⟩
  conv_lhs => rw [hr]
  rw [meldSum, coverage_first hu]

lemma isGroup3_of_subTrip {r : Row} {honor : Bool} {i : Fin 9} (h3 : 3 ≤ r i)
    (hg : IsGroup3 (subTrip r i) honor) : IsGroup3 r honor := by
  obtain ⟨t, u, hcond, hr⟩ := hg
  refine ⟨Function.update t i (t i + 1), u, hcond, ?_⟩
  funext k
  by_cases hk : k = i
  · subst hk
    have hval := congrFun hr k
    rw [subTrip, Function.update_same] at hval
    rw [meldSum, Function.update_same]
    rw [meldSum] at hval
    omega
  · have hval := congrFun hr k
    rw [subTrip, Function.update_noteq hk] at hval
    rw [meldSum, Function.update_noteq hk]
    rw [meldSum] at hval
    exact hval

lemma isGroup3_subTrip_of {r : Row} {honor : Bool} {i : Fin 9} (h3 : 3 ≤ r i)
    (hz : ∀ j : Fin 9, j.val < i.val → r j = 0) (hg : IsGroup3 r honor) :
    IsGroup3 (subTrip r i) honor := by
  obtain ⟨t, u, hcond, hr⟩ := hg
  obtain ⟨hu, hri⟩ := decomp_at_first hr hz
  by_cases ht : 1 ≤ t i
  · refine ⟨Function.update t i (t i - 1), u, hcond, ?_⟩
    funext k
    by_cases hk : k = i
    · subst hk
      have hcov : coverage u k = uAt u k := coverage_first hu
      rw [subTrip, Function.update_same, meldSum, Function.update_same, hcov]
      omega
    · have hval := congrFun hr k
      rw [subTrip, Function.update_noteq hk, meldSum, Function.update_noteq hk]
      rw [meldSum] at hval
      exact hval
  · -- no triplet at `i` in the decomposition: then at least three runs start
    -- at `i`; exchange three of them for triplets at `i`, `i+1`, `i+2`.
    have hti : t i = 0 := by omega
    have huAt : uAt u i = r i := by omega
    have hi7 : i.val < 7 := by
      by_contra hcon
      rw [uAt, dif_neg hcon] at huAt
      omega
    have hval7 : ((⟨i.val, hi7⟩ : Fin 7) : Nat) = i.val := rfl
    have huj0 : 3 ≤ u ⟨i.val, hi7⟩ := by
      rw [uAt, dif_pos hi7] at huAt
      omega
    have hhonor : honor = false := by
      by_contra hcon
      have : honor = true := by
        cases honor
        · exact absurd rfl hcon
        · rfl
      have := congrFun (hcond this) ⟨i.val, hi7⟩
      simp at this
      omega
    refine ⟨fun k => if k = i then t i else t k + runInd ⟨i.val, hi7⟩ k,
      Function.update u ⟨i.val, hi7⟩ (u ⟨i.val, hi7⟩ - 3), fun hh => ?_, ?_⟩
    · rw [hhonor] at hh; cases hh
    · funext k
      have hcovadd := coverage_update_add u ⟨i.val, hi7⟩ (u ⟨i.val, hi7⟩ - 3) k
      have hcovle : u ⟨i.val, hi7⟩ * runInd ⟨i.val, hi7⟩ k ≤ coverage u k := by
        rw [coverage]
        exact Finset.single_le_sum (f := fun j' => u j' * runInd j' k)
          (fun j' _ => Nat.zero_le _) (Finset.mem_univ _)
      have hrk := congrFun hr k
      rw [meldSum] at hrk
      by_cases hk : k = i
      · subst hk
        have hcovk : coverage u k = uAt u k := coverage_first hu
        have hind : runInd ⟨k.val, hi7⟩ k = 1 := by
          rw [runInd, if_pos ⟨le_refl _, Nat.le_add_right _ 2⟩]
        rw [subTrip, Function.update_same, meldSum, if_pos rfl]
        rw [hind] at hcovadd hcovle
        omega
      · have hind01 : runInd ⟨i.val, hi7⟩ k = 1 ∨ runInd ⟨i.val, hi7⟩ k = 0 := by
          rw [runInd]
          split
          · exact Or.inl rfl
          · exact Or.inr rfl
        rw [subTrip, Function.update_noteq hk, meldSum, if_neg hk]
        rcases hind01 with hind | hind <;>
          rw [hind] at hcovadd hcovle ⊢ <;>
          omega

lemma subRun_add {r : Row} {i : Fin 9} (hi : i.val < 7)
    (h0 : 0 < r i) (h1 : 0 < at1 r i) (h2 : 0 < at2 r i) (k : Fin 9) :
    subRun r i k + runInd ⟨i.val, hi⟩ k = r k := by
  rw [subRun, runInd]
  have hval : ((⟨i.val, hi⟩ : Fin 7) : Nat) = i.val := rfl
  split
  case isTrue hk =>
    rcases Nat.lt_or_ge k.val (i.val + 1) with h' | h'
    · have : k = i := Fin.ext (by omega)
      subst this
      omega
    · rcases Nat.lt_or_ge k.val (i.val + 2) with h'' | h''
      · have hk1 : k.val = i.val + 1 := by omega
        have heqk : (⟨i.val + 1, by omega⟩ : Fin 9) = k := Fin.ext hk1.symm
        rw [at1, dif_pos (by omega : i.val + 1 < 9), heqk] at h1
        omega
      · have hk2 : k.val = i.val + 2 := by omega
        have heqk : (⟨i.val + 2, by omega⟩ : Fin 9) = k := Fin.ext hk2.symm
        rw [at2, dif_pos (by omega : i.val + 2 < 9), heqk] at h2
        omega
  case isFalse hk => omega

lemma isGroup3_of_subRun {r : Row} {i : Fin 9} (hi : i.val < 7)
    (h0 : 0 < r i) (h1 : 0 < at1 r i) (h2 : 0 < at2 r i)
    (hg : IsGroup3 (subRun r i) false) : IsGroup3 r false := by
  obtain ⟨t, u, -, hr⟩ := hg
  refine ⟨t, Function.update u ⟨i.val, hi⟩ (u ⟨i.val, hi⟩ + 1), ?_, ?_⟩
  · intro hh
    exact absurd hh (by simp)
  · funext k
    have hcovadd := coverage_update_add u ⟨i.val, hi⟩ (u ⟨i.val, hi⟩ + 1) k
    have hind01 : runInd ⟨i.val, hi⟩ k = 1 ∨ runInd ⟨i.val, hi⟩ k = 0 := by
      rw [runInd]
      split
      · exact Or.inl rfl
      · exact Or.inr rfl
    have hrk := congrFun hr k
    rw [meldSum] at hrk
    have hadd := subRun_add hi h0 h1 h2 k
    rw [meldSum]
    rcases hind01 with hind | hind <;>
      rw [hind] at hcovadd hadd <;>
      omega

lemma isGroup3_first_small {r : Row} {honor : Bool} {i : Fin 9}
    (hpos : 0 < r i) (hlt : r i < 3)
    (hz : ∀ j : Fin 9, j.val < i.val → r j = 0) (hg : IsGroup3 r honor) :
    honor = false ∧ i.val < 7 ∧ 0 < at1 r i ∧ 0 < at2 r i ∧
      IsGroup3 (subRun r i) false := by
  obtain ⟨t, u, hcond, hr⟩ := hg
  obtain ⟨hu, hri⟩ := decomp_at_first hr hz
  have hti : t i = 0 := by omega
  have huAt : uAt u i = r i := by omega
  have hi7 : i.val < 7 := by
    by_contra hcon
    rw [uAt, dif_neg hcon] at huAt
    omega
  have huj0 : 1 ≤ u ⟨i.val, hi7⟩ := by
    rw [uAt, dif_pos hi7] at huAt
    omega
  have hhonor : honor = false := by
    cases honor
    · rfl
    · have := congrFun (hcond rfl) ⟨i.val, hi7⟩
      simp at this
      omega
  have hlt1 : i.val + 1 < 9 := by omega
  have hlt2 : i.val + 2 < 9 := by omega
  have hat1 : 0 < at1 r i := by
    have hle : u ⟨i.val, hi7⟩ ≤ coverage u ⟨i.val + 1, hlt1⟩ :=
      coverage_le ⟨show i.val ≤ i.val + 1 by omega,
        show i.val + 1 ≤ i.val + 2 by omega⟩
    have hrk := congrFun hr ⟨i.val + 1, hlt1⟩
    rw [meldSum] at hrk
    rw [at1, dif_pos hlt1]
    omega
  have hat2 : 0 < at2 r i := by
    have hle : u ⟨i.val, hi7⟩ ≤ coverage u ⟨i.val + 2, hlt2⟩ :=
      coverage_le ⟨show i.val ≤ i.val + 2 by omega,
        show i.val + 2 ≤ i.val + 2 by omega⟩
    have hrk := congrFun hr ⟨i.val + 2, hlt2⟩
    rw [meldSum] at hrk
    rw [at2, dif_pos hlt2]
    omega
  refine ⟨hhonor, hi7, hat1, hat2,
    t, Function.update u ⟨i.val, hi7⟩ (u ⟨i.val, hi7⟩ - 1), ?_, ?_⟩
  · intro hh
    exact absurd hh (by simp)
  · funext k
    have hcovadd := coverage_update_add u ⟨i.val, hi7⟩ (u ⟨i.val, hi7⟩ - 1) k
    have hcovle : u ⟨i.val, hi7⟩ * runInd ⟨i.val, hi7⟩ k ≤ coverage u k := by
      rw [coverage]
      exact Finset.single_le_sum (f := fun j' => u j' * runInd j' k)
        (fun j' _ => Nat.zero_le _) (Finset.mem_univ _)
    have hind01 : runInd ⟨i.val, hi7⟩ k = 1 ∨ runInd ⟨i.val, hi7⟩ k = 0 := by
      rw [runInd]
      split
      · exact Or.inl rfl
      · exact Or.inr rfl
    have hrk := congrFun hr k
    rw [meldSum] at hrk
    have hadd := subRun_add hi7 hpos hat1 hat2 k
    rw [meldSum]
    rcases hind01 with hind | hind <;>
      rw [hind] at hcovadd hadd hcovle <;>
      omega

/-- Correctness of `_can_group_as_3`: with sufficient fuel (any bound of the
row total) the greedy search decides exactly the decomposability of the
row into triplets and (numeric rows) runs. -/
lemma canGroupAs3_correct :
    ∀ fuel (r : Row) (honor : Bool), rowTotal r ≤ fuel →
      (canGroupAs3 fuel r honor = true ↔ IsGroup3 r honor) := by
  intro fuel
  induction fuel with
  | zero =>
    intro r honor hf
    have h0 : rowTotal r = 0 := by omega
    rw [canGroupAs3]
    exact iff_of_true (by simpa using h0) (isGroup3_zero h0)
  | succ n ih =>
    intro r honor hf
    rw [canGroupAs3]
    by_cases h0 : rowTotal r = 0
    · rw [if_pos (by simpa using h0)]
      exact iff_of_true rfl (isGroup3_zero h0)
    · rw [if_neg (by simpa using h0)]
      cases hfp : firstPos r with
      | none => exact absurd (firstPos_none hfp) h0
      | some i =>
        obtain ⟨hpos, hz⟩ := firstPos_some hfp
        show (if 3 ≤ r i then canGroupAs3 n (subTrip r i) honor
          else
            if (!honor && decide (i.val < 7) && decide (0 < at1 r i) &&
                decide (0 < at2 r i)) = true then
              canGroupAs3 n (subRun r i) honor
            else false) = true ↔ IsGroup3 r honor
        by_cases h3 : 3 ≤ r i
        · rw [if_pos h3]
          have hsub : rowTotal (subTrip r i) ≤ n := by
            rw [rowTotal_subTrip h3]
            omega
          rw [ih _ honor hsub]
          exact ⟨fun hg => isGroup3_of_subTrip h3 hg,
            fun hg => isGroup3_subTrip_of h3 hz hg⟩
        · rw [if_neg h3]
          by_cases hb : (!honor && decide (i.val < 7) &&
              decide (0 < at1 r i) && decide (0 < at2 r i)) = true
          · rw [if_pos hb]
            simp only [Bool.and_eq_true, Bool.not_eq_true', decide_eq_true_eq] at hb
            obtain ⟨⟨⟨hh, hi7⟩, hat1⟩, hat2⟩ := hb
            have hsub : rowTotal (subRun r i) ≤ n := by
              rw [rowTotal_subRun hi7 hpos hat1 hat2]
              omega
            rw [ih _ honor hsub]
            subst hh
            exact ⟨fun hg => isGroup3_of_subRun hi7 hpos hat1 hat2 hg,
              fun hg => (isGroup3_first_small hpos (by omega) hz hg).2.2.2.2⟩
          · rw [if_neg hb]
            refine iff_of_false (by simp) ?_
            intro hg
            obtain ⟨hhonor, hi7, hat1, hat2, -⟩ :=
              isGroup3_first_small hpos (by omega) hz hg
            apply hb
            rw [hhonor]
            simp [hi7, hat1, hat2]

/-- Correctness of the `_can_group_as_3` entry point. -/
lemma canGroupAs3Top_correct (r : Row) (honor : Bool) :
    canGroupAs3Top r honor = true ↔ IsGroup3 r honor :=
  canGroupAs3_correct (rowTotal r) r honor (le_refl _)

/-- Correctness of `_can_group_as_pair_and_3`. -/
lemma canGroupAsPairAnd3_correct (r : Row) (honor : Bool) :
    canGroupAsPairAnd3 r honor = true ↔ IsPairGroup r honor := by
  rw [canGroupAsPairAnd3, List.any_eq_true]
  constructor
  · rintro ⟨i, -, hcond⟩
    rw [Bool.and_eq_true, decide_eq_true_eq] at hcond
    obtain ⟨h2, hg⟩ := hcond
    obtain ⟨t, u, hcond', hr⟩ := (canGroupAs3Top_correct _ _).mp hg
    refine ⟨i, t, u, hcond', ?_⟩
    funext k
    have hk := congrFun hr k
    by_cases hki : k = i
    · subst hki
      rw [subPair, Function.update_same] at hk
      rw [if_pos rfl]
      omega
    · rw [subPair, Function.update_noteq hki] at hk
      rw [if_neg hki]
      omega
  · rintro ⟨i, t, u, hcond', hr⟩
    refine ⟨i, List.mem_finRange i, ?_⟩
    have hri := congrFun hr i
    rw [if_pos rfl] at hri
    rw [Bool.and_eq_true, decide_eq_true_eq]
    refine ⟨by omega, ?_⟩
    rw [canGroupAs3Top_correct]
    refine ⟨t, u, hcond', ?_⟩
    funext k
    have hk := congrFun hr k
    by_cases hki : k = i
    · subst hki
      rw [subPair, Function.update_same]
      omega
    · rw [subPair, Function.update_noteq hki]
      rw [if_neg hki] at hk
      omega

lemma rowTotal_meldSum (t : Fin 9 → Nat) (u : Fin 7 → Nat) :
    rowTotal (meldSum t u) = 3 * ((∑ k, t k) + (∑ j, u j)) := by
  rw [rowTotal_eq]
  simp only [meldSum]
  rw [Finset.sum_add_distrib]
  have h1 : ∑ k : Fin 9, 3 * t k = 3 * ∑ k, t k := by
    rw [Finset.mul_sum]
  have h2 : ∑ k : Fin 9, coverage u k = 3 * ∑ j, u j := by
    simp only [coverage]
    rw [Finset.sum_comm]
    have : ∀ j : Fin 7, ∑ k : Fin 9, u j * runInd j k = 3 * u j := by
      intro j
      rw [← Finset.mul_sum, sum_runInd j]
      omega
    rw [Finset.sum_congr rfl (fun j _ => this j), ← Finset.mul_sum]
  omega

lemma isGroup3_mod {r : Row} {honor : Bool} (hg : IsGroup3 r honor) :
    rowTotal r % 3 = 0 := by
  obtain ⟨t, u, -, hr⟩ := hg
  rw [hr, rowTotal_meldSum]
  omega

lemma isPairGroup_mod {r : Row} {honor : Bool} (hg : IsPairGroup r honor) :
    rowTotal r % 3 = 2 := by
  obtain ⟨i, t, u, -, hr⟩ := hg
  have htot : rowTotal r = 2 + rowTotal (meldSum t u) := by
    rw [hr, rowTotal_eq, rowTotal_eq, Finset.sum_add_distrib]
    have hpair : ∑ k : Fin 9, (if k = i then 2 else 0) = 2 := by
      rw [Finset.sum_ite_eq' Finset.univ i (fun _ => 2)]
      simp
    omega
  rw [htot, rowTotal_meldSum]
  omega

/-! ### Winning shapes on the tile multiset

The specification-level reading of a winning shape: the (non-flower) tiles
split into melds — triplets of one tile identity, or runs of three
consecutive ranks within a single numeric suit — plus exactly one pair. -/

/-- A triplet: three copies of one tile identity. -/
def IsTriplet (m : Multiset Nat) : Prop := ∃ a, m = {a, a, a}

/-- A run: three consecutive ranks of one numeric suit.  Catalog ids of one
numeric suit are consecutive integers `0xS01..0xS09`, so a run is `a`,
`a+1`, `a+2` with rank `a % 16` between 1 and 7. -/
def IsRun (m : Multiset Nat) : Prop :=
  ∃ a, (is_char a || is_circle a || is_bamboo a) = true ∧
    1 ≤ a % 16 ∧ a % 16 ≤ 7 ∧ m = {a, a + 1, a + 2}

/-- A meld of the winning shape: triplet or run (honors can only appear as
triplets since `IsRun` demands a numeric suit). -/
def IsMeld (m : Multiset Nat) : Prop := IsTriplet m ∨ IsRun m

/-- A pair: two copies of one tile identity. -/
def IsPair (m : Multiset Nat) : Prop := ∃ a, m = {a, a}

/-- Claim C1's literal reading: the tile multiset splits into exactly four
melds plus one pair. -/
def OrigWin (S : Multiset Nat) : Prop :=
  ∃ (melds : Multiset (Multiset Nat)) (pair : Multiset Nat),
    Multiset.card melds = 4 ∧ (∀ m ∈ melds, IsMeld m) ∧ IsPair pair ∧
    S = melds.sum + pair

/-- Amended reading: the non-flower tiles split into melds plus exactly one
pair (no constraint on the number of melds — `can_win` also accepts partial
hands, e.g. a bare pair). -/
def AmendWin (S : Multiset Nat) : Prop :=
  ∃ (melds : Multiset (Multiset Nat)) (pair : Multiset Nat),
    (∀ m ∈ melds, IsMeld m) ∧ IsPair pair ∧
    Multiset.filter (fun id => is_general_flower id = false) S = melds.sum + pair

/-- Embedding of `Fin 7` run-start columns into `Fin 9`. -/
def embed79 (j : Fin 7) : Fin 9 := ⟨j.val, by omega⟩

/-- The unique catalog id sitting at a table cell (junk `0` at the two
honor-row cells that no tile maps to). -/
def idOfCell (s : Fin 4) (k : Fin 9) : Nat :=
  if s.val = 0 then 0x0100 + k.val + 1
  else if s.val = 1 then 0x0200 + k.val + 1
  else if s.val = 2 then 0x0400 + k.val + 1
  else [0x1000, 0x1002, 0x1004, 0x1006, 0x1800, 0x1802, 0x1804].getD k.val 0

/-- Count of tiles of a multiset landing at a given table cell. -/
def cnt (S : Multiset Nat) (s : Fin 4) (k : Fin 9) : Nat :=
  Multiset.countP (fun id => cellOf id = some (s, k)) S

/-- Cells with an actual tile id. -/
def validCell (s : Fin 4) (k : Fin 9) : Prop := s.val < 3 ∨ k.val < 7

instance (s : Fin 4) (k : Fin 9) : Decidable (validCell s k) := by
  unfold validCell; infer_instance

lemma fact_cell_idOf :
    ∀ (s : Fin 4) (k : Fin 9), validCell s k →
      cellOf (idOfCell s k) = some (s, k) ∧ idOfCell s k ∈ catalogIds ∧
      is_general_flower (idOfCell s k) = false := by decide

lemma fact_catalog_cell :
    ∀ id ∈ catalogIds, is_general_flower id = false →
      ∃ (s : Fin 4) (k : Fin 9), cellOf id = some (s, k) ∧ idOfCell s k = id := by
  decide

lemma fact_catalog_roundtrip :
    ∀ id ∈ catalogIds, ∀ (s : Fin 4) (k : Fin 9),
      cellOf id = some (s, k) → idOfCell s k = id := by decide

lemma fact_run_shift :
    ∀ a ∈ catalogIds, (is_char a || is_circle a || is_bamboo a) = true →
      1 ≤ a % 16 → a % 16 ≤ 7 →
      ∃ (s : Fin 4) (k k1 k2 : Fin 9),
        cellOf a = some (s, k) ∧ cellOf (a + 1) = some (s, k1) ∧
        cellOf (a + 2) = some (s, k2) ∧ k1.val = k.val + 1 ∧
        k2.val = k.val + 2 ∧ k.val < 7 ∧ s.val < 3 := by decide

lemma fact_idOf_shift :
    ∀ s : Fin 4, s.val < 3 → ∀ k k' : Fin 9, k'.val = k.val + 1 →
      idOfCell s k' = idOfCell s k + 1 := by decide

lemma fact_run_spec :
    ∀ s : Fin 4, s.val < 3 → ∀ j : Fin 7,
      (is_char (idOfCell s (embed79 j)) || is_circle (idOfCell s (embed79 j)) ||
        is_bamboo (idOfCell s (embed79 j))) = true ∧
      1 ≤ idOfCell s (embed79 j) % 16 ∧ idOfCell s (embed79 j) % 16 ≤ 7 := by
  decide

/-- Any tile id whose suit is a flower suit has no table cell (the suit
chain of `_construct_hand_table` has no branch for it). -/
lemma cellOf_of_flower {id : Nat} (h : is_general_flower id = true) :
    cellOf id = none := by
  rw [is_general_flower, Bool.or_eq_true, beq_iff_eq, beq_iff_eq] at h
  rw [cellOf, is_char, is_circle, is_bamboo, is_honor]
  rcases h with h | h <;>
    rw [h] <;>
    simp [SUIT_CHAR, SUIT_CIRCLE, SUIT_BAMBOO, SUIT_WIND, SUIT_DRAGON,
      SUIT_FLOWER, SUIT_SEASON]

lemma countP_finset_sum {p : Nat → Prop} [DecidablePred p] {ι : Type}
    (s : Finset ι) (f : ι → Multiset Nat) :
    Multiset.countP p (∑ i ∈ s, f i) = ∑ i ∈ s, Multiset.countP p (f i) := by
  classical
  induction s using Finset.induction_on with
  | empty => simp
  | insert hx ih =>
    rw [Finset.sum_insert hx, Finset.sum_insert hx, Multiset.countP_add, ih]

/-- The multiset of one triplet meld at a cell. -/
def tripletM (s : Fin 4) (k : Fin 9) : Multiset Nat :=
  {idOfCell s k, idOfCell s k, idOfCell s k}

/-- The multiset of one run meld starting at a numeric-row cell. -/
def runM (s : Fin 4) (j : Fin 7) : Multiset Nat :=
  {idOfCell s (embed79 j), idOfCell s (embed79 j) + 1, idOfCell s (embed79 j) + 2}

/-- The melds realizing a row decomposition `(t, u)` of row `s`. -/
def meldsOfRow (s : Fin 4) (t : Fin 9 → Nat) (u : Fin 7 → Nat) :
    Multiset (Multiset Nat) :=
  (∑ k : Fin 9, Multiset.replicate (t k) (tripletM s k)) +
  (∑ j : Fin 7, Multiset.replicate (u j) (runM s j))

lemma fact_tripM_cells :
    ∀ (s : Fin 4) (k : Fin 9), validCell s k → ∀ (s' : Fin 4) (k' : Fin 9),
      Multiset.countP (fun id => cellOf id = some (s', k')) (tripletM s k) =
        if s' = s ∧ k' = k then 3 else 0 := by decide

lemma fact_runM_cells :
    ∀ s : Fin 4, s.val < 3 → ∀ (j : Fin 7) (s' : Fin 4) (k' : Fin 9),
      Multiset.countP (fun id => cellOf id = some (s', k')) (runM s j) =
        if s' = s then runInd j k' else 0 := by decide

lemma fact_tripM_support :
    ∀ (s : Fin 4) (k : Fin 9), validCell s k → ∀ id ∈ tripletM s k,
      id ∈ catalogIds ∧ is_general_flower id = false := by decide

lemma fact_runM_support :
    ∀ s : Fin 4, s.val < 3 → ∀ (j : Fin 7), ∀ id ∈ runM s j,
      id ∈ catalogIds ∧ is_general_flower id = false := by decide

lemma runM_isRun {s : Fin 4} (hs : s.val < 3) (j : Fin 7) : IsRun (runM s j) := by
  obtain ⟨h1, h2, h3⟩ := fact_run_spec s hs j
  exact ⟨idOfCell s (embed79 j), h1, h2, h3, rfl⟩

lemma meldsOfRow_isMeld {s : Fin 4} {t : Fin 9 → Nat} {u : Fin 7 → Nat}
    (hu : s.val = 3 → ∀ j, u j = 0) :
    ∀ m ∈ meldsOfRow s t u, IsMeld m := by
  intro m hm
  rw [meldsOfRow, Multiset.mem_add] at hm
  rcases hm with hm | hm
  · obtain ⟨k, -, hk⟩ := (Finset.mem_sum _ _).mp hm
    have := Multiset.eq_of_mem_replicate hk
    subst this
    exact Or.inl ⟨idOfCell s k, rfl⟩
  · obtain ⟨j, -, hj⟩ := (Finset.mem_sum _ _).mp hm
    have hne : u j ≠ 0 := by
      intro h0
      rw [h0, Multiset.replicate_zero] at hj
      cases hj
    have hs3 : s.val < 3 := by
      rcases Nat.lt_or_ge s.val 3 with h | h
      · exact h
      · have : s.val = 3 := by have := s.isLt; omega
        exact absurd (hu this j) hne
    have := Multiset.eq_of_mem_replicate hj
    subst this
    exact Or.inr (runM_isRun hs3 j)

lemma meldsOfRow_support {s : Fin 4} {t : Fin 9 → Nat} {u : Fin 7 → Nat}
    (ht : ∀ k : Fin 9, ¬validCell s k → t k = 0)
    (hu : s.val = 3 → ∀ j, u j = 0) :
    ∀ id ∈ (meldsOfRow s t u).sum, id ∈ catalogIds ∧
      is_general_flower id = false := by
  intro id hid
  rw [meldsOfRow, Multiset.sum_add, Multiset.mem_add] at hid
  rcases hid with hid | hid
  · rw [Multiset.sum_sum] at hid
    obtain ⟨k, -, hk⟩ := (Finset.mem_sum _ _).mp hid
    rw [Multiset.sum_replicate] at hk
    have hv : validCell s k := by
      by_contra hcon
      rw [ht k hcon] at hk
      simp at hk
    have hmem : id ∈ tripletM s k := (Multiset.mem_nsmul.mp hk).2
    exact fact_tripM_support s k hv id hmem
  · rw [Multiset.sum_sum] at hid
    obtain ⟨j, -, hj⟩ := (Finset.mem_sum _ _).mp hid
    rw [Multiset.sum_replicate] at hj
    have hne : u j ≠ 0 := by
      intro h0
      rw [h0] at hj
      simp at hj
    have hs3 : s.val < 3 := by
      rcases Nat.lt_or_ge s.val 3 with h | h
      · exact h
      · have : s.val = 3 := by have := s.isLt; omega
        exact absurd (hu this j) hne
    have hmem : id ∈ runM s j := (Multiset.mem_nsmul.mp hj).2
    exact fact_runM_support s hs3 j id hmem

lemma cnt_meldsOfRow (s : Fin 4) (t : Fin 9 → Nat) (u : Fin 7 → Nat)
    (ht : ∀ k : Fin 9, ¬validCell s k → t k = 0)
    (hu : s.val = 3 → ∀ j, u j = 0) (s' : Fin 4) (k' : Fin 9) :
    cnt (meldsOfRow s t u).sum s' k' =
      if s' = s then meldSum t u k' else 0 := by
  rw [cnt, meldsOfRow, Multiset.sum_add, Multiset.countP_add,
    Multiset.sum_sum, Multiset.sum_sum, countP_finset_sum, countP_finset_sum]
  have htrip : ∀ k : Fin 9,
      Multiset.countP (fun id => cellOf id = some (s', k'))
        ((Multiset.replicate (t k) (tripletM s k)).sum) =
      (if s' = s ∧ k' = k then 3 * t k else 0) := by
    intro k
    rw [Multiset.sum_replicate, Multiset.countP_nsmul]
    by_cases hv : validCell s k
    · rw [fact_tripM_cells s k hv s' k']
      by_cases hc : s' = s ∧ k' = k
      · rw [if_pos hc, if_pos hc]; omega
      · rw [if_neg hc, if_neg hc]; omega
    · rw [ht k hv]
      simp
  rw [Finset.sum_congr rfl (fun k _ => htrip k)]
  have htripsum : ∑ k : Fin 9, (if s' = s ∧ k' = k then 3 * t k else 0) =
      if s' = s then 3 * t k' else 0 := by
    by_cases hss : s' = s
    · simp only [hss, true_and, if_pos rfl]
      rw [Finset.sum_ite_eq Finset.univ k' (fun k => 3 * t k)]
      simp
    · simp [hss]
  rw [htripsum]
  by_cases hs3 : s.val < 3
  · have hrun : ∀ j : Fin 7,
        Multiset.countP (fun id => cellOf id = some (s', k'))
          ((Multiset.replicate (u j) (runM s j)).sum) =
        u j * (if s' = s then runInd j k' else 0) := by
      intro j
      rw [Multiset.sum_replicate, Multiset.countP_nsmul, fact_runM_cells s hs3 j s' k']
    rw [Finset.sum_congr rfl (fun j _ => hrun j)]
    by_cases hss : s' = s
    · subst hss
      simp [meldSum, coverage]
    · simp [hss]
  · have hs3' : s.val = 3 := by have := s.isLt; omega
    have hrun0 : ∀ j : Fin 7,
        Multiset.countP (fun id => cellOf id = some (s', k'))
          ((Multiset.replicate (u j) (runM s j)).sum) = 0 := by
      intro j
      rw [hu hs3' j, Multiset.replicate_zero]
      simp
    rw [Finset.sum_congr rfl (fun j _ => hrun0 j)]
    have hcov : coverage u k' = 0 := by
      rw [coverage]
      apply Finset.sum_eq_zero
      intro j _
      rw [hu hs3' j]
      simp
    by_cases hss : s' = s
    · subst hss
      simp [meldSum, hcov]
    · simp [hss]

/-! ### From the hand table to tile-multiset counts -/

lemma fact_catalog_validCell :
    ∀ id ∈ catalogIds, ∀ (s : Fin 4) (k : Fin 9),
      cellOf id = some (s, k) → validCell s k := by decide

/-- No catalog tile lands at an invalid cell, so a catalog-supported multiset
counts zero there. -/
lemma cnt_invalid_zero {S : Multiset Nat} (hS : ∀ id ∈ S, id ∈ catalogIds)
    {s : Fin 4} {k : Fin 9} (hv : ¬validCell s k) : cnt S s k = 0 := by
  rw [cnt]
  apply Multiset.countP_eq_zero.mpr
  intro a ha hc
  exact hv (fact_catalog_validCell a (hS a ha) s k hc)

/-- Flower tiles land at no cell, so filtering them away leaves every cell
count unchanged. -/
lemma cnt_filter_nonflower (S : Multiset Nat) (s : Fin 4) (k : Fin 9) :
    cnt (Multiset.filter (fun id => is_general_flower id = false) S) s k =
      cnt S s k := by
  have hsplit := Multiset.filter_add_not (fun id => is_general_flower id = false) S
  conv_rhs => rw [← hsplit]
  rw [cnt, cnt, Multiset.countP_add]
  have hz : Multiset.countP (fun id => cellOf id = some (s, k))
      (Multiset.filter (fun id => ¬is_general_flower id = false) S) = 0 := by
    apply Multiset.countP_eq_zero.mpr
    intro a ha hc
    have hfl : is_general_flower a = true := by
      have hh := Multiset.of_mem_filter ha
      simpa using hh
    rw [cellOf_of_flower hfl] at hc
    cases hc
  omega

/-- On a catalog-supported multiset, the count of a catalog id equals the
count of its table cell (no two catalog ids share a cell). -/
lemma count_eq_cnt {X : Multiset Nat} (hX : ∀ a ∈ X, a ∈ catalogIds)
    {id : Nat} {s : Fin 4} {k : Fin 9} (hid : id ∈ catalogIds)
    (hcell : cellOf id = some (s, k)) :
    Multiset.count id X = cnt X s k := by
  rw [Multiset.count, cnt]
  apply Multiset.countP_congr rfl
  intro a ha
  rw [eq_iff_iff]
  constructor
  · intro h
    rw [← h, hcell]
  · intro h
    have h1 := fact_catalog_roundtrip a (hX a ha) s k h
    have h2 := fact_catalog_roundtrip id hid s k hcell
    rw [← h1, ← h2]

/-- The table built by `_construct_hand_table` holds, at each cell, the
number of tiles of the input landing there. -/
lemma handTable_eq_cnt (L : List Nat) (s : Fin 4) (k : Fin 9) :
    handTable L s k = cnt (↑L) s k := by
  induction L using List.reverseRecOn with
  | nil => rfl
  | append_singleton l a ih =>
    have hstep : handTable (l ++ [a]) =
        (fun T id =>
          match cellOf id with
          | some (s, k) =>
              fun s' => if s' = s then Function.update (T s) k (T s k + 1)
                else T s'
          | none => T) (handTable l) a := by
      rw [handTable, handTable, List.foldl_append]
      rfl
    have hcnt : cnt (↑(l ++ [a])) s k =
        cnt (↑l) s k + (if cellOf a = some (s, k) then 1 else 0) := by
      show List.countP _ (l ++ [a]) = _
      rw [List.countP_append]
      show _ = List.countP _ l + _
      rw [List.countP_singleton]
      by_cases hc : cellOf a = some (s, k)
      · rw [if_pos hc]
        simp [hc]
      · rw [if_neg hc]
        simp [hc]
    rw [hstep, hcnt, ← ih]
    beta_reduce
    rcases hca : cellOf a with - | ⟨s0, k0⟩
    · simp
    · have hcond : ∀ (s' : Fin 4) (k' : Fin 9),
          ((some (s0, k0) : Option (Fin 4 × Fin 9)) = some (s', k')) ↔
            (s0 = s' ∧ k0 = k') := by
        intro s' k'
        simp
      show (if s = s0 then Function.update (handTable l s0) k0
          (handTable l s0 k0 + 1) else handTable l s) k = _
      by_cases hss : s = s0
      · subst hss
        rw [if_pos rfl]
        by_cases hkk : k = k0
        · subst hkk
          rw [Function.update_same, if_pos ((hcond _ _).mpr ⟨rfl, rfl⟩)]
        · rw [Function.update_noteq hkk,
            if_neg (fun hc => hkk (((hcond _ _).mp hc).2.symm)), Nat.add_zero]
      · rw [if_neg hss,
          if_neg (fun hc => hss (((hcond _ _).mp hc).1.symm)), Nat.add_zero]

/-- The tile list `can_win` examines: free tiles with the effective incoming
tile (`tile or self.last_tile`) inserted. -/
def winTiles (h : Hand) (incoming : Option Nat) : List Nat :=
  match Hand.orTile incoming h.last_tile with
  | some t => insort h.free_tiles t
  | none => h.free_tiles

/-- The row checks of `can_win` as a function of the table alone. -/
def winCheck (T : Fin 4 → Row) : Bool :=
  if ((List.finRange 4).filter (fun s => rowTotal (T s) % 3 == 0)).length ≠ 3 ∨
      ((List.finRange 4).filter (fun s => rowTotal (T s) % 3 == 2)).length ≠ 1
  then false
  else (List.finRange 4).all (fun i =>
    if rowTotal (T i) % 3 == 0 then canGroupAs3Top (T i) (i == 3)
    else canGroupAsPairAnd3 (T i) (i == 3))

lemma can_win_eq (h : Hand) (incoming : Option Nat) :
    h.can_win incoming = winCheck (handTable (winTiles h incoming)) := by
  simp only [Hand.can_win, winCheck, winTiles]

/-- Row-level description of the whole check: one designated row carries the
pair (and groups as pair + melds), every other row groups into melds; the
honor flag is set exactly on the fourth row. -/
def WinTable (T : Fin 4 → Row) : Prop :=
  ∃ p : Fin 4, IsPairGroup (T p) (p == 3) ∧
    ∀ s : Fin 4, s ≠ p → IsGroup3 (T s) (s == 3)

lemma filter_mod_partition (l : List (Fin 4)) (f : Fin 4 → Nat) :
    (l.filter (fun s => f s % 3 == 0)).length +
    (l.filter (fun s => f s % 3 == 1)).length +
    (l.filter (fun s => f s % 3 == 2)).length = l.length := by
  induction l with
  | nil => rfl
  | cons a l ih =>
    simp only [List.filter_cons, List.length_cons]
    have h : f a % 3 = 0 ∨ f a % 3 = 1 ∨ f a % 3 = 2 := by omega
    rcases h with h | h | h <;> simp [h] <;> omega

lemma winCheck_iff (T : Fin 4 → Row) : winCheck T = true ↔ WinTable T := by
  constructor
  · intro hchk
    rw [winCheck] at hchk
    split at hchk
    · cases hchk
    · rename_i hcond
      push_neg at hcond
      obtain ⟨hlen0, hlen2⟩ := hcond
      obtain ⟨p, hp2⟩ := List.length_eq_one.mp hlen2
      have hpmod : rowTotal (T p) % 3 = 2 := by
        have hpmem : p ∈ (List.finRange 4).filter
            (fun s => rowTotal (T s) % 3 == 2) := by
          rw [hp2]
          exact List.mem_singleton_self p
        have := List.of_mem_filter hpmem
        simpa using this
      have huniq : ∀ s : Fin 4, rowTotal (T s) % 3 = 2 → s = p := by
        intro s hs
        have hsm : s ∈ (List.finRange 4).filter
            (fun s => rowTotal (T s) % 3 == 2) := by
          apply List.mem_filter.mpr
          exact ⟨List.mem_finRange s, by simp [hs]⟩
        rw [hp2] at hsm
        exact List.mem_singleton.mp hsm
      have hno1 : ∀ s : Fin 4, rowTotal (T s) % 3 ≠ 1 := by
        have hpart := filter_mod_partition (List.finRange 4)
          (fun s => rowTotal (T s))
        have hfr : (List.finRange 4).length = 4 := rfl
        intro s hs
        have hsm : s ∈ (List.finRange 4).filter
            (fun s => rowTotal (T s) % 3 == 1) := by
          apply List.mem_filter.mpr
          exact ⟨List.mem_finRange s, by simp [hs]⟩
        have : ((List.finRange 4).filter
            (fun s => rowTotal (T s) % 3 == 1)).length = 0 := by omega
        rw [List.length_eq_zero] at this
        rw [this] at hsm
        cases hsm
      have hmod0 : ∀ s : Fin 4, s ≠ p → rowTotal (T s) % 3 = 0 := by
        intro s hs
        have h2 : rowTotal (T s) % 3 ≠ 2 := fun h => hs (huniq s h)
        have h1 := hno1 s
        omega
      have hall := List.all_eq_true.mp hchk
      refine ⟨p, ?_, ?_⟩
      · have hp := hall p (List.mem_finRange p)
        rw [if_neg (by simp [hpmod])] at hp
        exact (canGroupAsPairAnd3_correct _ _).mp hp
      · intro s hs
        have hsall := hall s (List.mem_finRange s)
        rw [if_pos (by simp [hmod0 s hs])] at hsall
        exact (canGroupAs3Top_correct _ _).mp hsall
  · rintro ⟨p, hpair, hrest⟩
    rw [winCheck]
    fin_cases p
    · have ha : rowTotal (T 0) % 3 = 2 := isPairGroup_mod hpair
      have h1 : rowTotal (T 1) % 3 = 0 := isGroup3_mod (hrest 1 (by decide))
      have h2 : rowTotal (T 2) % 3 = 0 := isGroup3_mod (hrest 2 (by decide))
      have h3 : rowTotal (T 3) % 3 = 0 := isGroup3_mod (hrest 3 (by decide))
      have hpB : canGroupAsPairAnd3 (T 0) ((0 : Fin 4) == 3) = true :=
        (canGroupAsPairAnd3_correct _ _).mpr hpair
      have hr1 : canGroupAs3Top (T 1) ((1 : Fin 4) == 3) = true :=
        (canGroupAs3Top_correct _ _).mpr (hrest 1 (by decide))
      have hr2 : canGroupAs3Top (T 2) ((2 : Fin 4) == 3) = true :=
        (canGroupAs3Top_correct _ _).mpr (hrest 2 (by decide))
      have hr3 : canGroupAs3Top (T 3) ((3 : Fin 4) == 3) = true :=
        (canGroupAs3Top_correct _ _).mpr (hrest 3 (by decide))
      rw [show List.finRange 4 = [0, 1, 2, 3] from rfl]
      simp only [List.filter_cons, List.filter_nil, List.all_cons, List.all_nil,
        ha, h1, h2, h3]
      rw [if_neg (by decide)]
      refine (by decide : ∀ a b c d : Bool, a = true → b = true → c = true →
        d = true → (a && (b && (c && (d && true)))) = true) _ _ _ _ hpB hr1 hr2 hr3
    · have ha : rowTotal (T 1) % 3 = 2 := isPairGroup_mod hpair
      have h1 : rowTotal (T 0) % 3 = 0 := isGroup3_mod (hrest 0 (by decide))
      have h2 : rowTotal (T 2) % 3 = 0 := isGroup3_mod (hrest 2 (by decide))
      have h3 : rowTotal (T 3) % 3 = 0 := isGroup3_mod (hrest 3 (by decide))
      have hpB : canGroupAsPairAnd3 (T 1) ((1 : Fin 4) == 3) = true :=
        (canGroupAsPairAnd3_correct _ _).mpr hpair
      have hr1 : canGroupAs3Top (T 0) ((0 : Fin 4) == 3) = true :=
        (canGroupAs3Top_correct _ _).mpr (hrest 0 (by decide))
      have hr2 : canGroupAs3Top (T 2) ((2 : Fin 4) == 3) = true :=
        (canGroupAs3Top_correct _ _).mpr (hrest 2 (by decide))
      have hr3 : canGroupAs3Top (T 3) ((3 : Fin 4) == 3) = true :=
        (canGroupAs3Top_correct _ _).mpr (hrest 3 (by decide))
      rw [show List.finRange 4 = [0, 1, 2, 3] from rfl]
      simp only [List.filter_cons, List.filter_nil, List.all_cons, List.all_nil,
        ha, h1, h2, h3]
      rw [if_neg (by decide)]
      refine (by decide : ∀ a b c d : Bool, a = true → b = true → c = true →
        d = true → (a && (b && (c && (d && true)))) = true) _ _ _ _ hr1 hpB hr2 hr3
    · have ha : rowTotal (T 2) % 3 = 2 := isPairGroup_mod hpair
      have h1 : rowTotal (T 0) % 3 = 0 := isGroup3_mod (hrest 0 (by decide))
      have h2 : rowTotal (T 1) % 3 = 0 := isGroup3_mod (hrest 1 (by decide))
      have h3 : rowTotal (T 3) % 3 = 0 := isGroup3_mod (hrest 3 (by decide))
      have hpB : canGroupAsPairAnd3 (T 2) ((2 : Fin 4) == 3) = true :=
        (canGroupAsPairAnd3_correct _ _).mpr hpair
      have hr1 : canGroupAs3Top (T 0) ((0 : Fin 4) == 3) = true :=
        (canGroupAs3Top_correct _ _).mpr (hrest 0 (by decide))
      have hr2 : canGroupAs3Top (T 1) ((1 : Fin 4) == 3) = true :=
        (canGroupAs3Top_correct _ _).mpr (hrest 1 (by decide))
      have hr3 : canGroupAs3Top (T 3) ((3 : Fin 4) == 3) = true :=
        (canGroupAs3Top_correct _ _).mpr (hrest 3 (by decide))
      rw [show List.finRange 4 = [0, 1, 2, 3] from rfl]
      simp only [List.filter_cons, List.filter_nil, List.all_cons, List.all_nil,
        ha, h1, h2, h3]
      rw [if_neg (by decide)]
      refine (by decide : ∀ a b c d : Bool, a = true → b = true → c = true →
        d = true → (a && (b && (c && (d && true)))) = true) _ _ _ _ hr1 hr2 hpB hr3
    · have ha : rowTotal (T 3) % 3 = 2 := isPairGroup_mod hpair
      have h1 : rowTotal (T 0) % 3 = 0 := isGroup3_mod (hrest 0 (by decide))
      have h2 : rowTotal (T 1) % 3 = 0 := isGroup3_mod (hrest 1 (by decide))
      have h3 : rowTotal (T 2) % 3 = 0 := isGroup3_mod (hrest 2 (by decide))
      have hpB : canGroupAsPairAnd3 (T 3) ((3 : Fin 4) == 3) = true :=
        (canGroupAsPairAnd3_correct _ _).mpr hpair
      have hr1 : canGroupAs3Top (T 0) ((0 : Fin 4) == 3) = true :=
        (canGroupAs3Top_correct _ _).mpr (hrest 0 (by decide))
      have hr2 : canGroupAs3Top (T 1) ((1 : Fin 4) == 3) = true :=
        (canGroupAs3Top_correct _ _).mpr (hrest 1 (by decide))
      have hr3 : canGroupAs3Top (T 2) ((2 : Fin 4) == 3) = true :=
        (canGroupAs3Top_correct _ _).mpr (hrest 2 (by decide))
      rw [show List.finRange 4 = [0, 1, 2, 3] from rfl]
      simp only [List.filter_cons, List.filter_nil, List.all_cons, List.all_nil,
        ha, h1, h2, h3]
      rw [if_neg (by decide)]
      refine (by decide : ∀ a b c d : Bool, a = true → b = true → c = true →
        d = true → (a && (b && (c && (d && true)))) = true) _ _ _ _ hr1 hr2 hr3 hpB

/-! ### Table decompositions and tile-multiset decompositions coincide -/

lemma fin4_eq_3_of_beq {s : Fin 4} (h : (s == 3) = true) : s.val = 3 := by
  have : s = 3 := by
    have hb : (s == (3 : Fin 4)) = true ↔ s = 3 := beq_iff_eq
    exact hb.mp h
  rw [this]
  rfl

lemma fin4_beq_of_eq_3 {s : Fin 4} (h : s.val = 3) : (s == 3) = true := by
  have : s = 3 := Fin.ext h
  rw [this]
  rfl

lemma amendWin_of_winTable {S : Multiset Nat}
    (hS : ∀ id ∈ S, id ∈ catalogIds)
    (hw : WinTable (fun s => fun k => cnt S s k)) : AmendWin S := by
  obtain ⟨p, hpair, hrest⟩ := hw
  obtain ⟨i, tp, up, hup, hpeq⟩ := hpair
  have hch : ∀ s : Fin 4, ∃ t u, (s.val = 3 → ∀ j, u j = 0) ∧
      (∀ k : Fin 9, ¬validCell s k → t k = 0) ∧
      ∀ k, cnt S s k = (if s = p ∧ k = i then 2 else 0) + meldSum t u k := by
    intro s
    by_cases hsp : s = p
    · subst hsp
      refine ⟨tp, up, ?_, ?_, ?_⟩
      · intro h3 j
        have := hup (fin4_beq_of_eq_3 h3)
        exact congrFun this j
      · intro k hk
        have hzero : cnt S s k = 0 := cnt_invalid_zero hS hk
        have hek := congrFun hpeq k
        simp only at hek
        rw [hzero] at hek
        rw [meldSum] at hek
        by_cases hki : k = i
        · rw [if_pos hki] at hek
          omega
        · rw [if_neg hki] at hek
          omega
      · intro k
        have hek := congrFun hpeq k
        simp only at hek
        rw [hek, meldSum]
        by_cases hki : k = i
        · rw [if_pos hki, if_pos ⟨rfl, hki⟩]
        · rw [if_neg hki, if_neg (fun hc => hki hc.2)]
    · obtain ⟨t, u, hu, heq⟩ := hrest s hsp
      refine ⟨t, u, ?_, ?_, ?_⟩
      · intro h3 j
        have := hu (fin4_beq_of_eq_3 h3)
        exact congrFun this j
      · intro k hk
        have hzero : cnt S s k = 0 := cnt_invalid_zero hS hk
        have hek := congrFun heq k
        simp only at hek
        rw [hzero] at hek
        rw [meldSum] at hek
        omega
      · intro k
        have hek := congrFun heq k
        simp only at hek
        rw [hek, if_neg (fun hc => hsp hc.1), Nat.zero_add]
  choose t u hu ht heq using hch
  have hvi : validCell p i := by
    by_contra hvi
    have hzero : cnt S p i = 0 := cnt_invalid_zero hS hvi
    have := heq p i
    rw [hzero, if_pos ⟨rfl, rfl⟩] at this
    omega
  refine ⟨∑ s : Fin 4, meldsOfRow s (t s) (u s),
    {idOfCell p i, idOfCell p i}, ?_, ⟨idOfCell p i, rfl⟩, ?_⟩
  · intro m hm
    obtain ⟨s, -, hms⟩ := (Finset.mem_sum _ _).mp hm
    exact meldsOfRow_isMeld (hu s) m hms
  · apply Multiset.ext.mpr
    intro b
    rw [Multiset.count_add]
    have hsum_support : ∀ a ∈ (∑ s : Fin 4, meldsOfRow s (t s) (u s)).sum,
        a ∈ catalogIds ∧ is_general_flower a = false := by
      intro a ha
      rw [Multiset.sum_sum] at ha
      obtain ⟨s, -, has⟩ := (Finset.mem_sum _ _).mp ha
      exact meldsOfRow_support (ht s) (hu s) a has
    have hpair_cell := fact_cell_idOf p i hvi
    rcases hcb : cellOf b with - | ⟨sb, kb⟩
    · have hnf : b ∉ Multiset.filter
          (fun id => is_general_flower id = false) S := by
        intro hmem
        have hbS := Multiset.mem_of_mem_filter hmem
        have hbnf := Multiset.of_mem_filter hmem
        obtain ⟨s', k', hc, -⟩ := fact_catalog_cell b (hS b hbS) hbnf
        rw [hcb] at hc
        cases hc
      have hnm : b ∉ (∑ s : Fin 4, meldsOfRow s (t s) (u s)).sum := by
        intro hmem
        obtain ⟨hcat, hbnf⟩ := hsum_support b hmem
        obtain ⟨s', k', hc, -⟩ := fact_catalog_cell b hcat hbnf
        rw [hcb] at hc
        cases hc
      have hnp : b ∉ ({idOfCell p i, idOfCell p i} : Multiset Nat) := by
        intro hmem
        have hb : b = idOfCell p i := by
          rcases Multiset.mem_cons.mp hmem with h | h
          · exact h
          · exact Multiset.mem_singleton.mp h
        rw [hb, hpair_cell.1] at hcb
        cases hcb
      rw [Multiset.count_eq_zero_of_not_mem hnf,
        Multiset.count_eq_zero_of_not_mem hnm,
        Multiset.count_eq_zero_of_not_mem hnp]
    · by_cases hbc : b ∈ catalogIds
      · have hbnf : is_general_flower b = false := by
          by_contra hfl
          rw [cellOf_of_flower (Bool.not_eq_false _ ▸ hfl)] at hcb
          cases hcb
        have hL : Multiset.count b (Multiset.filter
            (fun id => is_general_flower id = false) S) = cnt S sb kb := by
          rw [Multiset.count_filter, if_pos hbnf]
          exact count_eq_cnt hS hbc hcb
        have hM : Multiset.count b (∑ s : Fin 4, meldsOfRow s (t s) (u s)).sum =
            meldSum (t sb) (u sb) kb := by
          rw [count_eq_cnt (fun a ha => (hsum_support a ha).1) hbc hcb]
          rw [cnt, Multiset.sum_sum, countP_finset_sum]
          have hterm : ∀ s : Fin 4,
              Multiset.countP (fun id => cellOf id = some (sb, kb))
                ((meldsOfRow s (t s) (u s)).sum) =
              if sb = s then meldSum (t s) (u s) kb else 0 :=
            fun s => cnt_meldsOfRow s (t s) (u s) (ht s) (hu s) sb kb
          rw [Finset.sum_congr rfl (fun s _ => hterm s)]
          rw [Finset.sum_ite_eq Finset.univ sb (fun s => meldSum (t s) (u s) kb)]
          simp
        have hP : Multiset.count b ({idOfCell p i, idOfCell p i} : Multiset Nat) =
            if sb = p ∧ kb = i then 2 else 0 := by
          by_cases hcell : sb = p ∧ kb = i
          · obtain ⟨h1, h2⟩ := hcell
            subst h1; subst h2
            have hb : b = idOfCell sb kb := (fact_catalog_roundtrip b hbc sb kb hcb).symm
            rw [if_pos ⟨rfl, rfl⟩, ← hb]
            rw [show ({b, b} : Multiset Nat) = b ::ₘ {b} from rfl]
            rw [Multiset.count_cons_self, Multiset.count_singleton, if_pos rfl]
          · rw [if_neg hcell]
            apply Multiset.count_eq_zero_of_not_mem
            intro hmem
            have hb : b = idOfCell p i := by
              rcases Multiset.mem_cons.mp hmem with h | h
              · exact h
              · exact Multiset.mem_singleton.mp h
            rw [hb, hpair_cell.1] at hcb
            have : p = sb ∧ i = kb := by
              have h1 := Option.some.inj hcb
              exact ⟨congrArg Prod.fst h1, congrArg Prod.snd h1⟩
            exact hcell ⟨this.1.symm, this.2.symm⟩
        rw [hL, hM, hP, heq sb kb]
        omega
      · have hnf : b ∉ Multiset.filter
            (fun id => is_general_flower id = false) S := by
          intro hmem
          exact hbc (hS b (Multiset.mem_of_mem_filter hmem))
        have hnm : b ∉ (∑ s : Fin 4, meldsOfRow s (t s) (u s)).sum :=
          fun hmem => hbc (hsum_support b hmem).1
        have hnp : b ∉ ({idOfCell p i, idOfCell p i} : Multiset Nat) := by
          intro hmem
          have hb : b = idOfCell p i := by
            rcases Multiset.mem_cons.mp hmem with h | h
            · exact h
            · exact Multiset.mem_singleton.mp h
          exact hbc (hb ▸ hpair_cell.2.1)
        rw [Multiset.count_eq_zero_of_not_mem hnf,
          Multiset.count_eq_zero_of_not_mem hnm,
          Multiset.count_eq_zero_of_not_mem hnp]

lemma countP_single (p : Nat → Prop) [DecidablePred p] (b : Nat) :
    Multiset.countP p ({b} : Multiset Nat) = if p b then 1 else 0 := by
  rw [show ({b} : Multiset Nat) = b ::ₘ 0 from rfl, Multiset.countP_cons,
    Multiset.countP_zero]
  exact Nat.zero_add _

lemma countP_pair_cell (b : Nat) (s : Fin 4) (k : Fin 9)
    {sb : Fin 4} {kb : Fin 9} (hcb : cellOf b = some (sb, kb)) :
    Multiset.countP (fun id => cellOf id = some (s, k)) ({b, b} : Multiset Nat) =
      if s = sb ∧ k = kb then 2 else 0 := by
  rw [show ({b, b} : Multiset Nat) = b ::ₘ {b} from rfl, Multiset.countP_cons,
    countP_single]
  by_cases hc : s = sb ∧ k = kb
  · obtain ⟨h1, h2⟩ := hc
    subst h1; subst h2
    rw [if_pos hcb, if_pos ⟨rfl, rfl⟩]
  · have hne : ¬(cellOf b = some (s, k)) := by
      intro h
      rw [hcb] at h
      have h1 := Option.some.inj h
      exact hc ⟨(congrArg Prod.fst h1).symm, (congrArg Prod.snd h1).symm⟩
    rw [if_neg hne, if_neg hc]

/-- A multiset of melds over catalog non-flower tiles induces, row by row,
triplet and run multiplicities matching its cell counts. -/
lemma melds_decomp (melds : Multiset (Multiset Nat))
    (hm : ∀ m ∈ melds, IsMeld m)
    (hsup : ∀ a ∈ melds.sum, a ∈ catalogIds ∧ is_general_flower a = false) :
    ∃ (t : Fin 4 → Fin 9 → Nat) (u : Fin 4 → Fin 7 → Nat),
      (∀ s : Fin 4, s.val = 3 → ∀ j, u s j = 0) ∧
      ∀ (s : Fin 4) (k : Fin 9), cnt melds.sum s k = meldSum (t s) (u s) k := by
  induction melds using Multiset.induction_on with
  | empty =>
    refine ⟨fun _ _ => 0, fun _ _ => 0, fun _ _ _ => rfl, ?_⟩
    intro s k
    simp [cnt, meldSum, coverage]
  | cons m melds ih =>
    have hm' : ∀ m' ∈ melds, IsMeld m' := fun m' hm' => hm m' (Multiset.mem_cons_of_mem hm')
    have hsum : (m ::ₘ melds).sum = m + melds.sum := Multiset.sum_cons m melds
    have hsup' : ∀ a ∈ melds.sum, a ∈ catalogIds ∧ is_general_flower a = false := by
      intro a ha
      exact hsup a (hsum ▸ Multiset.mem_add.mpr (Or.inr ha))
    have hsupm : ∀ a ∈ m, a ∈ catalogIds ∧ is_general_flower a = false := by
      intro a ha
      exact hsup a (hsum ▸ Multiset.mem_add.mpr (Or.inl ha))
    obtain ⟨t, u, hu, hcnt⟩ := ih hm' hsup'
    have hcnt_add : ∀ (s : Fin 4) (k : Fin 9), cnt (m ::ₘ melds).sum s k =
        Multiset.countP (fun id => cellOf id = some (s, k)) m +
          meldSum (t s) (u s) k := by
      intro s k
      rw [cnt, hsum, Multiset.countP_add, ← hcnt s k, cnt]
    rcases hm m (Multiset.mem_cons_self m melds) with ⟨a, hma⟩ | ⟨a, hsuit, h1, h7, hma⟩
    · -- triplet meld
      have ham : a ∈ m := by
        rw [hma]
        exact Multiset.mem_cons_self a _
      obtain ⟨hacat, hanf⟩ := hsupm a ham
      obtain ⟨s0, k0, hc0, -⟩ := fact_catalog_cell a hacat hanf
      refine ⟨fun s k => if s = s0 ∧ k = k0 then t s k + 1 else t s k, u, hu, ?_⟩
      intro s k
      rw [hcnt_add s k]
      have hcountm : Multiset.countP (fun id => cellOf id = some (s, k)) m =
          if s = s0 ∧ k = k0 then 3 else 0 := by
        rw [hma, show ({a, a, a} : Multiset Nat) = a ::ₘ a ::ₘ {a} from rfl,
          Multiset.countP_cons, Multiset.countP_cons, countP_single]
        by_cases hc : s = s0 ∧ k = k0
        · obtain ⟨hh1, hh2⟩ := hc
          subst hh1; subst hh2
          rw [if_pos hc0, if_pos ⟨rfl, rfl⟩]
        · have hne : ¬(cellOf a = some (s, k)) := by
            intro h
            rw [hc0] at h
            have he := Option.some.inj h
            exact hc ⟨(congrArg Prod.fst he).symm, (congrArg Prod.snd he).symm⟩
          rw [if_neg hne, if_neg hc]
      rw [hcountm, meldSum, meldSum]
      beta_reduce
      by_cases hc : s = s0 ∧ k = k0
      · rw [if_pos hc, if_pos hc]
        omega
      · rw [if_neg hc, if_neg hc]
        omega
    · -- run meld
      have ham : a ∈ m := by
        rw [hma]
        exact Multiset.mem_cons_self a _
      obtain ⟨hacat, -⟩ := hsupm a ham
      obtain ⟨s0, k0, k1, k2, hc0, hc1, hc2, hk1, hk2, hk07, hs03⟩ :=
        fact_run_shift a hacat hsuit h1 h7
      refine ⟨t, fun s j => if s = s0 ∧ j.val = k0.val then u s j + 1 else u s j, ?_, ?_⟩
      · intro s h3 j
        show (if s = s0 ∧ j.val = k0.val then u s j + 1 else u s j) = 0
        rw [if_neg (show ¬(s = s0 ∧ j.val = k0.val) from fun hc => by
          obtain ⟨hh, -⟩ := hc
          subst hh
          omega), hu s h3 j]
      · intro s k
        rw [hcnt_add s k]
        have hcountm : Multiset.countP (fun id => cellOf id = some (s, k)) m =
            (if s = s0 ∧ k = k0 then 1 else 0) + (if s = s0 ∧ k = k1 then 1 else 0) +
            (if s = s0 ∧ k = k2 then 1 else 0) := by
          rw [hma, show ({a, a + 1, a + 2} : Multiset Nat) =
            a ::ₘ (a + 1) ::ₘ {a + 2} from rfl,
            Multiset.countP_cons, Multiset.countP_cons, countP_single]
          have hgen : ∀ (b : Nat) (kb : Fin 9), cellOf b = some (s0, kb) →
              (if cellOf b = some (s, k) then 1 else 0) =
                (if s = s0 ∧ k = kb then 1 else 0) := by
            intro b kb hcb
            by_cases hc : s = s0 ∧ k = kb
            · obtain ⟨hh1, hh2⟩ := hc
              subst hh1; subst hh2
              rw [if_pos hcb, if_pos ⟨rfl, rfl⟩]
            · have hne : ¬(cellOf b = some (s, k)) := by
                intro h
                rw [hcb] at h
                have he := Option.some.inj h
                exact hc ⟨(congrArg Prod.fst he).symm, (congrArg Prod.snd he).symm⟩
              rw [if_neg hne, if_neg hc]
          rw [hgen a k0 hc0, hgen (a + 1) k1 hc1, hgen (a + 2) k2 hc2]
          omega
        rw [hcountm, meldSum, meldSum]
        have hcov : coverage (fun j => if s = s0 ∧ j.val = k0.val then u s j + 1
            else u s j) k = coverage (u s) k +
            (if s = s0 then runInd ⟨k0.val, hk07⟩ k else 0) := by
          rw [coverage, coverage]
          by_cases hss : s = s0
          · subst hss
            have hsplit : ∀ j : Fin 7,
                (if s = s ∧ j.val = k0.val then u s j + 1 else u s j) * runInd j k =
                u s j * runInd j k +
                  (if j = ⟨k0.val, hk07⟩ then runInd j k else 0) := by
              intro j
              by_cases hj : j.val = k0.val
              · rw [if_pos ⟨rfl, hj⟩, if_pos (Fin.ext hj)]
                ring
              · rw [if_neg (fun hc => hj hc.2), if_neg (fun hc => hj (by rw [hc]))]
                omega
            rw [Finset.sum_congr rfl (fun j _ => hsplit j), Finset.sum_add_distrib,
              if_pos rfl]
            congr 1
            rw [Finset.sum_ite_eq' Finset.univ (⟨k0.val, hk07⟩ : Fin 7)
              (fun j => runInd j k)]
            simp
          · rw [if_neg hss]
            have : ∀ j : Fin 7,
                (if s = s0 ∧ j.val = k0.val then u s j + 1 else u s j) * runInd j k =
                u s j * runInd j k := by
              intro j
              rw [if_neg (fun hc => hss hc.1)]
            rw [Finset.sum_congr rfl (fun j _ => this j)]
            omega
        rw [hcov]
        have hind : (if s = s0 then runInd ⟨k0.val, hk07⟩ k else 0) =
            (if s = s0 ∧ k = k0 then 1 else 0) + (if s = s0 ∧ k = k1 then 1 else 0) +
            (if s = s0 ∧ k = k2 then 1 else 0) := by
          by_cases hss : s = s0
          · rw [if_pos hss,
              show runInd ⟨k0.val, hk07⟩ k =
                (if k0.val ≤ k.val ∧ k.val ≤ k0.val + 2 then 1 else 0) from rfl]
            have hk1v : k1.val = k0.val + 1 := hk1
            have hk2v : k2.val = k0.val + 2 := hk2
            have hkk0 : (k = k0) ↔ k.val = k0.val := Fin.ext_iff
            have hkk1 : (k = k1) ↔ k.val = k1.val := Fin.ext_iff
            have hkk2 : (k = k2) ↔ k.val = k2.val := Fin.ext_iff
            by_cases h0 : k.val = k0.val
            · rw [if_pos (by omega), if_pos ⟨hss, hkk0.mpr h0⟩,
                if_neg (fun hc => by have := hkk1.mp hc.2; omega),
                if_neg (fun hc => by have := hkk2.mp hc.2; omega)]
            · by_cases hh1 : k.val = k1.val
              · rw [if_pos (by omega), if_neg (fun hc => h0 (hkk0.mp hc.2)),
                  if_pos ⟨hss, hkk1.mpr hh1⟩,
                  if_neg (fun hc => by have := hkk2.mp hc.2; omega)]
              · by_cases hh2 : k.val = k2.val
                · rw [if_pos (by omega), if_neg (fun hc => h0 (hkk0.mp hc.2)),
                    if_neg (fun hc => hh1 (hkk1.mp hc.2)),
                    if_pos ⟨hss, hkk2.mpr hh2⟩]
                · rw [if_neg (by omega), if_neg (fun hc => h0 (hkk0.mp hc.2)),
                    if_neg (fun hc => hh1 (hkk1.mp hc.2)),
                    if_neg (fun hc => hh2 (hkk2.mp hc.2))]
          · rw [if_neg hss, if_neg (fun hc => hss hc.1),
              if_neg (fun hc => hss hc.1), if_neg (fun hc => hss hc.1)]
        omega

/-- From a meld-plus-pair split of the non-flower tiles to the row-level
table condition. -/
lemma winTable_of_amendWin {S : Multiset Nat}
    (hS : ∀ id ∈ S, id ∈ catalogIds) (ha : AmendWin S) :
    WinTable (fun s => fun k => cnt S s k) := by
  obtain ⟨melds, pair, hm, hp, heq⟩ := ha
  have hfilter_sup : ∀ a ∈ Multiset.filter
      (fun id => is_general_flower id = false) S,
      a ∈ catalogIds ∧ is_general_flower a = false := by
    intro a haf
    refine ⟨hS a (Multiset.mem_of_mem_filter haf), ?_⟩
    have hh := Multiset.of_mem_filter haf
    simpa using hh
  have hsup : ∀ a ∈ melds.sum, a ∈ catalogIds ∧ is_general_flower a = false := by
    intro a ham
    apply hfilter_sup
    rw [heq]
    exact Multiset.mem_add.mpr (Or.inl ham)
  obtain ⟨b, hbpair⟩ := hp
  have hbmem : b ∈ Multiset.filter (fun id => is_general_flower id = false) S := by
    rw [heq]
    apply Multiset.mem_add.mpr (Or.inr ?_)
    rw [hbpair]
    exact Multiset.mem_cons_self b _
  obtain ⟨hbcat, hbnf⟩ := hfilter_sup b hbmem
  obtain ⟨pc, ic, hcb, -⟩ := fact_catalog_cell b hbcat hbnf
  obtain ⟨t, u, hu, hcnt⟩ := melds_decomp melds hm hsup
  have hrow : ∀ (s : Fin 4) (k : Fin 9), cnt S s k =
      (if s = pc ∧ k = ic then 2 else 0) + meldSum (t s) (u s) k := by
    intro s k
    rw [← cnt_filter_nonflower S s k, cnt, heq, Multiset.countP_add]
    have hpc : Multiset.countP (fun id => cellOf id = some (s, k)) pair =
        if s = pc ∧ k = ic then 2 else 0 := by
      rw [hbpair]
      exact countP_pair_cell b s k hcb
    rw [hpc, ← cnt, hcnt s k]
    omega
  refine ⟨pc, ⟨ic, t pc, u pc, ?_, ?_⟩, ?_⟩
  · intro hflag
    funext j
    exact hu pc (fin4_eq_3_of_beq hflag) j
  · funext k
    show cnt S pc k = (if k = ic then 2 else 0) + meldSum (t pc) (u pc) k
    rw [hrow pc k]
    by_cases hki : k = ic
    · rw [if_pos ⟨rfl, hki⟩, if_pos hki]
    · rw [if_neg (fun hc => hki hc.2), if_neg hki]
  · intro s hs
    refine ⟨t s, u s, ?_, ?_⟩
    · intro hflag
      funext j
      exact hu s (fin4_eq_3_of_beq hflag) j
    · funext k
      show cnt S s k = meldSum (t s) (u s) k
      rw [hrow s k, if_neg (fun hc => hs hc.1), Nat.zero_add]

lemma isMeld_card {m : Multiset Nat} (h : IsMeld m) : Multiset.card m = 3 := by
  rcases h with ⟨a, hm⟩ | ⟨a, -, -, -, hm⟩ <;> rw [hm] <;> rfl

lemma origWin_card {S : Multiset Nat} (h : OrigWin S) : Multiset.card S = 14 := by
  obtain ⟨melds, pair, hc, hm, ⟨b, hb⟩, heq⟩ := h
  have hsum : Multiset.card melds.sum = 12 := by
    have h1 : Multiset.card melds.sum = (melds.map Multiset.card).sum :=
      AddMonoidHom.map_multiset_sum Multiset.card melds
    have h2 : melds.map Multiset.card = Multiset.replicate 4 3 := by
      apply Multiset.eq_replicate.mpr
      constructor
      · rw [Multiset.card_map, hc]
      · intro x hx
        obtain ⟨m, hmm, hxm⟩ := Multiset.mem_map.mp hx
        rw [← hxm]
        exact isMeld_card (hm m hmm)
    rw [h1, h2, Multiset.sum_replicate]
    rfl
  have hp2 : Multiset.card pair = 2 := by
    rw [hb]
    rfl
  rw [heq, Multiset.card_add, hsum, hp2]

lemma free_coe_perm (h : Hand) (tl : Nat) :
    (↑(insort h.free_tiles tl) : Multiset Nat) = tl ::ₘ ↑h.free_tiles := by
  have hperm := insort_perm h.free_tiles tl
  exact Multiset.coe_eq_coe.mpr hperm

/-- `can_win(tile)` with an explicit incoming tile, characterised on the tile
multiset: the non-flower tiles among `free_tiles ∪ {tile}` split into melds
(triplets, or suit-respecting runs of three consecutive ranks — never for
honors) plus exactly one pair.  No constraint on the number of melds. -/
theorem can_win_iff_amendWin (h : Hand) (tl : Nat)
    (hfree : ∀ id ∈ h.free_tiles, id ∈ catalogIds) (htl : tl ∈ catalogIds) :
    h.can_win (some tl) = true ↔ AmendWin (tl ::ₘ (↑h.free_tiles : Multiset Nat)) := by
  rw [can_win_eq, winCheck_iff]
  have htiles : winTiles h (some tl) = insort h.free_tiles tl := rfl
  have htab : handTable (winTiles h (some tl)) =
      fun s => fun k => cnt (tl ::ₘ (↑h.free_tiles : Multiset Nat)) s k := by
    funext s k
    rw [htiles, handTable_eq_cnt, free_coe_perm]
  rw [htab]
  have hS : ∀ id ∈ (tl ::ₘ (↑h.free_tiles : Multiset Nat)), id ∈ catalogIds := by
    intro id hid
    rcases Multiset.mem_cons.mp hid with hid | hid
    · rw [hid]; exact htl
    · exact hfree id (Multiset.mem_coe.mp hid)
  exact ⟨amendWin_of_winTable hS, winTable_of_amendWin hS⟩

/-- Claim C1 (counterexample to the claim as stated): on the one-tile hand
`[CHAR1]` with incoming tile CHAR1, `can_win` returns true although the
two-tile multiset admits no partition into four melds plus one pair (it
would need 14 tiles). -/
theorem C1_can_win_counterexample :
    (Hand.init [ID_CHAR1]).can_win (some ID_CHAR1) = true ∧
    ¬ OrigWin (ID_CHAR1 ::ₘ (↑(Hand.init [ID_CHAR1]).free_tiles : Multiset Nat)) := by
  constructor
  · decide
  · intro h
    have hc := origWin_card h
    have h2 : Multiset.card
        (ID_CHAR1 ::ₘ (↑(Hand.init [ID_CHAR1]).free_tiles : Multiset Nat)) = 2 := by
      decide
    omega

/-- Claim C1 (amended): `Hand.can_win(H, t)` returns true iff the non-flower
tiles of (free tiles of H) ∪ \x7bt\x7d partition into melds plus exactly one
pair — each meld a triplet of one tile identity or a run of three consecutive
ranks within a single numeric suit, honor tiles never in runs, runs never
crossing suits; the number of melds is not constrained to four, and flower
tiles are ignored. -/
theorem C1_can_win_amended (h : Hand) (tl : Nat)
    (hfree : ∀ id ∈ h.free_tiles, id ∈ catalogIds) (htl : tl ∈ catalogIds) :
    h.can_win (some tl) = true ↔
      AmendWin (tl ::ₘ (↑h.free_tiles : Multiset Nat)) :=
  can_win_iff_amendWin h tl hfree htl

/-- Witness for C1's amended theorem at a concrete winning hand: the nine-tile
hand CHAR1 CHAR1 CHAR2 CHAR3 CHAR4 BAMBOO5 BAMBOO5 BAMBOO5 + incoming CHAR2
(pair CHAR1-CHAR1 fails; the witness hand is two chows, one pong and a pair). -/
theorem C1_can_win_amended_witness :
    (∀ id ∈ (Hand.init [ID_CHAR1, ID_CHAR1, ID_CHAR2, ID_CHAR3, ID_CHAR4,
      ID_BAMBOO5, ID_BAMBOO5, ID_BAMBOO5]).free_tiles, id ∈ catalogIds) ∧
    ID_CHAR2 ∈ catalogIds ∧
    ((Hand.init [ID_CHAR1, ID_CHAR1, ID_CHAR2, ID_CHAR3, ID_CHAR4,
      ID_BAMBOO5, ID_BAMBOO5, ID_BAMBOO5]).can_win (some ID_CHAR2) = true ↔
      AmendWin (ID_CHAR2 ::ₘ (↑(Hand.init [ID_CHAR1, ID_CHAR1, ID_CHAR2,
        ID_CHAR3, ID_CHAR4, ID_BAMBOO5, ID_BAMBOO5,
        ID_BAMBOO5]).free_tiles : Multiset Nat))) :=
  ⟨by decide, by decide,
    C1_can_win_amended _ ID_CHAR2 (by decide) (by decide)⟩


/-! ### Waiting tiles (claim C5) and flower candidates (claim C9) -/

lemma waiting_foldl (h : Hand) :
    ∀ (l acc : List Nat), List.Sorted (· ≤ ·) acc → acc.Nodup →
      l.Nodup → (∀ x ∈ acc, x ∉ l) →
      List.Sorted (· ≤ ·) (l.foldl (fun tiles t =>
          if h.can_win (some t) then insort tiles t else tiles) acc) ∧
      (l.foldl (fun tiles t =>
          if h.can_win (some t) then insort tiles t else tiles) acc).Nodup ∧
      ∀ x, x ∈ l.foldl (fun tiles t =>
          if h.can_win (some t) then insort tiles t else tiles) acc ↔
        (x ∈ acc ∨ (x ∈ l ∧ h.can_win (some x) = true)) := by
  intro l
  induction l with
  | nil =>
    intro acc hs hn _ _
    refine ⟨hs, hn, fun x => ?_⟩
    simp
  | cons t l ih =>
    intro acc hs hn hln hdisj
    rw [List.foldl_cons]
    have hndt : t ∉ l := (List.nodup_cons.mp hln).1
    have hln2 : l.Nodup := (List.nodup_cons.mp hln).2
    by_cases hw : h.can_win (some t) = true
    · rw [if_pos hw]
      have htna : t ∉ acc := fun hta => hdisj t hta (List.mem_cons_self t l)
      have hs2 : List.Sorted (· ≤ ·) (insort acc t) := insort_sorted hs t
      have hn2 : (insort acc t).Nodup :=
        ((insort_perm acc t).nodup_iff).mpr (List.nodup_cons.mpr ⟨htna, hn⟩)
      have hdisj2 : ∀ x ∈ insort acc t, x ∉ l := by
        intro x hx
        rcases (insort_mem acc t x).mp hx with hx | hx
        · rw [hx]
          exact hndt
        · intro hxl
          exact hdisj x hx (List.mem_cons_of_mem t hxl)
      obtain ⟨ha, hb, hm⟩ := ih (insort acc t) hs2 hn2 hln2 hdisj2
      refine ⟨ha, hb, fun x => ?_⟩
      rw [hm x, insort_mem]
      constructor
      · rintro ((hx | hx) | ⟨hx1, hx2⟩)
        · subst hx
          exact Or.inr ⟨List.mem_cons_self x l, hw⟩
        · exact Or.inl hx
        · exact Or.inr ⟨List.mem_cons_of_mem t hx1, hx2⟩
      · rintro (hx | ⟨hx1, hx2⟩)
        · exact Or.inl (Or.inr hx)
        · rcases List.mem_cons.mp hx1 with hx | hx
          · exact Or.inl (Or.inl hx)
          · exact Or.inr ⟨hx, hx2⟩
    · rw [if_neg hw]
      have hdisj2 : ∀ x ∈ acc, x ∉ l :=
        fun x hx hxl => hdisj x hx (List.mem_cons_of_mem t hxl)
      obtain ⟨ha, hb, hm⟩ := ih acc hs hn hln2 hdisj2
      refine ⟨ha, hb, fun x => ?_⟩
      rw [hm x]
      constructor
      · rintro (hx | ⟨hx1, hx2⟩)
        · exact Or.inl hx
        · exact Or.inr ⟨List.mem_cons_of_mem t hx1, hx2⟩
      · rintro (hx | ⟨hx1, hx2⟩)
        · exact Or.inl hx
        · rcases List.mem_cons.mp hx1 with hx | hx
          · subst hx
            exact absurd hx2 hw
          · exact Or.inr ⟨hx, hx2⟩

/-- Claim C5: `Hand.waiting_tiles()` is a subset of the 42-tile catalog,
sorted in the tiles' total order, duplicate-free, and holds a catalog tile
`t` exactly when `can_win(t)` is true. -/
theorem C5_waiting_tiles (h : Hand) :
    (∀ t ∈ h.waiting_tiles, t ∈ catalogIds) ∧
    List.Sorted (· ≤ ·) h.waiting_tiles ∧
    h.waiting_tiles.Nodup ∧
    (∀ t ∈ catalogIds, (t ∈ h.waiting_tiles ↔ h.can_win (some t) = true)) := by
  have hmain := waiting_foldl h catalogIds [] List.sorted_nil List.nodup_nil
    (by decide) (by intro x hx; cases hx)
  obtain ⟨hs, hn, hm⟩ := hmain
  have hwt : h.waiting_tiles = catalogIds.foldl (fun tiles t =>
      if h.can_win (some t) then insort tiles t else tiles) [] := rfl
  refine ⟨?_, ?_, ?_, ?_⟩
  · intro t ht
    rw [hwt] at ht
    rcases (hm t).mp ht with hx | ⟨hx, -⟩
    · cases hx
    · exact hx
  · rw [hwt]
    exact hs
  · rw [hwt]
    exact hn
  · intro t htc
    rw [hwt, hm t]
    constructor
    · rintro (hx | ⟨-, hx⟩)
      · cases hx
      · exact hx
    · intro hx
      exact Or.inr ⟨htc, hx⟩

/-- Witness for C5 at the one-tile hand `[CHAR1]`: CHAR1 is in the catalog
and is a waiting tile (a bare pair wins). -/
theorem C5_waiting_tiles_witness :
    ID_CHAR1 ∈ catalogIds ∧
    (ID_CHAR1 ∈ (Hand.init [ID_CHAR1]).waiting_tiles ↔
      (Hand.init [ID_CHAR1]).can_win (some ID_CHAR1) = true) :=
  ⟨by decide, (C5_waiting_tiles (Hand.init [ID_CHAR1])).2.2.2
    ID_CHAR1 (by decide)⟩

/-- Claim C9: a hand with no free tiles and a flower/season candidate tile —
either passed in or pending as `last_tile` — never wins: the tile lands in no
table row, every row total is `0 ≡ 0 (mod 3)`, and the pair-row count check
fails. -/
theorem C9_flower_never_wins (t : Nat) (hfl : is_general_flower t = true) :
    (Hand.init []).can_win (some t) = false ∧
    ∀ h : Hand, h.free_tiles = [] → h.last_tile = some t →
      h.can_win none = false := by
  have htab : ∀ (h : Hand), h.free_tiles = [] →
      handTable (insort h.free_tiles t) = fun _ => fun _ => (0 : Nat) := by
    intro h hfree
    funext s k
    rw [hfree, handTable_eq_cnt]
    rw [show insort ([] : List Nat) t = [t] from rfl, cnt]
    apply Multiset.countP_eq_zero.mpr
    intro a ha
    have hat : a = t := by simpa using ha
    subst hat
    rw [cellOf_of_flower hfl]
    simp
  constructor
  · rw [can_win_eq]
    have ht : winTiles (Hand.init []) (some t) =
        insort (Hand.init []).free_tiles t := rfl
    rw [ht, htab (Hand.init []) rfl]
    decide
  · intro h hfree hlast
    rw [can_win_eq]
    have ht : winTiles h none = insort h.free_tiles t := by
      rw [winTiles, hlast]
      rfl
    rw [ht, htab h hfree]
    decide

/-- Witness for C9 at the plum-flower tile, in both forms (incoming tile, and
pending `last_tile` on an otherwise empty hand). -/
theorem C9_flower_never_wins_witness :
    is_general_flower ID_PLUM = true ∧
    (Hand.init []).can_win (some ID_PLUM) = false ∧
    (Hand.mk [] [] [] (some ID_PLUM)).can_win none = false :=
  ⟨by decide, (C9_flower_never_wins ID_PLUM (by decide)).1,
    (C9_flower_never_wins ID_PLUM (by decide)).2 (Hand.mk [] [] [] (some ID_PLUM))
      rfl rfl⟩

/-! ### `algo.select_melders` (claims C2 and C4)

Decisions are `Option String` (`None` or a decision name), viable-decision
entries `Option (List String)` (`None` or a list).  Python's `x in lst` with
a possibly-`None` `x` is `optMem`; list indexing is written with a `none`
default (the source indexes lists of equal length, where the default is never
read).  The early `return [(player_idx, None)]` statements surface as the
`some`-valued first component of `winCollect` and as the `some [(idx, none)]`
results of `prioScan`. -/

def optMem (d : Option String) (l : List String) : Bool :=
  match d with
  | some s => l.contains s
  | none => false

/-- The first loop of `select_melders`: walk the rotated seats, collect every
seat whose viable list holds the win decision and who chose it; a seat that
could win but has not yet made a valid decision aborts with a pending
marker. -/
def winCollect (viable : List (Option (List String)))
    (decisions : List (Option String)) (bo np : Nat) :
    List Nat → List (Nat × Option String) →
      Option (List (Nat × Option String)) × List (Nat × Option String)
  | [], acc => (none, acc)
  | i :: rest, acc =>
    let pidx := (bo + i) % np
    match viable.getD pidx none with
    | some pv =>
      if !pv.isEmpty && pv.contains "win" then
        let pd := decisions.getD pidx none
        if pd == some "win" then
          winCollect viable decisions bo np rest (acc ++ [(pidx, some "win")])
        else if !optMem pd pv then (some [(pidx, none)], acc)
        else winCollect viable decisions bo np rest acc
      else winCollect viable decisions bo np rest acc
    | none => winCollect viable decisions bo np rest acc

/-- One pass of the second loop of `select_melders` for a fixed decision
name: the first rotated seat whose viable list holds the decision either
pends (no valid decision yet) or, having chosen it, takes it; a seat that
chose something else is passed over. -/
def prioScan (viable : List (Option (List String)))
    (decisions : List (Option String)) (bo np : Nat) (d : String) :
    List Nat → Option (List (Nat × Option String))
  | [] => none
  | i :: rest =>
    let pidx := (bo + i) % np
    match viable.getD pidx none with
    | some pv =>
      if !pv.isEmpty && pv.contains d then
        let pd := decisions.getD pidx none
        if !optMem pd pv then some [(pidx, none)]
        else if pd == some d then some [(pidx, some d)]
        else prioScan viable decisions bo np d rest
      else prioScan viable decisions bo np d rest
    | none => prioScan viable decisions bo np d rest

/-- Translation of `algo.select_melders(viable_decisions, player_decisions,
base_offset)`; the Python `None` result is `none`. -/
def select_melders (viable_decisions : List (Option (List String)))
    (player_decisions : List (Option String)) (base_offset : Nat) :
    Option (List (Nat × Option String)) :=
  let np := player_decisions.length
  match winCollect viable_decisions player_decisions base_offset np
      (List.range np) [] with
  | (some r, _) => some r
  | (none, result) =>
    if !result.isEmpty then some result
    else
      match prioScan viable_decisions player_decisions base_offset np "kong"
          (List.range np) with
      | some r => some r
      | none =>
        match prioScan viable_decisions player_decisions base_offset np "pong"
            (List.range np) with
        | some r => some r
        | none =>
          match prioScan viable_decisions player_decisions base_offset np "chow"
              (List.range np) with
          | some r => some r
          | none => none

/-- Claim C4: with viable decisions `[None, [chow, skip], [kong, skip],
[win, skip]]`, chosen decisions `[None, chow, kong, win]` resolve to exactly
`[(3, win)]`, and `[None, chow, kong, skip]` to exactly `[(2, kong)]`. -/
theorem C4_select_melders_examples :
    select_melders
        [none, some ["chow", "skip"], some ["kong", "skip"], some ["win", "skip"]]
        [none, some "chow", some "kong", some "win"] 0 =
      some [(3, some "win")] ∧
    select_melders
        [none, some ["chow", "skip"], some ["kong", "skip"], some ["win", "skip"]]
        [none, some "chow", some "kong", some "skip"] 0 =
      some [(2, some "kong")] := ⟨rfl, rfl⟩


/-! ### Specification-side reading of `select_melders` (claim C2)

Written from the claim's words, for comparison with the translated source:
all seats are ranked from the rotation origin; the win claimants are taken
all together, otherwise the kong, then pong, then chow claimant nearest the
origin takes the action alone. -/

/-- The seats in rotation order from the origin. -/
def rotSeats (bo np : Nat) : List Nat :=
  (List.range np).map (fun i => (bo + i) % np)

/-- The seats, in rotation order, that can take decision `d` and chose it. -/
def claimants (viable : List (Option (List String)))
    (decisions : List (Option String)) (bo np : Nat) (d : String) : List Nat :=
  (rotSeats bo np).filter (fun p =>
    ((viable.getD p none).getD []).contains d &&
      decisions.getD p none == some d)

/-- The claim's description of arbitration: every win claimant wins together;
otherwise the first kong claimant, else the first pong claimant, else the
first chow claimant acts alone; else nothing happens. -/
def select_spec (viable : List (Option (List String)))
    (decisions : List (Option String)) (bo : Nat) :
    Option (List (Nat × Option String)) :=
  let np := decisions.length
  let winners := claimants viable decisions bo np "win"
  if !winners.isEmpty then some (winners.map (fun p => (p, some "win")))
  else
    match (claimants viable decisions bo np "kong").head? with
    | some p => some [(p, some "kong")]
    | none =>
      match (claimants viable decisions bo np "pong").head? with
      | some p => some [(p, some "pong")]
      | none =>
        match (claimants viable decisions bo np "chow").head? with
        | some p => some [(p, some "chow")]
        | none => none

/-- All seats with a non-empty viable list have made a decision from it. -/
def AllDecided (viable : List (Option (List String)))
    (decisions : List (Option String)) : Prop :=
  ∀ p, p < decisions.length → ∀ pv, viable.getD p none = some pv →
    pv.isEmpty = false → optMem (decisions.getD p none) pv = true

lemma contains_false_of_guard {pv : List String} {d : String}
    (h : (!pv.isEmpty && pv.contains d) = false) : pv.contains d = false := by
  cases hpv : pv with
  | nil => rfl
  | cons a l =>
    rw [hpv] at h
    simpa using h

lemma winCollect_spec {viable : List (Option (List String))}
    {decisions : List (Option String)} {bo np : Nat}
    (hdec : AllDecided viable decisions) (hnp : np = decisions.length) :
    ∀ (l : List Nat) (acc : List (Nat × Option String)),
      (∀ i ∈ l, (bo + i) % np < np) →
      winCollect viable decisions bo np l acc =
        (none, acc ++ ((l.map (fun i => (bo + i) % np)).filter (fun p =>
          ((viable.getD p none).getD []).contains "win" &&
            decisions.getD p none == some "win")).map
          (fun p => (p, some "win"))) := by
  intro l
  induction l with
  | nil =>
    intro acc _
    simp [winCollect]
  | cons i rest ih =>
    intro acc hbound
    have hidx : (bo + i) % np < np := hbound i (List.mem_cons_self i rest)
    have hbound2 : ∀ j ∈ rest, (bo + j) % np < np :=
      fun j hj => hbound j (List.mem_cons_of_mem i hj)
    rw [winCollect, List.map_cons, List.filter_cons]
    rcases hv : viable.getD ((bo + i) % np) none with - | pv
    · have hpred : (((none : Option (List String)).getD []).contains "win" &&
          decisions.getD ((bo + i) % np) none == some "win") = false := by
        simp [List.contains]
      rw [if_neg (by rw [hpred]; exact Bool.false_ne_true)]
      exact ih acc hbound2
    · show (if (!pv.isEmpty && pv.contains "win") = true then _ else _) = _
      by_cases hguard : (!pv.isEmpty && pv.contains "win") = true
      · rw [if_pos hguard]
        rw [Bool.and_eq_true] at hguard
        obtain ⟨hne, hcont⟩ := hguard
        by_cases hchoice : decisions.getD ((bo + i) % np) none == some "win"
        · rw [if_pos hchoice]
          rw [ih (acc ++ [((bo + i) % np, some "win")]) hbound2]
          have hpred : (((some pv).getD []).contains "win" &&
              decisions.getD ((bo + i) % np) none == some "win") = true := by
            rw [Option.getD_some]
            rw [Bool.and_eq_true]
            exact ⟨hcont, hchoice⟩
          rw [if_pos hpred, List.map_cons, List.append_assoc]
          rfl
        · rw [if_neg hchoice]
          have hmem : optMem (decisions.getD ((bo + i) % np) none) pv = true := by
            apply hdec ((bo + i) % np) (hnp ▸ hidx) pv hv
            rw [Bool.not_eq_true'] at hne
            exact hne
          rw [if_neg (by rw [hmem]; simp)]
          rw [ih acc hbound2]
          have hpred : (((some pv).getD []).contains "win" &&
              decisions.getD ((bo + i) % np) none == some "win") = false := by
            rw [Option.getD_some, Bool.eq_false_iff.mpr hchoice,
              Bool.and_false]
          rw [if_neg (by rw [hpred]; exact Bool.false_ne_true)]
      · rw [if_neg hguard]
        rw [ih acc hbound2]
        have hcont := contains_false_of_guard (Bool.eq_false_iff.mpr hguard)
        have hpred : (((some pv).getD []).contains "win" &&
            decisions.getD ((bo + i) % np) none == some "win") = false := by
          rw [Option.getD_some, hcont]
          rfl
        rw [if_neg (by rw [hpred]; exact Bool.false_ne_true)]

lemma prioScan_spec {viable : List (Option (List String))}
    {decisions : List (Option String)} {bo np : Nat} (d : String)
    (hdec : AllDecided viable decisions) (hnp : np = decisions.length) :
    ∀ l : List Nat, (∀ i ∈ l, (bo + i) % np < np) →
      prioScan viable decisions bo np d l =
        ((l.map (fun i => (bo + i) % np)).filter (fun p =>
          ((viable.getD p none).getD []).contains d &&
            decisions.getD p none == some d)).head?.map
          (fun p => [(p, some d)]) := by
  intro l
  induction l with
  | nil =>
    intro _
    simp [prioScan]
  | cons i rest ih =>
    intro hbound
    have hidx : (bo + i) % np < np := hbound i (List.mem_cons_self i rest)
    have hbound2 : ∀ j ∈ rest, (bo + j) % np < np :=
      fun j hj => hbound j (List.mem_cons_of_mem i hj)
    rw [prioScan, List.map_cons, List.filter_cons]
    rcases hv : viable.getD ((bo + i) % np) none with - | pv
    · have hpred : (((none : Option (List String)).getD []).contains d &&
          decisions.getD ((bo + i) % np) none == some d) = false := by
        simp [List.contains]
      rw [if_neg (by rw [hpred]; exact Bool.false_ne_true)]
      exact ih hbound2
    · show (if (!pv.isEmpty && pv.contains d) = true then _ else _) = _
      by_cases hguard : (!pv.isEmpty && pv.contains d) = true
      · rw [if_pos hguard]
        rw [Bool.and_eq_true] at hguard
        obtain ⟨hne, hcont⟩ := hguard
        have hmem : optMem (decisions.getD ((bo + i) % np) none) pv = true := by
          apply hdec ((bo + i) % np) (hnp ▸ hidx) pv hv
          rw [Bool.not_eq_true'] at hne
          exact hne
        rw [if_neg (by rw [hmem]; simp)]
        by_cases hchoice : decisions.getD ((bo + i) % np) none == some d
        · rw [if_pos hchoice]
          have hpred : (((some pv).getD []).contains d &&
              decisions.getD ((bo + i) % np) none == some d) = true := by
            rw [Option.getD_some]
            rw [Bool.and_eq_true]
            exact ⟨hcont, hchoice⟩
          rw [if_pos hpred]
          rfl
        · rw [if_neg hchoice]
          rw [ih hbound2]
          have hpred : (((some pv).getD []).contains d &&
              decisions.getD ((bo + i) % np) none == some d) = false := by
            rw [Option.getD_some, Bool.eq_false_iff.mpr hchoice,
              Bool.and_false]
          rw [if_neg (by rw [hpred]; exact Bool.false_ne_true)]
      · rw [if_neg hguard]
        rw [ih hbound2]
        have hcont := contains_false_of_guard (Bool.eq_false_iff.mpr hguard)
        have hpred : (((some pv).getD []).contains d &&
            decisions.getD ((bo + i) % np) none == some d) = false := by
          rw [Option.getD_some, hcont]
          rfl
        rw [if_neg (by rw [hpred]; exact Bool.false_ne_true)]

lemma select_assemble (W : List Nat) (K P C : Option Nat) :
    (match ((none : Option (List (Nat × Option String))),
        ([] : List (Nat × Option String)) ++
          W.map (fun p => (p, some "win"))) with
     | (some r, _) => some r
     | (none, result) =>
       if !result.isEmpty then some result
       else
         match K.map (fun p => [(p, some "kong")]) with
         | some r => some r
         | none =>
           match P.map (fun p => [(p, some "pong")]) with
           | some r => some r
           | none =>
             match C.map (fun p => [(p, some "chow")]) with
             | some r => some r
             | none => none) =
    (if !W.isEmpty then some (W.map (fun p => (p, some "win")))
     else
       match K with
       | some p => some [(p, some "kong")]
       | none =>
         match P with
         | some p => some [(p, some "pong")]
         | none =>
           match C with
           | some p => some [(p, some "chow")]
           | none => none) := by
  cases W with
  | nil => cases K <;> cases P <;> cases C <;> rfl
  | cons w ws => rfl

/-- Claim C2: once every seat with options has made a valid decision,
`select_melders` arbitrates exactly as specified — all win claimants
together beat the kong claimant nearest the rotation origin, who beats the
nearest pong claimant, who beats the nearest chow claimant; the function is
a pure function of its inputs (deterministic). -/
theorem C2_select_melders_spec (viable : List (Option (List String)))
    (decisions : List (Option String)) (bo : Nat)
    (hdec : AllDecided viable decisions) :
    select_melders viable decisions bo = select_spec viable decisions bo := by
  have hbound : ∀ i ∈ List.range decisions.length,
      (bo + i) % decisions.length < decisions.length := by
    intro i hi
    have hpos : 0 < decisions.length :=
      Nat.lt_of_le_of_lt (Nat.zero_le i) (List.mem_range.mp hi)
    exact Nat.mod_lt _ hpos
  simp only [select_melders, select_spec, claimants, rotSeats]
  rw [winCollect_spec hdec rfl (List.range decisions.length) [] hbound,
    prioScan_spec "kong" hdec rfl (List.range decisions.length) hbound,
    prioScan_spec "pong" hdec rfl (List.range decisions.length) hbound,
    prioScan_spec "chow" hdec rfl (List.range decisions.length) hbound]
  exact select_assemble _ _ _ _

/-- Witness for C2: a pong contest between seats 1 (chose pong) and 0 (chose
skip) with rotation origin 2 — both the source function and the
specification award the pong to seat 1. -/
theorem C2_select_melders_spec_witness :
    AllDecided
      [some ["pong", "skip"], some ["pong", "skip"], none, none]
      [some "skip", some "pong", none, none] ∧
    select_melders
      [some ["pong", "skip"], some ["pong", "skip"], none, none]
      [some "skip", some "pong", none, none] 2 =
    select_spec
      [some ["pong", "skip"], some ["pong", "skip"], none, none]
      [some "skip", some "pong", none, none] 2 := by
  have hdec : AllDecided
      [some ["pong", "skip"], some ["pong", "skip"], none, none]
      [some "skip", some "pong", none, none] := by
    intro p hp pv hpv hne
    have hp4 : p < 4 := hp
    interval_cases p
    · cases hpv
      decide
    · cases hpv
      decide
    · cases hpv
    · cases hpv
  exact ⟨hdec, C2_select_melders_spec _ _ 2 hdec⟩


/-! ### Game-flow layer (claims C3, C6, C7, C8)

The context model carries exactly the fields the `flow.py` handlers under
verification read or write.  `extra` dictionaries become structures of
`Option` fields (`none` = key absent); Python truthiness of an entry is
`getD false` / non-emptiness.  A player's `decision` can be a decision name
or a tile (`PDecision`).  Handlers may mutate the context inside
`validate()` (that is claim C3's subject), so `validate` returns the result
together with the possibly-updated context. -/

inductive PDecision where
  | act (s : String)
  | tile (t : Nat)
deriving DecidableEq

structure PlayerExtra where
  flowered : Option Bool
  declared_ready : Option Bool
  waiting_tiles : Option (List Nat)
  water : Option (List Nat)
  bot : Option Bool
  ready : Option Bool
  asked : Option Bool
  viable_decisions : Option (List String)
  immediate_ready : Option Bool
deriving DecidableEq

def PlayerExtra.empty : PlayerExtra :=
  ⟨none, none, none, none, none, none, none, none, none⟩

structure PlayerL where
  hand : Hand
  discarded : List Nat
  decision : Option PDecision
  extra : PlayerExtra
deriving DecidableEq

def PlayerL.empty : PlayerL := ⟨⟨[], [], [], none⟩, [], none, PlayerExtra.empty⟩

/-- `Player.reset()`: clear the hand, the discard list, the decision and the
extra dictionary. -/
def PlayerL.reset (p : PlayerL) : PlayerL := PlayerL.empty

structure CtxExtra where
  tie : Option Bool
  tie_type : Option String
  flower_winner : Option Nat
  flower_chucker : Option Nat
  winners : Option (List Nat)
deriving DecidableEq

def CtxExtra.empty : CtxExtra := ⟨none, none, none, none, none⟩

structure GameSettingsL where
  declarable : Bool
  max_dealer_defended : Nat
  multi_winners : Bool
  tie_on_4_kongs : Bool
  tie_on_4_waiting : Bool
  tie_on_winds : Option String
  tie_wall : Nat
  tie_wall_per_kong : Nat
  water : Bool
  patterns_win : List String
  patterns_win_filter : List String
deriving DecidableEq

/-- The `GameSettings()` defaults of the source (the fields this layer
reads). -/
def GameSettingsL.init : GameSettingsL :=
  ⟨true, 999, false, true, false, some "all", 16, 1, true,
    ["seven-flowers", "eight-flowers"], []⟩

structure GameContextL where
  state : String
  wall : List Nat
  players : List PlayerL
  discarded_pool : List Nat
  cur_player_idx : Option Nat
  last_player_idx : Option Nat
  round : Nat
  matchNum : Nat
  dealer : Nat
  dealer_defended : Nat
  winners : Option (List Nat)
  settings : GameSettingsL
  extra : CtxExtra
deriving DecidableEq

namespace GameContextL

def getPlayer (ctx : GameContextL) (i : Nat) : PlayerL :=
  ctx.players.getD i PlayerL.empty

def setPlayer (ctx : GameContextL) (i : Nat) (p : PlayerL) : GameContextL :=
  { ctx with players := ctx.players.set i p }

/-- The index `context.cur_player_idx`, read where the source has already
ensured it is set. -/
def curIdx (ctx : GameContextL) : Nat := ctx.cur_player_idx.getD 0

/-- `GameContext.player(offset)`. -/
def player (ctx : GameContextL) (offset : Nat) : Option PlayerL :=
  match ctx.cur_player_idx with
  | none => none
  | some idx => some (ctx.getPlayer ((idx + offset) % 4))

/-- `GameContext.last_discarded()`. -/
def last_discarded (ctx : GameContextL) : Option Nat :=
  ctx.discarded_pool.getLast?

/-- The total kong count of `is_tie` (`Hand.num_kongs()` summed over the
players). -/
def total_kongs (ctx : GameContextL) : Nat :=
  (ctx.players.map (fun p => p.hand.num_kongs true true)).sum

/-- Truthiness of the `winners` field (`None` and `[]` are falsy). -/
def winnersTruthy : Option (List Nat) → Bool
  | some l => !l.isEmpty
  | none => false

/-- Translation of `GameContext.is_tie(cur_state, four_waiting, four_kongs,
wall_tie, four_winds)`. -/
def is_tie (ctx : GameContextL)
    (cur_state four_waiting four_kongs wall_tie four_winds : Bool) : Bool :=
  if cur_state && ctx.state == "end" && !winnersTruthy ctx.winners then true
  else if four_waiting && ctx.settings.tie_on_4_waiting &&
      decide ((ctx.players.filter
        (fun p => p.extra.declared_ready.getD false)).length > 3) then true
  else if four_kongs && ctx.settings.tie_on_4_kongs &&
      decide (ctx.total_kongs > 3) then true
  else if wall_tie && decide (ctx.wall.length ≤
      ctx.settings.tie_wall + ctx.total_kongs * ctx.settings.tie_wall_per_kong)
    then true
  else if four_winds then
    match ctx.settings.tie_on_winds with
    | none => false
    | some w =>
      let discarded : List (Option Nat) := ctx.players.map (fun p => p.discarded.head?)
      if w == "west" then
        decide ((discarded.filter (fun x => x == some ID_WEST)).length = 4)
      else
        match discarded.getD 0 none with
        | some t0 => is_wind t0 && (discarded.getD 1 none == some t0) &&
            (discarded.getD 1 none == discarded.getD 2 none) &&
            (discarded.getD 2 none == discarded.getD 3 none)
        | none => false
  else false

end GameContextL

/-! #### `patterns.match` for the two patterns the default settings name

Only `'seven-flowers'` and `'eight-flowers'` appear in the default
`patterns_win` (and `patterns_win_filter` is empty), so these are the only
pattern names this development instantiates; the catch-all branch is never
reached by the contexts of the theorems below.  Only the truthiness of the
returned `MatchResult` matters to `algo.can_win`. -/

def sevenFlowersB (ctx : GameContextL) (pidx : Nat) (inc : Option Nat) : Bool :=
  let hand := (ctx.getPlayer pidx).hand
  let self_picked := inc == hand.last_tile
  if !self_picked && hand.flowers.length == 7 &&
      (match inc with | some t => is_general_flower t | none => false) then true
  else if decide (hand.flowers.length > 7) && ctx.extra.flower_chucker.isSome then
    true
  else false

def eightFlowersB (ctx : GameContextL) (pidx : Nat) (inc : Option Nat) : Bool :=
  let hand := (ctx.getPlayer pidx).hand
  let self_picked := inc == hand.last_tile
  if self_picked && hand.flowers.length == 7 &&
      (match inc with | some t => is_general_flower t | none => false) then true
  else if decide (hand.flowers.length > 7) && ctx.extra.flower_chucker.isNone then
    true
  else false

def patternMatchB (name : String) (ctx : GameContextL) (pidx : Nat)
    (incoming : Option Nat) : Bool :=
  let hand := (ctx.getPlayer pidx).hand
  let inc := Hand.orTile incoming (Hand.orTile hand.last_tile ctx.last_discarded)
  if name == "seven-flowers" then sevenFlowersB ctx pidx inc
  else if name == "eight-flowers" then eightFlowersB ctx pidx inc
  else false

/-! #### `algo.get_decision` and the bot -/

def decisionInList : Option PDecision → List String → Bool
  | some (PDecision.act s), l => l.contains s
  | _, _ => false

/-- `DumbBot.make_decision`. -/
def botDecision (ctx : GameContextL) (pidx : Nat) (viable : List String) :
    Option PDecision :=
  let p := ctx.getPlayer pidx
  if ctx.state == "discarding" then
    match p.hand.last_tile with
    | some t => some (PDecision.tile t)
    | none => none
  else
    let v := if viable.isEmpty then p.extra.viable_decisions.getD [] else viable
    if v.contains "win" then some (PDecision.act "win")
    else if v.contains "skip" then some (PDecision.act "skip")
    else none

/-- `algo.get_decision(context, player_idx, viable_decisions)`. -/
def get_decision (ctx : GameContextL) (pidx : Nat)
    (viable : Option (List String)) : Option PDecision :=
  let p := ctx.getPlayer pidx
  let vd : Option (List String) :=
    match viable with
    | some l => if l.isEmpty then p.extra.viable_decisions else some l
    | none => p.extra.viable_decisions
  match vd with
  | some l =>
    if l.isEmpty then none
    else if p.extra.bot.getD false then botDecision ctx pidx l
    else if p.extra.declared_ready.getD false then
      if ctx.state == "discarding" then
        match p.hand.last_tile with
        | some t => some (PDecision.tile t)
        | none => none
      else if l.contains "win" then some (PDecision.act "win")
      else some (PDecision.act "skip")
    else if decisionInList p.decision l then p.decision
    else none
  | none => none

/-! #### `algo.can_win`, `algo.ready`, `algo.waiting_tiles` -/

/-- `tile in waiting_tiles` guarded by the truthiness of `waiting_tiles`. -/
def inWaiting (owt : Option (List Nat)) (inc : Option Nat) : Bool :=
  match owt, inc with
  | some wt, some t => !wt.isEmpty && wt.contains t
  | _, _ => false

/-- `algo.can_win(context, player_idx, incoming_tile)` (the incoming tile is
resolved through `hand.last_tile` and the discard pool as in
`_get_incoming_tile`; the theorems below always reach it resolved). -/
def algoCanWin (ctx : GameContextL) (pidx : Nat) (incoming : Option Nat) : Bool :=
  let p := ctx.getPlayer pidx
  let hand := p.hand
  let inc := Hand.orTile incoming (Hand.orTile hand.last_tile ctx.last_discarded)
  if p.extra.declared_ready.getD false && inWaiting p.extra.waiting_tiles inc then
    true
  else if ctx.settings.water && inWaiting p.extra.water inc then false
  else if hand.can_win inc &&
      ctx.settings.patterns_win_filter.all (fun n => patternMatchB n ctx pidx inc)
    then true
  else if ctx.settings.patterns_win.any (fun n => patternMatchB n ctx pidx inc)
    then true
  else false

/-- `algo.ready(context)` for a given player index. -/
def algoReady (ctx : GameContextL) (pidx : Nat) : Bool :=
  catalogIds.any (fun t => algoCanWin ctx pidx (some t))

/-- `algo.waiting_tiles(context, player_idx)`. -/
def algoWaitingTiles (ctx : GameContextL) (pidx : Nat) : List Nat :=
  let p := ctx.getPlayer pidx
  if p.extra.declared_ready.getD false && p.extra.waiting_tiles.isSome then
    p.extra.waiting_tiles.getD []
  else
    catalogIds.foldl (fun tiles t =>
      if algoCanWin ctx pidx (some t) then insort tiles t else tiles) []

/-- `algo.can_4_kong_win` (vacuous under the default `patterns_win`). -/
def can_4_kong_win (ctx : GameContextL) (pidx : Nat) (tile : Option Nat) : Bool :=
  if ctx.settings.patterns_win.contains "four-kongs" then
    patternMatchB "four-kongs" ctx pidx tile
  else false

/-! #### FlowResult -/

structure FlowResultL where
  success : Bool
  reason : Option String
  viable_decisions : Option (List (Option (List String)))
deriving DecidableEq

def FlowResultL.ok : FlowResultL := ⟨true, none, none⟩

def FlowResultL.fail (r : String) : FlowResultL := ⟨false, some r, none⟩

/-- `FlowResult.set_viable_decisions`. -/
def FlowResultL.setViable (res : FlowResultL) (pidx : Nat) (v : List String) :
    FlowResultL :=
  let base := res.viable_decisions.getD [none, none, none, none]
  { res with viable_decisions := some (base.set pidx (some v)) }

/-- Update one player's extra dictionary. -/
def GameContextL.updExtra (ctx : GameContextL) (i : Nat)
    (f : PlayerExtra → PlayerExtra) : GameContextL :=
  ctx.setPlayer i { ctx.getPlayer i with extra := f (ctx.getPlayer i).extra }

/-- `GameContext.next_turn()`. -/
def GameContextL.next_turn (ctx : GameContextL) : GameContextL :=
  match ctx.cur_player_idx with
  | none => { ctx with cur_player_idx := some 0, last_player_idx := none }
  | some ci =>
    { ctx with last_player_idx := some ci, cur_player_idx := some ((ci + 1) % 4) }


/-! #### DrawingHandler (claim C6) -/

namespace DrawingHandler

/-- `DrawingHandler._player_who_can_flower_win`. -/
def player_who_can_flower_win (ctx : GameContextL) : Option Nat × Option Nat :=
  if ctx.settings.patterns_win.contains "seven-flowers" then
    let ci := ctx.curIdx
    let nf := (ctx.getPlayer ci).hand.flowers.length
    if nf == 1 then
      match [1, 2, 3].find? (fun i =>
          (ctx.getPlayer ((ci + i) % 4)).hand.flowers.length == 7) with
      | some i => (some ((ci + i) % 4), some ci)
      | none => (none, none)
    else if nf == 7 then
      match [1, 2, 3].find? (fun i =>
          !(ctx.getPlayer ((ci + i) % 4)).hand.flowers.isEmpty) with
      | some i => (some ci, some ((ci + i) % 4))
      | none => (none, none)
    else (none, none)
  else (none, none)

/-- `DrawingHandler._player_who_wants_to_flower_win`. -/
def player_who_wants_to_flower_win (ctx : GameContextL) :
    Option Nat × Option Nat :=
  let cp := ctx.getPlayer ctx.curIdx
  if cp.extra.flowered.getD false then
    match ctx.extra.flower_winner, ctx.extra.flower_chucker with
    | some r, some c =>
      if get_decision ctx r none == some (PDecision.act "win") then
        (some r, some c)
      else (none, none)
    | _, _ => (none, none)
  else (none, none)

/-- `DrawingHandler._cleanup`. -/
def cleanup (ctx : GameContextL) : GameContextL :=
  match ctx.extra.flower_winner with
  | some fw =>
    let ctx1 := { ctx with extra := { ctx.extra with flower_winner := none } }
    ctx1.updExtra fw (fun e => { e with viable_decisions := none })
  | none => ctx

/-- `DrawingHandler.validate` (mutates the context on the success path that
stores the flower winner). -/
def validate (ctx : GameContextL) : FlowResultL × GameContextL :=
  let p := ctx.getPlayer ctx.curIdx
  let hand := p.hand
  if hand.last_tile.isSome then (FlowResultL.fail "bad-context", ctx)
  else if p.extra.flowered.getD false then
    if hand.flowers.isEmpty then (FlowResultL.fail "bad-context", ctx)
    else
      match player_who_can_flower_win ctx with
      | (some robber, some chucker) =>
        let viable := ["win", "skip"]
        if (get_decision ctx robber (some viable)).isNone then
          ((FlowResultL.fail "decisions-needed").setViable robber viable, ctx)
        else
          let ctx1 := { ctx with extra := { ctx.extra with
            flower_winner := some robber, flower_chucker := some chucker } }
          (FlowResultL.ok,
            ctx1.updExtra robber (fun e => { e with viable_decisions := some viable }))
      | _ => (FlowResultL.ok, ctx)
  else (FlowResultL.ok, ctx)

/-- `DrawingHandler.next`. -/
def next (ctx : GameContextL) : GameContextL :=
  if ctx.is_tie true false false true false then
    let ctx1 := { ctx with
      winners := none, state := "end",
      extra := { ctx.extra with tie_type := some "wall" } }
    cleanup ctx1
  else
    let ctx1 :=
      match player_who_wants_to_flower_win ctx with
      | (some robber, some chucker) =>
        let chuckerP := ctx.getPlayer chucker
        match chuckerP.hand.flowers.getLast? with
        | some flower =>
          let ctx2 := ctx.setPlayer chucker { chuckerP with hand :=
            { chuckerP.hand with flowers := chuckerP.hand.flowers.dropLast } }
          let robberP := ctx2.getPlayer robber
          let ctx3 := ctx2.setPlayer robber
            { robberP with hand := robberP.hand.add_flower flower }
          let ctx4 := ctx3.updExtra robber (fun e => { e with flowered := some true })
          let ctx5 := ctx4.updExtra chucker (fun e => { e with flowered := none })
          if ctx5.cur_player_idx != some robber then
            { ctx5 with
              last_player_idx := ctx5.cur_player_idx,
              cur_player_idx := some robber }
          else ctx5
        | none => ctx
      | _ => ctx
    let ci := ctx1.curIdx
    let p := ctx1.getPlayer ci
    let ctx6 := ctx1.setPlayer ci
      { p with hand := { p.hand with last_tile := ctx1.wall.getLast? } }
    let ctx7 := { ctx6 with wall := ctx6.wall.dropLast, state := "drawn" }
    cleanup ctx7

/-- `Handler.handle` for DrawingHandler. -/
def handle (ctx : GameContextL) : FlowResultL × GameContextL :=
  match validate ctx with
  | (r, c) => if r.success then (r, next c) else (r, c)

end DrawingHandler

/-! #### DiscardedHandler (claims C3 and C7) -/

namespace DiscardedHandler

/-- `DiscardedHandler._get_other_viable_decisions`. -/
def get_other_viable_decisions (ctx : GameContextL) (pidx : Nat) : List String :=
  match ctx.last_discarded with
  | none => []
  | some t =>
    let p := ctx.getPlayer pidx
    let hand := p.hand
    let base : List String := if algoCanWin ctx pidx (some t) then ["win"] else []
    let base2 :=
      if !(p.extra.declared_ready.getD false) then
        base ++
          (if hand.can_kong t && !can_4_kong_win ctx pidx (some t) then ["kong"]
            else []) ++
          (if hand.can_pong t then ["pong"] else []) ++
          (if (ctx.curIdx + 1) % 4 == pidx && hand.can_chow t then ["chow"]
            else [])
      else base
    if !base2.isEmpty then base2 ++ ["skip"] else base2

/-- `DiscardedHandler._get_viable_decisions`. -/
def get_viable_decisions (ctx : GameContextL) : List (Option (List String)) :=
  let ci := ctx.curIdx
  [1, 2, 3].foldl (fun acc i =>
      let pidx := (ci + i) % 4
      acc.set pidx (some (get_other_viable_decisions ctx pidx)))
    [none, none, none, none]

/-- `DiscardedHandler._tie`. -/
def tieApply (ctx : GameContextL) : GameContextL :=
  let ready_count := (ctx.players.filter
    (fun p => p.extra.declared_ready.getD false)).length
  { ctx with
    state := "end", winners := none,
    extra := { ctx.extra with tie_type :=
      if ready_count < 4 then some "4-wind" else some "4-waiting" } }

/-- `DiscardedHandler._declare_ready`. -/
def declare_ready (ctx : GameContextL) : GameContextL :=
  let ci := ctx.curIdx
  let wt := algoWaitingTiles ctx ci
  let ctx1 := ctx.updExtra ci (fun e =>
    { e with declared_ready := some true, waiting_tiles := some wt })
  if (ctx1.getPlayer ci).discarded.length == 1 then
    ctx1.updExtra ci (fun e => { e with immediate_ready := some true })
  else ctx1

/-- `DiscardedHandler._cleanup`. -/
def cleanup (ctx : GameContextL) : GameContextL :=
  let ci := ctx.curIdx
  let ctx1 := ctx.updExtra ci (fun e => { e with ready := none, asked := none })
  let ctx2 := { ctx1 with extra := { ctx1.extra with tie := none } }
  { ctx2 with players := ctx2.players.map (fun p => { p with decision := none }) }

/-- `DiscardedHandler.validate`.  On the ready-but-undecided path the player's
`extra['ready']` is set **before** the failure return — the context comes back
modified (claim C3). -/
def validate (ctx : GameContextL) : FlowResultL × GameContextL :=
  match ctx.player 0 with
  | none => (FlowResultL.fail "bad-context", ctx)
  | some p =>
    if ctx.last_discarded.isNone then (FlowResultL.fail "bad-context", ctx)
    else if ctx.is_tie true true false false true then
      (FlowResultL.ok, { ctx with extra := { ctx.extra with tie := some true } })
    else if ctx.settings.declarable && !(p.extra.asked.getD false) &&
        algoReady ctx ctx.curIdx then
      let ctx1 := ctx.updExtra ctx.curIdx (fun e => { e with ready := some true })
      let viable := ["declare", "skip"]
      match get_decision ctx1 ctx1.curIdx (some viable) with
      | none =>
        ((FlowResultL.fail "decisions-needed").setViable ctx1.curIdx viable, ctx1)
      | some d =>
        let ci := ctx1.curIdx
        let pl := ctx1.getPlayer ci
        (FlowResultL.ok, ctx1.setPlayer ci { pl with decision := some d })
    else (FlowResultL.ok, ctx)

/-- `DiscardedHandler.next`. -/
def next (ctx : GameContextL) : GameContextL :=
  let p := ctx.getPlayer ctx.curIdx
  if ctx.extra.tie.getD false then cleanup (tieApply ctx)
  else if p.extra.ready.getD false && !(p.extra.asked.getD false) then
    let ctx1 := if p.decision == some (PDecision.act "declare") then
        declare_ready ctx
      else ctx
    let ctx2 := cleanup ctx1
    ctx2.updExtra ctx2.curIdx (fun e => { e with asked := some true })
  else
    let viable := get_viable_decisions ctx
    let someone := decide ((viable.filter (fun x =>
      match x with | some l => !l.isEmpty | none => false)).length > 0)
    if someone then
      let ctx1 := { ctx with state := "melding" }
      let ctx2 := [0, 1, 2, 3].foldl (fun acc i =>
          match viable.getD i none with
          | some l =>
            if !l.isEmpty then
              GameContextL.updExtra acc i (fun e =>
                { e with viable_decisions := some l })
            else acc
          | none => acc) ctx1
      cleanup ctx2
    else
      cleanup ({ ctx with state := "drawing" }).next_turn

/-- `Handler.handle` for DiscardedHandler. -/
def handle (ctx : GameContextL) : FlowResultL × GameContextL :=
  match validate ctx with
  | (r, c) => if r.success then (r, next c) else (r, c)

end DiscardedHandler

/-! #### ScoredHandler (claim C8) -/

namespace ScoredHandler

/-- `ScoredHandler._get_next_dealer`. -/
def get_next_dealer (ctx : GameContextL) : Nat :=
  if (!GameContextL.winnersTruthy ctx.winners ||
      (ctx.winners.getD []).contains ctx.dealer) &&
      decide (ctx.dealer_defended < ctx.settings.max_dealer_defended) then
    ctx.dealer
  else (ctx.dealer + 1) % 4

/-- `ScoredHandler._should_goto_next_round`. -/
def should_goto_next_round (ctx : GameContextL) : Bool :=
  ctx.dealer == 3 && get_next_dealer ctx != ctx.dealer

/-- `ScoredHandler.next`. -/
def next (ctx : GameContextL) : GameContextL :=
  let ctx1 := { ctx with
    players := ctx.players.map PlayerL.reset,
    discarded_pool := [], cur_player_idx := some 0, last_player_idx := none }
  let ctx2 :=
    if should_goto_next_round ctx1 then
      { ctx1 with round := ctx1.round + 1, matchNum := 0 }
    else { ctx1 with matchNum := ctx1.matchNum + 1 }
  let nd := get_next_dealer ctx2
  let ctx3 :=
    if nd == ctx2.dealer then
      { ctx2 with dealer_defended := ctx2.dealer_defended + 1 }
    else { ctx2 with dealer := nd, dealer_defended := 0 }
  { ctx3 with winners := none, state := "start", extra := CtxExtra.empty }

end ScoredHandler


/-! #### Claim C8: dealer retention and round advance -/

/-- The claim's retention condition: the match was a tie (no winners) or the
dealer is among the winners, and the defense count is below the cap. -/
def DealerDefends (ctx : GameContextL) : Prop :=
  (ctx.winners.getD [] = [] ∨ ctx.dealer ∈ ctx.winners.getD []) ∧
  ctx.dealer_defended < ctx.settings.max_dealer_defended

instance (ctx : GameContextL) : Decidable (DealerDefends ctx) := by
  unfold DealerDefends
  infer_instance

lemma defends_bool (ctx : GameContextL) :
    ((!GameContextL.winnersTruthy ctx.winners ||
      (ctx.winners.getD []).contains ctx.dealer) &&
      decide (ctx.dealer_defended < ctx.settings.max_dealer_defended)) = true ↔
    DealerDefends ctx := by
  rw [Bool.and_eq_true, Bool.or_eq_true, decide_eq_true_eq]
  unfold DealerDefends
  cases hw : ctx.winners with
  | none =>
    simp [GameContextL.winnersTruthy]
  | some l =>
    simp only [GameContextL.winnersTruthy, Option.getD_some]
    constructor
    · rintro ⟨h1 | h1, h2⟩
      · refine ⟨Or.inl ?_, h2⟩
        rw [Bool.not_eq_true'] at h1
        simpa using h1
      · exact ⟨Or.inr (by simpa using h1), h2⟩
    · rintro ⟨h1 | h1, h2⟩
      · refine ⟨Or.inl ?_, h2⟩
        rw [h1]
        rfl
      · exact ⟨Or.inr (by simpa using h1), h2⟩

theorem C8_scored_dealer_round (ctx : GameContextL) :
    ((ScoredHandler.next ctx).dealer =
      if DealerDefends ctx then ctx.dealer else (ctx.dealer + 1) % 4) ∧
    ((ScoredHandler.next ctx).dealer_defended =
      if DealerDefends ctx then ctx.dealer_defended + 1 else 0) ∧
    ((ScoredHandler.next ctx).round =
      if ctx.dealer = 3 ∧ ¬DealerDefends ctx then ctx.round + 1 else ctx.round) ∧
    ((ScoredHandler.next ctx).matchNum =
      if ctx.dealer = 3 ∧ ¬DealerDefends ctx then 0 else ctx.matchNum + 1) := by
  by_cases hd : DealerDefends ctx
  · have hb := (defends_bool ctx).mpr hd
    simp only [ScoredHandler.next, ScoredHandler.get_next_dealer,
      ScoredHandler.should_goto_next_round, apply_ite GameContextL.round,
      apply_ite GameContextL.matchNum, apply_ite GameContextL.dealer,
      apply_ite GameContextL.dealer_defended, apply_ite GameContextL.winners,
      apply_ite GameContextL.settings, ite_self, hb, if_true, bne_self_eq_false,
      Bool.and_false, Bool.false_eq_true, if_false, beq_self_eq_true,
      Bool.true_and, if_pos hd]
    refine ⟨trivial, trivial, ?_, ?_⟩
    · rw [if_neg (fun hc => hc.2 hd)]
    · rw [if_neg (fun hc => hc.2 hd)]
  · have hb : ((!GameContextL.winnersTruthy ctx.winners ||
        (ctx.winners.getD []).contains ctx.dealer) &&
        decide (ctx.dealer_defended < ctx.settings.max_dealer_defended)) = false := by
      rw [Bool.eq_false_iff]
      intro hc
      exact hd ((defends_bool ctx).mp hc)
    have hmod : ((ctx.dealer + 1) % 4 : Nat) ≠ ctx.dealer := by
      intro hc
      rcases Nat.lt_or_ge ctx.dealer 4 with hlt | hge
      · omega
      · have := Nat.mod_lt (ctx.dealer + 1) (show 0 < 4 by omega)
        omega
    have hne2 : (((ctx.dealer + 1) % 4 : Nat) == ctx.dealer) = false :=
      beq_eq_false_iff_ne.mpr hmod
    have hne : (((ctx.dealer + 1) % 4 : Nat) != ctx.dealer) = true := by
      rw [bne, hne2]
      rfl
    by_cases h3 : ctx.dealer = 3
    · have h3b : ((ctx.dealer : Nat) == 3) = true := by
        rw [h3]
        rfl
      simp only [ScoredHandler.next, ScoredHandler.get_next_dealer,
        ScoredHandler.should_goto_next_round, apply_ite GameContextL.round,
        apply_ite GameContextL.matchNum, apply_ite GameContextL.dealer,
        apply_ite GameContextL.dealer_defended, apply_ite GameContextL.winners,
        apply_ite GameContextL.settings, ite_self, hb, Bool.false_eq_true,
        if_false, h3b, hne, hne2, Bool.and_self, Bool.true_and, if_true,
        if_neg hd]
      refine ⟨trivial, trivial, ?_, ?_⟩
      · rw [if_pos ⟨h3, hd⟩]
      · rw [if_pos ⟨h3, hd⟩]
    · have h3b : ((ctx.dealer : Nat) == 3) = false :=
        beq_eq_false_iff_ne.mpr h3
      simp only [ScoredHandler.next, ScoredHandler.get_next_dealer,
        ScoredHandler.should_goto_next_round, apply_ite GameContextL.round,
        apply_ite GameContextL.matchNum, apply_ite GameContextL.dealer,
        apply_ite GameContextL.dealer_defended, apply_ite GameContextL.winners,
        apply_ite GameContextL.settings, ite_self, hb, Bool.false_eq_true,
        if_false, h3b, hne2, Bool.false_and, if_neg hd]
      refine ⟨trivial, trivial, ?_, ?_⟩
      · rw [if_neg (fun hc => h3 hc.1)]
      · rw [if_neg (fun hc => h3 hc.1)]


/-! #### Claim C6: wall tie on entering the drawing phase -/

lemma drawing_cleanup_fields (ctx : GameContextL) :
    (DrawingHandler.cleanup ctx).state = ctx.state ∧
    (DrawingHandler.cleanup ctx).winners = ctx.winners ∧
    (DrawingHandler.cleanup ctx).wall = ctx.wall ∧
    (DrawingHandler.cleanup ctx).extra.tie_type = ctx.extra.tie_type := by
  rw [DrawingHandler.cleanup]
  cases hfw : ctx.extra.flower_winner with
  | none => exact ⟨rfl, rfl, rfl, rfl⟩
  | some fw => exact ⟨rfl, rfl, rfl, rfl⟩

/-- Claim C6: entering `drawing` with the wall at exactly the tie threshold
(`tie_wall` plus `tie_wall_per_kong` per kong; zero kongs on the table) ends
the match as a wall tie with no winners, and no tile leaves the wall.  The
side hypotheses put the context on the plain path of `validate` (no pending
drawn tile, no flower just drawn). -/
theorem C6_wall_tie (ctx : GameContextL)
    (hstate : ctx.state = "drawing")
    (hlast : (ctx.getPlayer ctx.curIdx).hand.last_tile = none)
    (hflw : (ctx.getPlayer ctx.curIdx).extra.flowered.getD false = false)
    (hkongs : ctx.total_kongs = 0)
    (hwall : ctx.wall.length = ctx.settings.tie_wall) :
    (DrawingHandler.handle ctx).1.success = true ∧
    (DrawingHandler.handle ctx).2.state = "end" ∧
    (DrawingHandler.handle ctx).2.extra.tie_type = some "wall" ∧
    (DrawingHandler.handle ctx).2.winners = none ∧
    (DrawingHandler.handle ctx).2.wall = ctx.wall := by
  have hval : DrawingHandler.validate ctx = (FlowResultL.ok, ctx) := by
    rw [DrawingHandler.validate]
    rw [hlast]
    rw [if_neg (by rw [Option.isSome_none]; exact Bool.false_ne_true)]
    rw [hflw]
    rw [if_neg Bool.false_ne_true]
  have htie : ctx.is_tie true false false true false = true := by
    rw [GameContextL.is_tie]
    have h1 : (true && ctx.state == "end" &&
        !GameContextL.winnersTruthy ctx.winners) = false := by
      rw [hstate]
      rfl
    rw [if_neg (by rw [h1]; exact Bool.false_ne_true)]
    rw [if_neg (by rw [Bool.false_and]; exact Bool.false_ne_true)]
    rw [if_neg (by rw [Bool.false_and]; exact Bool.false_ne_true)]
    rw [if_pos (by
      rw [Bool.true_and, decide_eq_true_eq, hwall, hkongs]
      omega)]
  have hnext : DrawingHandler.next ctx = DrawingHandler.cleanup
      { ctx with
        winners := none, state := "end",
        extra := { ctx.extra with tie_type := some "wall" } } := by
    rw [DrawingHandler.next]
    rw [if_pos htie]
  have hhandle : DrawingHandler.handle ctx =
      (FlowResultL.ok, DrawingHandler.next ctx) := by
    rw [DrawingHandler.handle, hval]
    rfl
  rw [hhandle, hnext]
  obtain ⟨c1, c2, c3, c4⟩ := drawing_cleanup_fields
    { ctx with
      winners := none, state := "end",
      extra := { ctx.extra with tie_type := some "wall" } }
  exact ⟨rfl, c1, c4, c2, c3⟩

/-- Witness for C6: a four-player context in the drawing phase whose 16-tile
wall sits exactly at the default tie threshold. -/
theorem C6_wall_tie_witness :
    (DrawingHandler.handle
      ⟨"drawing", List.replicate 16 ID_CHAR1,
        [PlayerL.empty, PlayerL.empty, PlayerL.empty, PlayerL.empty],
        [], some 0, none, 0, 0, 0, 0, none, GameSettingsL.init,
        CtxExtra.empty⟩).1.success = true ∧
    (DrawingHandler.handle
      ⟨"drawing", List.replicate 16 ID_CHAR1,
        [PlayerL.empty, PlayerL.empty, PlayerL.empty, PlayerL.empty],
        [], some 0, none, 0, 0, 0, 0, none, GameSettingsL.init,
        CtxExtra.empty⟩).2.state = "end" ∧
    (DrawingHandler.handle
      ⟨"drawing", List.replicate 16 ID_CHAR1,
        [PlayerL.empty, PlayerL.empty, PlayerL.empty, PlayerL.empty],
        [], some 0, none, 0, 0, 0, 0, none, GameSettingsL.init,
        CtxExtra.empty⟩).2.extra.tie_type = some "wall" := by
  have h := C6_wall_tie
    ⟨"drawing", List.replicate 16 ID_CHAR1,
      [PlayerL.empty, PlayerL.empty, PlayerL.empty, PlayerL.empty],
      [], some 0, none, 0, 0, 0, 0, none, GameSettingsL.init, CtxExtra.empty⟩
    rfl rfl rfl (by decide) (by decide)
  exact ⟨h.1, h.2.1, h.2.2.1⟩


/-! #### Claim C7: four-wind tie in the discarded phase -/

lemma discarded_cleanup_fields (ctx : GameContextL) :
    (DiscardedHandler.cleanup ctx).state = ctx.state ∧
    (DiscardedHandler.cleanup ctx).winners = ctx.winners ∧
    (DiscardedHandler.cleanup ctx).extra.tie_type = ctx.extra.tie_type :=
  ⟨rfl, rfl, rfl⟩

/-- Claim C7 (amended): if every player's first discard is one same wind tile
under the default `'all'` wind-tie rule — and fewer than four players have
declared ready — the discarded step ends the match with no winners and tie
type `'4-wind'`. -/
theorem C7_four_wind_tie (ctx : GameContextL) (ci : Nat) (t0 w : Nat)
    (hstate : ctx.state = "discarded")
    (hcur : ctx.cur_player_idx = some ci)
    (hpool : ctx.last_discarded = some t0)
    (hwinds : ctx.settings.tie_on_winds = some "all")
    (hlen : ctx.players.length = 4)
    (hw : is_wind w = true)
    (hfirst : ∀ p ∈ ctx.players, p.discarded.head? = some w)
    (hready : (ctx.players.filter
      (fun p => p.extra.declared_ready.getD false)).length < 4) :
    (DiscardedHandler.handle ctx).1.success = true ∧
    (DiscardedHandler.handle ctx).2.state = "end" ∧
    (DiscardedHandler.handle ctx).2.winners = none ∧
    (DiscardedHandler.handle ctx).2.extra.tie_type = some "4-wind" := by
  have hd : ∀ i, i < 4 →
      (ctx.players.map (fun p => p.discarded.head?)).getD i none = some w := by
    intro i hi
    have hi2 : i < (ctx.players.map (fun p => p.discarded.head?)).length := by
      rw [List.length_map, hlen]
      exact hi
    rw [List.getD_eq_get _ _ hi2, List.get_eq_getElem, List.getElem_map]
    exact hfirst _ (List.getElem_mem _)
  have htie : ctx.is_tie true true false false true = true := by
    rw [GameContextL.is_tie]
    have h1 : (true && ctx.state == "end" &&
        !GameContextL.winnersTruthy ctx.winners) = false := by
      rw [hstate]
      rfl
    rw [if_neg (by rw [h1]; exact Bool.false_ne_true)]
    have h2 : (true && ctx.settings.tie_on_4_waiting &&
        decide ((ctx.players.filter
          (fun p => p.extra.declared_ready.getD false)).length > 3)) = false := by
      rw [decide_eq_false (by omega :
        ¬(ctx.players.filter
          (fun p => p.extra.declared_ready.getD false)).length > 3)]
      rw [Bool.and_false]
    rw [if_neg (by rw [h2]; exact Bool.false_ne_true)]
    rw [if_neg (by rw [Bool.false_and]; exact Bool.false_ne_true)]
    rw [if_neg (by rw [Bool.false_and]; exact Bool.false_ne_true)]
    rw [if_pos rfl, hwinds]
    show (if (("all" : String) == "west") = true
        then decide (((ctx.players.map (fun p => p.discarded.head?)).filter
          (fun x => x == some ID_WEST)).length = 4)
        else
          match (ctx.players.map (fun p => p.discarded.head?)).getD 0 none with
          | some t1 => is_wind t1 &&
              ((ctx.players.map (fun p => p.discarded.head?)).getD 1 none ==
                some t1) &&
              ((ctx.players.map (fun p => p.discarded.head?)).getD 1 none ==
                (ctx.players.map (fun p => p.discarded.head?)).getD 2 none) &&
              ((ctx.players.map (fun p => p.discarded.head?)).getD 2 none ==
                (ctx.players.map (fun p => p.discarded.head?)).getD 3 none)
          | none => false) = true
    rw [if_neg (by decide : ¬((("all" : String) == "west") = true))]
    rw [hd 0 (by omega), hd 1 (by omega), hd 2 (by omega), hd 3 (by omega)]
    show (is_wind w && (some w == some w) && (some w == some w) &&
      (some w == some w)) = true
    rw [hw]
    simp
  have hval : DiscardedHandler.validate ctx = (FlowResultL.ok,
      { ctx with extra := { ctx.extra with tie := some true } }) := by
    rw [DiscardedHandler.validate]
    rw [GameContextL.player, hcur]
    show (if ctx.last_discarded.isNone = true then _ else _) = _
    rw [hpool]
    rw [if_neg (by rw [Option.isNone_some]; exact Bool.false_ne_true)]
    rw [if_pos htie]
  have hnext : DiscardedHandler.next
      { ctx with extra := { ctx.extra with tie := some true } } =
      DiscardedHandler.cleanup (DiscardedHandler.tieApply
        { ctx with extra := { ctx.extra with tie := some true } }) := rfl
  have htiea : DiscardedHandler.tieApply
      { ctx with extra := { ctx.extra with tie := some true } } =
      { ctx with
        state := "end", winners := none,
        extra := { ctx.extra with tie := some true, tie_type := some "4-wind" } } := by
    rw [DiscardedHandler.tieApply]
    rw [if_pos (show (({ ctx with extra := { ctx.extra with tie := some true }} :
      GameContextL).players.filter
        (fun p => p.extra.declared_ready.getD false)).length < 4 from hready)]
  have hhandle : DiscardedHandler.handle ctx = (FlowResultL.ok,
      DiscardedHandler.next
        { ctx with extra := { ctx.extra with tie := some true } }) := by
    rw [DiscardedHandler.handle, hval]
    rfl
  rw [hhandle, hnext, htiea]
  obtain ⟨c1, c2, c3⟩ := discarded_cleanup_fields
    { ctx with
      state := "end", winners := none,
      extra := { ctx.extra with tie := some true, tie_type := some "4-wind" } }
  exact ⟨rfl, c1, c2, c3⟩

/-- A player whose single discard so far is the east wind. -/
def eastPlayer : PlayerL := { PlayerL.empty with discarded := [ID_EAST] }

/-- The same player having also declared ready. -/
def eastReadyPlayer : PlayerL :=
  { eastPlayer with extra :=
    { PlayerExtra.empty with declared_ready := some true } }

/-- Witness for C7's amended theorem: four players whose first discard is the
east wind (none declared ready) tie as `'4-wind'`. -/
theorem C7_four_wind_tie_witness :
    (DiscardedHandler.handle
      ⟨"discarded", [], [eastPlayer, eastPlayer, eastPlayer, eastPlayer],
        [ID_EAST], some 0, none, 0, 0, 0, 0, none, GameSettingsL.init,
        CtxExtra.empty⟩).1.success = true ∧
    (DiscardedHandler.handle
      ⟨"discarded", [], [eastPlayer, eastPlayer, eastPlayer, eastPlayer],
        [ID_EAST], some 0, none, 0, 0, 0, 0, none, GameSettingsL.init,
        CtxExtra.empty⟩).2.extra.tie_type = some "4-wind" := by
  have h := C7_four_wind_tie
    ⟨"discarded", [], [eastPlayer, eastPlayer, eastPlayer, eastPlayer],
      [ID_EAST], some 0, none, 0, 0, 0, 0, none, GameSettingsL.init,
      CtxExtra.empty⟩
    0 ID_EAST ID_EAST rfl rfl rfl rfl rfl (by decide) (by decide) (by decide)
  exact ⟨h.1, h.2.2.2⟩

/-- Claim C7 (counterexample to the claim as stated): when all four players
have declared ready and each first discard is the same wind, the step still
ends the match with no winners, but records tie type `'4-waiting'`, not
`'4-wind'`. -/
theorem C7_four_wind_counterexample :
    (DiscardedHandler.handle
      ⟨"discarded", [],
        [eastReadyPlayer, eastReadyPlayer, eastReadyPlayer, eastReadyPlayer],
        [ID_EAST], some 0, none, 0, 0, 0, 0, none, GameSettingsL.init,
        CtxExtra.empty⟩).1.success = true ∧
    (DiscardedHandler.handle
      ⟨"discarded", [],
        [eastReadyPlayer, eastReadyPlayer, eastReadyPlayer, eastReadyPlayer],
        [ID_EAST], some 0, none, 0, 0, 0, 0, none, GameSettingsL.init,
        CtxExtra.empty⟩).2.state = "end" ∧
    (DiscardedHandler.handle
      ⟨"discarded", [],
        [eastReadyPlayer, eastReadyPlayer, eastReadyPlayer, eastReadyPlayer],
        [ID_EAST], some 0, none, 0, 0, 0, 0, none, GameSettingsL.init,
        CtxExtra.empty⟩).2.extra.tie_type = some "4-waiting" ∧
    (DiscardedHandler.handle
      ⟨"discarded", [],
        [eastReadyPlayer, eastReadyPlayer, eastReadyPlayer, eastReadyPlayer],
        [ID_EAST], some 0, none, 0, 0, 0, 0, none, GameSettingsL.init,
        CtxExtra.empty⟩).2.extra.tie_type ≠ some "4-wind" := by
  refine ⟨?_, ?_, ?_, ?_⟩ <;> decide


/-! #### Claim C3: validation failure must leave the context intact -/

/-- A current player holding the single tile CHAR1 (a ready hand: CHAR1
completes the pair), who has not yet answered the declare/skip question. -/
def c3Player : PlayerL := { PlayerL.empty with hand := Hand.init [ID_CHAR1] }

/-- A `discarded`-phase context on that player with CHAR2 just discarded. -/
def c3Ctx : GameContextL :=
  ⟨"discarded", [], [c3Player, PlayerL.empty, PlayerL.empty, PlayerL.empty],
    [ID_CHAR2], some 0, none, 0, 0, 0, 0, none, GameSettingsL.init,
    CtxExtra.empty⟩

/-- Claim C3 (refuting evaluation): `DiscardedHandler.validate` on `c3Ctx`
returns a failed result (`decisions-needed`), yet the returned context is not
the input context — the current player's `extra['ready']` flag has been
written before the failure return.  This contradicts the documented contract
of `Handler.validate` ("The input GameContext should remain intact if this
method returns a failed FlowResult"). -/
theorem C3_validate_mutates_on_failure :
    (DiscardedHandler.validate c3Ctx).1.success = false ∧
    (DiscardedHandler.validate c3Ctx).1.reason = some "decisions-needed" ∧
    ((DiscardedHandler.validate c3Ctx).2.getPlayer 0).extra.ready = some true ∧
    (c3Ctx.getPlayer 0).extra.ready = none ∧
    (DiscardedHandler.validate c3Ctx).2 ≠ c3Ctx := by
  refine ⟨?_, ?_, ?_, ?_, ?_⟩ <;> decide

end Mahjong
